import Mathlib

/-! # Pattern language of ImHex: lexer and evaluator

A shallow embedding of `source/lang/lexer.cpp` and `source/lang/evaluator.cpp`
(with the AST of `include/lang/ast_node.hpp`), followed by theorems about them.

Conventions of the embedding.

* Machine integers are natural numbers or integers with an explicit reduction
  modulo `2^w` wherever the C++ code narrows or can wrap (`u32` offsets of the
  lexer, the `u64` cursor of the evaluator, `u128` accumulation of literals).
* A C++ function that throws returns `Except`; the evaluator stops with a
  `Stop`, which is either the `EvaluateError` thrown, undefined behaviour of
  the C++ program, or exhaustion of the recursion fuel of the embedding.
* Recursive evaluator functions take a `fuel` argument that bounds the depth of
  the call stack. Loops (`for`) are separate functions recursing on the list or
  the counter they iterate over.
* Floating-point payloads are not interpreted: they are carried as `FloatVal`,
  and the host operations that inspect or combine them are fields of `Host`.
-/

namespace hex.lang

/-! ## Tokens (`token.hpp` is not among the sources; the enumerations are those
the lexer and the evaluator name) -/

/-- Keywords produced by the lexer. -/
inductive Keyword where
  | Struct | Union | Using | Enum | Bitfield | BigEndian | LittleEndian | If | Else
  deriving DecidableEq, Repr

/-- Operators produced by the lexer and consumed by the evaluator. -/
inductive Operator where
  | AtDeclaration | Assignment | Inherit
  | Plus | Minus | Star | Slash
  | ShiftLeft | ShiftRight | BitOr | BitAnd | BitXor | BitNot
  | BoolEquals | BoolNotEquals | BoolGreaterThan | BoolLessThan
  | BoolGreaterThanOrEquals | BoolLessThanOrEquals
  | BoolAnd | BoolOr | BoolXor | BoolNot
  | TernaryConditional
  deriving DecidableEq, Repr

/-- Separators produced by the lexer. -/
inductive Separator where
  | RoundBracketOpen | RoundBracketClose | CurlyBracketOpen | CurlyBracketClose
  | SquareBracketOpen | SquareBracketClose | Comma | Dot | ScopeResolution
  | EndOfExpression | EndOfProgram
  deriving DecidableEq, Repr

/-- Built-in value types, and `Any` (the type of a literal without a type of its own). -/
inductive ValueType where
  | Unsigned8Bit | Signed8Bit | Unsigned16Bit | Signed16Bit
  | Unsigned32Bit | Signed32Bit | Unsigned64Bit | Signed64Bit
  | Unsigned128Bit | Signed128Bit
  | Character | Float | Double | Padding | Any
  deriving DecidableEq, Repr

/-- Modelled from the spec: `Token::isUnsigned` of `token.hpp`, true of the
unsigned integer types. -/
def Token.isUnsigned : ValueType → Bool
  | .Unsigned8Bit | .Unsigned16Bit | .Unsigned32Bit | .Unsigned64Bit | .Unsigned128Bit => true
  | _ => false

/-- Modelled from the spec: `Token::isSigned` of `token.hpp`, true of the signed
integer types. -/
def Token.isSigned : ValueType → Bool
  | .Signed8Bit | .Signed16Bit | .Signed32Bit | .Signed64Bit | .Signed128Bit => true
  | _ => false

/-- Modelled from the spec: `Token::isFloatingPoint` of `token.hpp`, true of
`float` and `double`. -/
def Token.isFloatingPoint : ValueType → Bool
  | .Float | .Double => true
  | _ => false

/-- Modelled from the spec: `Token::getTypeSize` of `token.hpp`, the width in
bytes of a built-in type (`Any` has none). -/
def Token.getTypeSize : ValueType → Nat
  | .Unsigned8Bit | .Signed8Bit | .Character | .Padding => 1
  | .Unsigned16Bit | .Signed16Bit => 2
  | .Unsigned32Bit | .Signed32Bit | .Float => 4
  | .Unsigned64Bit | .Signed64Bit | .Double => 8
  | .Unsigned128Bit | .Signed128Bit => 16
  | .Any => 0

/-- Modelled from the spec: `Token::getTypeName` of `token.hpp`, the source
spelling of a built-in type. -/
def Token.getTypeName : ValueType → String
  | .Unsigned8Bit => "u8" | .Signed8Bit => "s8"
  | .Unsigned16Bit => "u16" | .Signed16Bit => "s16"
  | .Unsigned32Bit => "u32" | .Signed32Bit => "s32"
  | .Unsigned64Bit => "u64" | .Signed64Bit => "s64"
  | .Unsigned128Bit => "u128" | .Signed128Bit => "s128"
  | .Character => "char" | .Float => "float" | .Double => "double"
  | .Padding => "padding" | .Any => "???"

/-! ## Typed numerics -/

/-- The integer alternatives a typed numeric can hold. -/
inductive IntKind where
  | u8 | s8 | u16 | s16 | u32 | s32 | u64 | s64 | u128 | s128 | chr
  deriving DecidableEq, Repr

/-- Width in bits of an integer alternative. -/
def IntKind.bits : IntKind → Nat
  | .u8 | .s8 | .chr => 8
  | .u16 | .s16 => 16
  | .u32 | .s32 => 32
  | .u64 | .s64 => 64
  | .u128 | .s128 => 128

/-- Signedness of an integer alternative (`char` is signed on the host). -/
def IntKind.isSigned : IntKind → Bool
  | .s8 | .s16 | .s32 | .s64 | .s128 | .chr => true
  | _ => false

/-- A floating-point payload, carried but never interpreted by the embedding:
the result of `strtod` on the digits of a literal, such a result narrowed to
`float`, or a value the host computed. -/
inductive FloatVal where
  | strtod (digits : List Char)
  | narrow (value : FloatVal)
  | computed (bits : Nat)
  deriving DecidableEq, Repr

/-- The value held by an integer literal: the alternative of the variant and
its payload. -/
inductive Numeric where
  | int (kind : IntKind) (value : Int)
  | flt (isDouble : Bool) (value : FloatVal)
  deriving DecidableEq, Repr

/-- The pair `Token::IntegerLiteral`: a value type and the numeric it tags. -/
structure IntegerLiteral where
  type : ValueType
  value : Numeric
  deriving DecidableEq, Repr

/-- Two's-complement narrowing of an integer to an integer alternative. -/
def IntKind.wrap (k : IntKind) (v : Int) : Int :=
  if k.isSigned then (v + 2 ^ (k.bits - 1)) % 2 ^ k.bits - 2 ^ (k.bits - 1)
  else v % 2 ^ k.bits

/-- An integer is representable in an integer alternative. -/
def IntKind.fits (k : IntKind) (v : Int) : Bool :=
  decide (k.wrap v = v)

/-- Whether a numeric holds a floating-point alternative. -/
def Numeric.isFloating : Numeric → Bool
  | .int _ _ => false
  | .flt _ _ => true

/-- What the host's C++ implementation does with floating-point payloads. The
embedding never looks inside: arithmetic and comparison with a floating
operand, the test against zero and the conversion to an integer are all left to
the host. -/
structure Host where
  arith : Operator → Numeric → Numeric → FloatVal
  compare : Operator → Numeric → Numeric → Bool
  nonZero : FloatVal → Bool
  toInt : FloatVal → Int

/-- The test `value != 0` applied to the held alternative. -/
def Numeric.nonZero (h : Host) : Numeric → Bool
  | .int _ v => decide (v ≠ 0)
  | .flt _ f => h.nonZero f

/-- A `static_cast<u64>` of the held alternative. -/
def Numeric.toU64 (h : Host) : Numeric → Nat
  | .int _ v => (v % 2 ^ 64).toNat
  | .flt _ f => (h.toInt f % 2 ^ 64).toNat

/-- A `static_cast<s128>` of the held alternative. -/
def Numeric.toS128 (h : Host) : Numeric → Int
  | .int _ v => IntKind.s128.wrap v
  | .flt _ f => IntKind.s128.wrap (h.toInt f)

/-! ## Lexer (`source/lang/lexer.cpp`) -/

/-- The payload of a token, by token type. -/
inductive TokenValue where
  | Keyword (k : Keyword)
  | Operator (o : Operator)
  | Separator (s : Separator)
  | ValueType (t : ValueType)
  | Identifier (name : String)
  | Integer (literal : IntegerLiteral)
  deriving DecidableEq, Repr

/-- A token with the line it was read on. -/
structure Token where
  value : TokenValue
  lineNumber : Nat
  deriving DecidableEq, Repr

/-- The error a failed lexer run retains. -/
structure LexerError where
  message : String
  lineNumber : Nat
  deriving DecidableEq, Repr

/-- Narrowing to `u32`. -/
def u32 (n : Nat) : Nat := n % 2 ^ 32

/-- Narrowing to `u64`. -/
def u64 (n : Nat) : Nat := n % 2 ^ 64

/-- The value `std::string_view::npos` as a `size_t`. -/
def npos : Nat := 2 ^ 64 - 1

/-- The NUL character. -/
def nul : Char := Char.ofNat 0

/-- The C++ `std::isdigit` in the C locale. -/
def isdigit (c : Char) : Bool := decide (48 ≤ c.toNat ∧ c.toNat ≤ 57)

/-- The C++ `std::isalpha` in the C locale. -/
def isalpha (c : Char) : Bool :=
  decide ((65 ≤ c.toNat ∧ c.toNat ≤ 90) ∨ (97 ≤ c.toNat ∧ c.toNat ≤ 122))

/-- The C++ `std::isalnum` in the C locale. -/
def isalnum (c : Char) : Bool := isalpha c || isdigit c

/-- The C++ `std::isspace` in the C locale (it includes every `std::isblank` character). -/
def isspace (c : Char) : Bool := decide (c.toNat = 32 ∨ (9 ≤ c.toNat ∧ c.toNat ≤ 13))

/-- The C++ `std::isblank` in the C locale. -/
def isblank (c : Char) : Bool := decide (c.toNat = 32 ∨ c.toNat = 9)

/-- The C string starting at a position of the source: everything up to the
first NUL. -/
def cstr (code : List Char) (offset : Nat) : List Char :=
  (code.drop offset).takeWhile (fun c => c != nul)

/-- The function `matchTillInvalid`: the first character, then characters as
long as the predicate holds of them. -/
def matchTillInvalid (characters : List Char) (predicate : Char → Bool) : List Char :=
  match characters with
  | [] => []
  | c :: rest => c :: rest.takeWhile predicate

/-- The characters an integer literal may consist of. -/
def literalChars : List Char := "0123456789ABCDEFabcdef.xUL".toList

/-- The C++ `std::string_view::find_first_not_of`: the index of the first character that
is not in the set, or `npos`. -/
def findFirstNotOf (string allowed : List Char) : Nat :=
  match string.findIdx? (fun c => !allowed.contains c) with
  | some i => i
  | none => npos

/-- The C++ `std::string_view::substr`: `count` characters from `pos`, or as
many as there are. -/
def substr (string : List Char) (pos count : Nat) : List Char :=
  (string.drop pos).take (min count (string.length - pos))

/-- The function `getIntegerLiteralLength`. -/
def getIntegerLiteralLength (string : List Char) : Nat :=
  findFirstNotOf string literalChars

/-- The C++ `std::string_view::ends_with`. -/
def endsWith (s suffix : List Char) : Bool := suffix.isSuffixOf s

/-- The C++ `std::string_view::starts_with`. -/
def startsWith (s pre : List Char) : Bool := pre.isPrefixOf s

/-- The C++ `std::string_view::remove_suffix`. -/
def removeSuffix (s : List Char) (n : Nat) : List Char := s.take (s.length - n)

/-- The value of a digit character in the accumulation loop of
`parseIntegerLiteral`, when it has one. -/
def digitValue (c : Char) : Option Nat :=
  if isdigit c then some (c.toNat - 48)
  else if 65 ≤ c.toNat ∧ c.toNat ≤ 70 then some (10 + (c.toNat - 65))
  else if 97 ≤ c.toNat ∧ c.toNat ≤ 102 then some (10 + (c.toNat - 97))
  else none

/-- The accumulation loop of `parseIntegerLiteral`, in `u128`. -/
def accumulate (base : Nat) : List Char → Nat → Option Nat
  | [], integer => some integer
  | c :: rest, integer =>
    match digitValue c with
    | some d => accumulate base rest ((integer * base % 2 ^ 128 + d) % 2 ^ 128)
    | none => none

/-- The suffix stage of `parseIntegerLiteral`: the type a suffix selects and
the literal without it. -/
def stripSuffix (numberData : List Char) : ValueType × List Char :=
  if endsWith numberData ['U'] then (.Unsigned32Bit, removeSuffix numberData 1)
  else if endsWith numberData ['U', 'L'] then (.Unsigned64Bit, removeSuffix numberData 2)
  else if endsWith numberData ['U', 'L', 'L'] then (.Unsigned128Bit, removeSuffix numberData 3)
  else if endsWith numberData ['L'] then (.Signed64Bit, removeSuffix numberData 1)
  else if endsWith numberData ['L', 'L'] then (.Signed128Bit, removeSuffix numberData 2)
  else if !startsWith numberData ['0', 'x'] && !startsWith numberData ['0', 'b'] then
    if endsWith numberData ['F'] then (.Float, removeSuffix numberData 1)
    else if endsWith numberData ['D'] then (.Double, removeSuffix numberData 1)
    else (.Any, numberData)
  else (.Any, numberData)

/-- The base stage of `parseIntegerLiteral`: the base, the digits and the type,
or nothing when the literal is rejected. (`numberData[0]` of an empty view
is read as a character that is not a digit.) -/
def selectBase (type : ValueType) (numberData : List Char) :
    Option (Nat × List Char × ValueType) :=
  if startsWith numberData ['0', 'x'] then
    let digits := numberData.drop 2
    if Token.isFloatingPoint type then none
    else if findFirstNotOf digits "0123456789ABCDEFabcdef".toList != npos then none
    else some (16, digits, type)
  else if startsWith numberData ['0', 'b'] then
    let digits := numberData.drop 2
    if Token.isFloatingPoint type then none
    else if findFirstNotOf digits "01".toList != npos then none
    else some (2, digits, type)
  else if numberData.contains '.' || Token.isFloatingPoint type then
    let type := if type = .Any then .Double else type
    if numberData.count '.' > 1 || findFirstNotOf numberData "0123456789.".toList != npos then none
    else if endsWith numberData ['.'] then none
    else some (10, numberData, type)
  else if isdigit (numberData.headD nul) then
    if findFirstNotOf numberData "0123456789".toList != npos then none
    else some (10, numberData, type)
  else none

/-- The function `parseIntegerLiteral`. -/
def parseIntegerLiteral (string : List Char) : Option IntegerLiteral :=
  let endPos := getIntegerLiteralLength string
  let numberData := substr string 0 endPos
  let (type, numberData) := stripSuffix numberData
  match selectBase type numberData with
  | none => none
  | some (base, numberData, type) =>
    let type := if type = .Any then .Signed32Bit else type
    if numberData.length = 0 then none
    else if Token.isUnsigned type || Token.isSigned type then
      match accumulate base numberData 0 with
      | none => none
      | some integer =>
        match type with
        | .Unsigned32Bit => some ⟨type, .int .u32 (IntKind.u32.wrap integer)⟩
        | .Signed32Bit => some ⟨type, .int .s32 (IntKind.s32.wrap integer)⟩
        | .Unsigned64Bit => some ⟨type, .int .u64 (IntKind.u64.wrap integer)⟩
        | .Signed64Bit => some ⟨type, .int .s64 (IntKind.s64.wrap integer)⟩
        | .Unsigned128Bit => some ⟨type, .int .u128 (IntKind.u128.wrap integer)⟩
        | .Signed128Bit => some ⟨type, .int .s128 (IntKind.s128.wrap integer)⟩
        | _ => none
    else if Token.isFloatingPoint type then
      match type with
      | .Float => some ⟨type, .flt false (.narrow (.strtod numberData))⟩
      | .Double => some ⟨type, .flt true (.strtod numberData)⟩
      | _ => none
    else none

/-- The state of the scanning loop of `Lexer::lex`. -/
structure LexState where
  offset : Nat
  lineNumber : Nat
  tokens : List Token
  deriving DecidableEq, Repr

/-- What one round of the scanning loop does: go on, leave the loop with the
tokens (the end-of-program token appended), or throw. -/
inductive LexStep where
  | next (st : LexState)
  | finished (tokens : List Token)
  | failed (e : LexerError)
  deriving DecidableEq, Repr

/-- The token an identifier stands for: a keyword, a built-in type, or itself. -/
def identifierToken (identifier : String) : TokenValue :=
  if identifier = "struct" then .Keyword .Struct
  else if identifier = "union" then .Keyword .Union
  else if identifier = "using" then .Keyword .Using
  else if identifier = "enum" then .Keyword .Enum
  else if identifier = "bitfield" then .Keyword .Bitfield
  else if identifier = "be" then .Keyword .BigEndian
  else if identifier = "le" then .Keyword .LittleEndian
  else if identifier = "if" then .Keyword .If
  else if identifier = "else" then .Keyword .Else
  else if identifier = "u8" then .ValueType .Unsigned8Bit
  else if identifier = "s8" then .ValueType .Signed8Bit
  else if identifier = "u16" then .ValueType .Unsigned16Bit
  else if identifier = "s16" then .ValueType .Signed16Bit
  else if identifier = "u32" then .ValueType .Unsigned32Bit
  else if identifier = "s32" then .ValueType .Signed32Bit
  else if identifier = "u64" then .ValueType .Unsigned64Bit
  else if identifier = "s64" then .ValueType .Signed64Bit
  else if identifier = "u128" then .ValueType .Unsigned128Bit
  else if identifier = "s128" then .ValueType .Signed128Bit
  else if identifier = "float" then .ValueType .Float
  else if identifier = "double" then .ValueType .Double
  else if identifier = "char" then .ValueType .Character
  else if identifier = "padding" then .ValueType .Padding
  else .Identifier identifier

/-- What one round of the scanning loop does at a position: move on to a new
offset and line number, possibly with a token, leave the loop, or throw. -/
inductive Scan where
  | advance (offset lineNumber : Nat) (token : Option TokenValue)
  | leave
  | failed (message : String)
  deriving DecidableEq, Repr

/-- The character-literal branch of the scanning loop; `start` is the position
of the opening quote. -/
def scanCharacter (code : List Char) (start lineNumber : Nat) : Scan :=
  let quote := Char.ofNat 39
  let backslash := Char.ofNat 92
  let offset := u32 (start + 1)
  if offset ≥ code.length then .failed "invalid character literal"
  else
    let character := code.getD offset nul
    if character = backslash then
      let offset := u32 (offset + 1)
      if offset ≥ code.length then .failed "invalid character literal"
      else if code.getD offset nul ≠ backslash ∧ code.getD offset nul ≠ quote then
        .failed "invalid escape sequence"
      else
        let character := code.getD offset nul
        let offset := u32 (offset + 1)
        if offset ≥ code.length ∨ code.getD offset nul ≠ quote then
          .failed "missing terminating ' after character literal"
        else
          .advance (u32 (offset + 1)) lineNumber
            (some (.Integer ⟨.Character, .int .chr (IntKind.chr.wrap character.toNat)⟩))
    else if character = backslash ∨ character = quote ∨ character = Char.ofNat 10
        ∨ character = Char.ofNat 13 then
      .failed "invalid character literal"
    else
      let offset := u32 (offset + 1)
      if offset ≥ code.length ∨ code.getD offset nul ≠ quote then
        .failed "missing terminating ' after character literal"
      else
        .advance (u32 (offset + 1)) lineNumber
          (some (.Integer ⟨.Character, .int .chr (IntKind.chr.wrap character.toNat)⟩))

/-- The body of the `while (offset < code.length())` loop of `Lexer::lex` at an
offset and line number, the loop condition included. -/
def scan (code : List Char) (offset lineNumber : Nat) : Scan :=
  if ¬ offset < code.length then .leave
  else
    let c := code.getD offset nul
    let two := (code.drop offset).take 2
    let emit (v : TokenValue) (n : Nat) : Scan := .advance (u32 (offset + n)) lineNumber (some v)
    if c = nul then .leave
    else if isblank c || isspace c then
      .advance (u32 (offset + 1))
        (if c = Char.ofNat 10 then u32 (lineNumber + 1) else lineNumber) none
    else if c = ';' then emit (.Separator .EndOfExpression) 1
    else if c = '(' then emit (.Separator .RoundBracketOpen) 1
    else if c = ')' then emit (.Separator .RoundBracketClose) 1
    else if c = Char.ofNat 123 then emit (.Separator .CurlyBracketOpen) 1
    else if c = Char.ofNat 125 then emit (.Separator .CurlyBracketClose) 1
    else if c = '[' then emit (.Separator .SquareBracketOpen) 1
    else if c = ']' then emit (.Separator .SquareBracketClose) 1
    else if c = ',' then emit (.Separator .Comma) 1
    else if c = '.' then emit (.Separator .Dot) 1
    else if c = '@' then emit (.Operator .AtDeclaration) 1
    else if two = ['=', '='] then emit (.Operator .BoolEquals) 2
    else if two = ['!', '='] then emit (.Operator .BoolNotEquals) 2
    else if two = ['>', '='] then emit (.Operator .BoolGreaterThanOrEquals) 2
    else if two = ['<', '='] then emit (.Operator .BoolLessThanOrEquals) 2
    else if two = ['&', '&'] then emit (.Operator .BoolAnd) 2
    else if two = ['|', '|'] then emit (.Operator .BoolOr) 2
    else if two = ['^', '^'] then emit (.Operator .BoolXor) 2
    else if c = '=' then emit (.Operator .Assignment) 1
    else if two = [':', ':'] then emit (.Separator .ScopeResolution) 2
    else if c = ':' then emit (.Operator .Inherit) 1
    else if c = '+' then emit (.Operator .Plus) 1
    else if c = '-' then emit (.Operator .Minus) 1
    else if c = '*' then emit (.Operator .Star) 1
    else if c = '/' then emit (.Operator .Slash) 1
    else if two = ['<', '<'] then emit (.Operator .ShiftLeft) 2
    else if two = ['>', '>'] then emit (.Operator .ShiftRight) 2
    else if c = '>' then emit (.Operator .BoolGreaterThan) 1
    else if c = '<' then emit (.Operator .BoolLessThan) 1
    else if c = '!' then emit (.Operator .BoolNot) 1
    else if c = '|' then emit (.Operator .BitOr) 1
    else if c = '&' then emit (.Operator .BitAnd) 1
    else if c = '^' then emit (.Operator .BitXor) 1
    else if c = '~' then emit (.Operator .BitNot) 1
    else if c = '?' then emit (.Operator .TernaryConditional) 1
    else if c = Char.ofNat 39 then scanCharacter code offset lineNumber
    else if isalpha c then
      let identifier := matchTillInvalid (cstr code offset) (fun c => isalnum c || c = '_')
      emit (identifierToken (String.mk identifier)) identifier.length
    else if isdigit c then
      match parseIntegerLiteral (cstr code offset) with
      | none => .failed "invalid integer literal"
      | some integer => emit (.Integer integer) (getIntegerLiteralLength (cstr code offset))
    else .failed "unknown token"

/-- One round of the loop of `Lexer::lex` on the state: a token is appended
with the line number of the round, the end-of-program token is appended when
the loop is left, an error carries the line number of the round. -/
def lexStep (code : List Char) (st : LexState) : LexStep :=
  match scan code st.offset st.lineNumber with
  | .advance offset lineNumber none => .next ⟨offset, lineNumber, st.tokens⟩
  | .advance offset lineNumber (some value) =>
    .next ⟨offset, lineNumber, st.tokens ++ [⟨value, st.lineNumber⟩]⟩
  | .leave => .finished (st.tokens ++ [⟨.Separator .EndOfProgram, st.lineNumber⟩])
  | .failed message => .failed ⟨message, st.lineNumber⟩

/-- The scanning loop of `Lexer::lex`, run for at most `fuel` rounds; `none`
when the loop has not been left after that many rounds. -/
def lexLoop (code : List Char) : Nat → LexState → Option (Except LexerError (List Token))
  | 0, _ => none
  | fuel + 1, st =>
    match lexStep code st with
    | .next st' => lexLoop code fuel st'
    | .finished tokens => some (.ok tokens)
    | .failed e => some (.error e)

/-- The function `Lexer::lex`, run for at most `fuel` rounds of its loop. -/
def Lexer.lex (fuel : Nat) (code : String) : Option (Except LexerError (List Token)) :=
  lexLoop code.toList fuel ⟨0, 1, []⟩

/-! ## Evaluator (`source/lang/evaluator.cpp`): errors and host arithmetic -/

/-- The error `throwEvaluateError` throws and a failed evaluation retains. -/
structure EvaluateError where
  message : String
  lineNumber : Nat
  deriving DecidableEq, Repr

/-- Why an evaluator function does not return: the C++ code threw an
`EvaluateError`, the C++ code has undefined behaviour at this point, or the
embedding ran out of recursion fuel. -/
inductive Stop where
  | evaluateError (e : EvaluateError)
  | undefinedBehaviour
  | outOfFuel
  deriving DecidableEq, Repr

deriving instance DecidableEq for Except

/-- The function `throwEvaluateError`. -/
def throwEvaluateError {α : Type} (message : String) (lineNumber : Nat) : Except Stop α :=
  .error (.evaluateError ⟨message, lineNumber⟩)

/-- An `ASTNodeIntegerLiteral` as the expression functions return it: the
literal and the line number of the node. -/
structure LiteralNode where
  lineNumber : Nat
  literal : IntegerLiteral
  deriving DecidableEq, Repr

/-- Integral promotion: alternatives narrower than `int` become `int`. -/
def IntKind.promote (k : IntKind) : IntKind :=
  if k.bits < 32 then .s32 else k

/-- The usual arithmetic conversions between two integer alternatives: the
wider promoted type, and the unsigned one when the widths agree. -/
def IntKind.common (a b : IntKind) : IntKind :=
  if a.promote.bits > b.promote.bits then a.promote
  else if b.promote.bits > a.promote.bits then b.promote
  else if a.promote.isSigned then b.promote else a.promote

/-- The result of integer arithmetic in an alternative: unsigned results wrap,
a signed result that does not fit is undefined behaviour. -/
def checkedInt (k : IntKind) (v : Int) : Except Stop Numeric :=
  if k.isSigned && !k.fits v then .error .undefinedBehaviour else .ok (.int k (k.wrap v))

/-- A C++ `bool` stored in the variant: it is promoted to `int`. -/
def boolNumeric (b : Bool) : Numeric := .int .s32 (if b then 1 else 0)

/-- The unsigned bit pattern of an integer in an alternative. -/
def IntKind.pattern (k : IntKind) (v : Int) : Nat := (v % 2 ^ k.bits).toNat

/-- The C++ operators `+ - * /` on the two held alternatives: integer
arithmetic in the common type (division by zero is undefined behaviour),
floating-point arithmetic left to the host. -/
def arithmetic (h : Host) (op : Operator) (l r : Numeric) : Except Stop Numeric :=
  match l, r with
  | .int a x, .int b y =>
    let k := a.common b
    match op with
    | .Plus => checkedInt k (k.wrap x + k.wrap y)
    | .Minus => checkedInt k (k.wrap x - k.wrap y)
    | .Star => checkedInt k (k.wrap x * k.wrap y)
    | _ =>
      if k.wrap y = 0 then .error .undefinedBehaviour
      else checkedInt k (Int.tdiv (k.wrap x) (k.wrap y))
  | .flt true _, _ | _, .flt true _ => .ok (.flt true (h.arith op l r))
  | _, _ => .ok (.flt false (h.arith op l r))

/-- The helpers `shiftLeft`, `shiftRight`, `bitAnd`, `bitOr`, `bitXor` and
`bitNot` generated by `FLOAT_BIT_OPERATION`: `none` stands for the
`std::runtime_error` thrown by the overloads with a floating-point operand. -/
def bitOperation (op : Operator) (l r : Numeric) : Option (Except Stop Numeric) :=
  match l, r with
  | .int a x, .int b y =>
    let k := a.common b
    match op with
    | .ShiftLeft =>
      if y < 0 ∨ y ≥ a.promote.bits then some (.error .undefinedBehaviour)
      else some (.ok (.int a.promote (a.promote.wrap (x * 2 ^ y.toNat))))
    | .ShiftRight =>
      if y < 0 ∨ y ≥ a.promote.bits then some (.error .undefinedBehaviour)
      else some (.ok (.int a.promote (x / 2 ^ y.toNat)))
    | .BitAnd => some (.ok (.int k (k.wrap (Nat.land (k.pattern x) (k.pattern y)))))
    | .BitXor => some (.ok (.int k (k.wrap (Nat.xor (k.pattern x) (k.pattern y)))))
    | .BitOr => some (.ok (.int k (k.wrap (Nat.lor (k.pattern x) (k.pattern y)))))
    | _ => some (.ok (.int b.promote (b.promote.wrap (-y - 1))))
  | _, _ => none

/-- The C++ comparison operators on the two held alternatives: integers are
compared in the common type, a comparison with a floating-point operand is left
to the host. -/
def comparison (h : Host) (op : Operator) (l r : Numeric) : Bool :=
  match l, r with
  | .int a x, .int b y =>
    let k := a.common b
    match op with
    | .BoolEquals => decide (k.wrap x = k.wrap y)
    | .BoolNotEquals => decide (k.wrap x ≠ k.wrap y)
    | .BoolGreaterThan => decide (k.wrap x > k.wrap y)
    | .BoolLessThan => decide (k.wrap x < k.wrap y)
    | .BoolGreaterThanOrEquals => decide (k.wrap x ≥ k.wrap y)
    | _ => decide (k.wrap x ≤ k.wrap y)
  | _, _ => h.compare op l r

/-- The type ladder of `evaluateOperator` (the lambda `newType`). -/
def newType (left right : ValueType) : ValueType :=
  if left = .Double ∨ right = .Double then .Double
  else if left = .Float ∨ right = .Float then .Float
  else if left = .Unsigned128Bit ∨ right = .Unsigned128Bit then .Unsigned128Bit
  else if left = .Signed128Bit ∨ right = .Signed128Bit then .Signed128Bit
  else if left = .Unsigned64Bit ∨ right = .Unsigned64Bit then .Unsigned64Bit
  else if left = .Signed64Bit ∨ right = .Signed64Bit then .Signed64Bit
  else if left = .Unsigned32Bit ∨ right = .Unsigned32Bit then .Unsigned32Bit
  else if left = .Signed32Bit ∨ right = .Signed32Bit then .Signed32Bit
  else if left = .Unsigned16Bit ∨ right = .Unsigned16Bit then .Unsigned16Bit
  else if left = .Signed16Bit ∨ right = .Signed16Bit then .Signed16Bit
  else if left = .Unsigned8Bit ∨ right = .Unsigned8Bit then .Unsigned8Bit
  else if left = .Signed8Bit ∨ right = .Signed8Bit then .Signed8Bit
  else if left = .Character ∨ right = .Character then .Character
  else .Signed32Bit

/-- The function `Evaluator::evaluateOperator`. The literal it allocates has
the default line number 1. -/
def evaluateOperator (h : Host) (left right : LiteralNode) (op : Operator) :
    Except Stop LiteralNode :=
  let type := newType left.literal.type right.literal.type
  let l := left.literal.value
  let r := right.literal.value
  let fresh (v : Numeric) : LiteralNode := ⟨1, ⟨type, v⟩⟩
  match op with
  | .Plus | .Minus | .Star | .Slash =>
    match arithmetic h op l r with
    | .ok v => .ok (fresh v)
    | .error e => .error e
  | .ShiftLeft | .ShiftRight | .BitAnd | .BitXor | .BitOr | .BitNot =>
    match bitOperation op l r with
    | some (.ok v) => .ok (fresh v)
    | some (.error e) => .error e
    | none =>
      throwEvaluateError "bitwise operations on floating point numbers are forbidden"
        left.lineNumber
  | .BoolEquals | .BoolNotEquals | .BoolGreaterThan | .BoolLessThan
  | .BoolGreaterThanOrEquals | .BoolLessThanOrEquals =>
    .ok (fresh (boolNumeric (comparison h op l r)))
  | .BoolAnd => .ok (fresh (boolNumeric (l.nonZero h && r.nonZero h)))
  | .BoolXor =>
    .ok (fresh (boolNumeric ((l.nonZero h && !r.nonZero h) || (!l.nonZero h && r.nonZero h))))
  | .BoolOr => .ok (fresh (boolNumeric (l.nonZero h || r.nonZero h)))
  | .BoolNot => .ok (fresh (boolNumeric (!r.nonZero h)))
  | _ => throwEvaluateError "invalid operator used in mathematical expression" left.lineNumber

/-! ## The AST (`include/lang/ast_node.hpp`) -/

/-- The type `std::endian`, without `native`. -/
inductive Endian where
  | little | big
  deriving DecidableEq, Repr

/-- The classes derived from `ASTNode`, each with the line number of the base
class. An absent placement offset (`nullptr`) is `none`. The entries of an enum
are listed in the iteration order of its map. -/
inductive ASTNode where
  | IntegerLiteral (lineNumber : Nat) (literal : IntegerLiteral)
  | NumericExpression (lineNumber : Nat) (left right : ASTNode) (op : Operator)
  | TernaryExpression (lineNumber : Nat) (first second third : ASTNode) (op : Operator)
  | BuiltinType (lineNumber : Nat) (type : ValueType)
  | TypeDecl (lineNumber : Nat) (name : String) (type : ASTNode) (endian : Option Endian)
  | VariableDecl (lineNumber : Nat) (name : String) (type : ASTNode)
      (placementOffset : Option ASTNode)
  | ArrayVariableDecl (lineNumber : Nat) (name : String) (type size : ASTNode)
      (placementOffset : Option ASTNode)
  | PointerVariableDecl (lineNumber : Nat) (name : String) (type sizeType : ASTNode)
      (placementOffset : Option ASTNode)
  | Struct (lineNumber : Nat) (members : List ASTNode)
  | Union (lineNumber : Nat) (members : List ASTNode)
  | Enum (lineNumber : Nat) (entries : List (String × ASTNode)) (underlyingType : ASTNode)
  | Bitfield (lineNumber : Nat) (entries : List (String × ASTNode))
  | RValue (lineNumber : Nat) (path : List String)
  | ScopeResolution (lineNumber : Nat) (path : List String)
  | ConditionalStatement (lineNumber : Nat) (condition : ASTNode)
      (trueBody falseBody : List ASTNode)
  | FunctionCall (lineNumber : Nat) (functionName : String) (params : List ASTNode)

/-- The method `ASTNode::getLineNumber`. -/
def ASTNode.getLineNumber : ASTNode → Nat
  | .IntegerLiteral l _ | .NumericExpression l _ _ _ | .TernaryExpression l _ _ _ _
  | .BuiltinType l _ | .TypeDecl l _ _ _ | .VariableDecl l _ _ _
  | .ArrayVariableDecl l _ _ _ _ | .PointerVariableDecl l _ _ _ _
  | .Struct l _ | .Union l _ | .Enum l _ _ | .Bitfield l _
  | .RValue l _ | .ScopeResolution l _ | .ConditionalStatement l _ _ _
  | .FunctionCall l _ _ => l

/-! ## Patterns (`pattern_data.hpp` is not among the sources; the classes and
their constructor arguments are those the evaluator uses; the display colour is
left out) -/

/-- The attributes common to all patterns. The endianness is `none` until
`setEndian` is called. -/
structure PatternAttrs where
  offset : Nat
  size : Nat
  typeName : String
  variableName : String
  endian : Option Endian
  deriving DecidableEq, Repr

/-- The type `std::string` of names, under a name no pattern class shares. -/
abbrev Name := String

/-- The classes derived from `PatternData`. -/
inductive PatternData where
  | Unsigned (a : PatternAttrs)
  | Signed (a : PatternAttrs)
  | Float (a : PatternAttrs)
  | Character (a : PatternAttrs)
  | String (a : PatternAttrs)
  | Padding (a : PatternAttrs)
  | Enum (a : PatternAttrs) (entries : List (IntegerLiteral × String))
  | Bitfield (a : PatternAttrs) (entries : List (String × Nat))
  | Struct (a : PatternAttrs) (members : List PatternData)
  | Union (a : PatternAttrs) (members : List PatternData)
  | Array (a : PatternAttrs) (entries : List PatternData)
  | Pointer (a : PatternAttrs) (pointedAt : PatternData)

/-- The common attributes of a pattern. -/
def PatternData.attrs : PatternData → PatternAttrs
  | .Unsigned a | .Signed a | .Float a | .Character a | .String a | .Padding a
  | .Enum a _ | .Bitfield a _ | .Struct a _ | .Union a _ | .Array a _ | .Pointer a _ => a

/-- Change the common attributes of a pattern. -/
def PatternData.mapAttrs (f : PatternAttrs → PatternAttrs) : PatternData → PatternData
  | .Unsigned a => .Unsigned (f a)
  | .Signed a => .Signed (f a)
  | .Float a => .Float (f a)
  | .Character a => .Character (f a)
  | .String a => .String (f a)
  | .Padding a => .Padding (f a)
  | .Enum a es => .Enum (f a) es
  | .Bitfield a es => .Bitfield (f a) es
  | .Struct a ms => .Struct (f a) ms
  | .Union a ms => .Union (f a) ms
  | .Array a es => .Array (f a) es
  | .Pointer a p => .Pointer (f a) p

/-- The method `PatternData::getOffset`. -/
def PatternData.getOffset (p : PatternData) : Nat := p.attrs.offset

/-- The method `PatternData::getSize`. -/
def PatternData.getSize (p : PatternData) : Nat := p.attrs.size

/-- The method `PatternData::getVariableName`. -/
def PatternData.getVariableName (p : PatternData) : Name := p.attrs.variableName

/-- The method `PatternData::getTypeName`. -/
def PatternData.getTypeName (p : PatternData) : Name := p.attrs.typeName

/-- The method `PatternData::getEndian`, `none` when none was set. -/
def PatternData.getEndian (p : PatternData) : Option Endian := p.attrs.endian

/-- The method `PatternData::setTypeName`. -/
def PatternData.setTypeName (p : PatternData) (name : Name) : PatternData :=
  p.mapAttrs (fun a => { a with typeName := name })

/-- The method `PatternData::setVariableName`. -/
def PatternData.setVariableName (p : PatternData) (name : Name) : PatternData :=
  p.mapAttrs (fun a => { a with variableName := name })

/-- The method `PatternData::setEndian`. -/
def PatternData.setEndian (p : PatternData) (e : Endian) : PatternData :=
  p.mapAttrs (fun a => { a with endian := some e })

/-- The attributes of a pattern as its constructor leaves them. -/
def newAttrs (offset size : Nat) : PatternAttrs := ⟨offset, size, "", "", none⟩

/-! ## Evaluator: state -/

/-- The byte source `prv::Provider`: its size and the byte `read` delivers at
each offset (what it delivers beyond the size is up to the provider). -/
structure Provider where
  actualSize : Nat
  byteAt : Nat → Nat

/-- A registered function: its parameter-count rule and its handler. The
handlers are not among the sources; a handler sees the current endianness and
the evaluated parameters. -/
structure Function where
  parameterCount : Nat
  func : Endian → List LiteralNode → Except Stop LiteralNode

/-- Modelled from the spec: the constant `Function::UnlimitedParameters` of
`evaluator.hpp`. -/
def Function.UnlimitedParameters : Nat := 0xFFFFFFFF

/-- Modelled from the spec: the flag `Function::LessParametersThan` of
`evaluator.hpp`. -/
def Function.LessParametersThan : Nat := 0x80000000

/-- Modelled from the spec: the flag `Function::MoreParametersThan` of
`evaluator.hpp`. -/
def Function.MoreParametersThan : Nat := 0x40000000

/-- The members of `Evaluator` that an evaluation does not change: the
provider, the default endianness and the registered functions; with them the
host's floating-point behaviour and its native byte order. -/
structure Evaluator where
  provider : Provider
  defaultDataEndian : Endian
  functions : List (String × Function)
  host : Host
  native : Endian

/-- The members of `Evaluator` that an evaluation changes: `m_currOffset`,
`m_currEndian`, `m_currMembers` (the innermost member list first) and `m_types`
(the latest declaration of a name first). -/
structure EvalState where
  currOffset : Nat
  currEndian : Option Endian
  currMembers : List (List PatternData)
  types : List (String × ASTNode)

/-- The method `Evaluator::getCurrentEndian`. -/
def getCurrentEndian (ev : Evaluator) (st : EvalState) : Endian :=
  st.currEndian.getD ev.defaultDataEndian

/-- The bytes `Provider::read` delivers. -/
def Provider.read (p : Provider) (offset size : Nat) : List Nat :=
  (List.range size).map (fun i => p.byteAt (offset + i) % 256)

/-- The number whose little-endian bytes are given. -/
def decodeLittle : List Nat → Nat
  | [] => 0
  | b :: bs => b + 256 * decodeLittle bs

/-- Modelled from the spec: reading a number from memory and passing it through
`hex::changeEndianess` of `helpers/utils.hpp` yields the bytes decoded in the
requested byte order. -/
def decode (e : Endian) (bytes : List Nat) : Nat :=
  match e with
  | .little => decodeLittle bytes
  | .big => decodeLittle bytes.reverse

/-- The value of a zero-initialised `u128` after `read` has filled its first
bytes, in the host's native byte order. -/
def loadU128 (native : Endian) (bytes : List Nat) : Nat :=
  match native with
  | .little => decodeLittle bytes
  | .big => decodeLittle (bytes ++ List.replicate (16 - bytes.length) 0).reverse

/-! ## Evaluator: expressions -/

/-- The loop of `evaluateRValue` over the path: the pattern the path ends at. -/
def walkPath (lineNumber : Nat) :
    List String → List PatternData → Option PatternData → Except Stop (Option PatternData)
  | [], _, currPattern => .ok currPattern
  | identifier :: rest, currMembers, currPattern =>
    let members : Except Stop (List PatternData) :=
      match currPattern with
      | some (.Struct _ ms) => .ok ms
      | some (.Union _ ms) => .ok ms
      | some _ =>
        throwEvaluateError "tried to access member of a non-struct/union type" lineNumber
      | none => .ok currMembers
    match members with
    | .error e => .error e
    | .ok members =>
      match members.find? (fun member => member.getVariableName == identifier) with
      | some candidate => walkPath lineNumber rest members (some candidate)
      | none =>
        throwEvaluateError ("could not find identifier '" ++ identifier ++ "'") lineNumber

/-- The switch of `evaluateRValue` over the size of an unsigned or enum
pattern. -/
def readUnsignedValue (ev : Evaluator) (st : EvalState) (lineNumber offset size : Nat) :
    Except Stop LiteralNode :=
  let value := decode (getCurrentEndian ev st) (ev.provider.read offset size)
  match size with
  | 1 => .ok ⟨1, ⟨.Unsigned8Bit, .int .u8 value⟩⟩
  | 2 => .ok ⟨1, ⟨.Unsigned16Bit, .int .u16 value⟩⟩
  | 4 => .ok ⟨1, ⟨.Unsigned32Bit, .int .u32 value⟩⟩
  | 8 => .ok ⟨1, ⟨.Unsigned64Bit, .int .u64 value⟩⟩
  | 16 => .ok ⟨1, ⟨.Unsigned128Bit, .int .u128 value⟩⟩
  | _ => throwEvaluateError "invalid rvalue size" lineNumber

/-- The function `Evaluator::evaluateRValue`. Calling `back()` on an empty
`m_currMembers` is undefined behaviour, and so is the branch of a signed pattern,
which reads the size through the null `unsignedPattern`. -/
def evaluateRValue (ev : Evaluator) (st : EvalState) (lineNumber : Nat) (path : List String) :
    Except Stop LiteralNode :=
  match st.currMembers with
  | [] => .error .undefinedBehaviour
  | currMembers :: _ =>
    match walkPath lineNumber path currMembers none with
    | .error e => .error e
    | .ok (some (.Unsigned a)) => readUnsignedValue ev st lineNumber a.offset a.size
    | .ok (some (.Signed _)) => .error .undefinedBehaviour
    | .ok (some (.Enum a _)) => readUnsignedValue ev st lineNumber a.offset a.size
    | .ok _ =>
      throwEvaluateError "tried to use non-integer value in numeric expression" lineNumber

/-- The loop of `evaluateScopeResolution` over the path: the enum entry the
function goes on to evaluate, or `none` when the loop is left without one. -/
def resolveScope (types : List (String × ASTNode)) :
    List String → Option ASTNode → Option ASTNode
  | [], _ => none
  | identifier :: rest, none =>
    match types.lookup identifier with
    | none => none
    | some type => resolveScope types rest (some type)
  | identifier :: _, some (.Enum _ entries _) => entries.lookup identifier
  | _ :: rest, some scope => resolveScope types rest (some scope)

/-- The loop of `evaluateFunctionCall` over the parameters. -/
def evaluateParams (evaluateParam : ASTNode → Except Stop LiteralNode) :
    List ASTNode → Except Stop (List LiteralNode)
  | [] => .ok []
  | param :: rest =>
    match evaluateParam param with
    | .error e => .error e
    | .ok value =>
      match evaluateParams evaluateParam rest with
      | .error e => .error e
      | .ok values => .ok (value :: values)

/-- The parameter-count check of `evaluateFunctionCall` and the call of the
handler. -/
def callFunction (ev : Evaluator) (st : EvalState) (lineNumber : Nat) (functionName : String)
    (evaluatedParams : List LiteralNode) : Except Stop LiteralNode :=
  match ev.functions.lookup functionName with
  | none => throwEvaluateError ("no function named '" ++ functionName ++ "' found") lineNumber
  | some function =>
    let count := function.parameterCount
    let without (flag : Nat) : Nat := Nat.land count (0xFFFFFFFF - flag)
    if count = Function.UnlimitedParameters then
      function.func (getCurrentEndian ev st) evaluatedParams
    else if Nat.land count Function.LessParametersThan ≠ 0 then
      if evaluatedParams.length ≥ without Function.LessParametersThan then
        throwEvaluateError ("too many parameters for function '" ++ functionName
          ++ "'. Expected " ++ toString (without Function.LessParametersThan)) lineNumber
      else function.func (getCurrentEndian ev st) evaluatedParams
    else if Nat.land count Function.MoreParametersThan ≠ 0 then
      if evaluatedParams.length ≤ without Function.MoreParametersThan then
        throwEvaluateError ("too few parameters for function '" ++ functionName
          ++ "'. Expected " ++ toString (without Function.MoreParametersThan)) lineNumber
      else function.func (getCurrentEndian ev st) evaluatedParams
    else if count ≠ evaluatedParams.length then
      throwEvaluateError ("invalid number of parameters for function '" ++ functionName
        ++ "'. Expected " ++ toString count) lineNumber
    else function.func (getCurrentEndian ev st) evaluatedParams

mutual

/-- The function `Evaluator::evaluateOperand`. -/
def evaluateOperand : Nat → Evaluator → EvalState → ASTNode → Except Stop LiteralNode
  | 0, _, _, _ => .error .outOfFuel
  | fuel + 1, ev, st, node =>
    match node with
    | .IntegerLiteral lineNumber literal => .ok ⟨lineNumber, literal⟩
    | .NumericExpression _ _ _ _ => evaluateMathematicalExpression fuel ev st node
    | .RValue lineNumber path => evaluateRValue ev st lineNumber path
    | .ScopeResolution _ _ => evaluateScopeResolution fuel ev st node
    | .TernaryExpression _ _ _ _ _ => evaluateTernaryExpression fuel ev st node
    | .FunctionCall _ _ _ => evaluateFunctionCall fuel ev st node
    | _ => throwEvaluateError "invalid operand" node.getLineNumber

/-- The function `Evaluator::evaluateMathematicalExpression`. A node that is
not a numeric expression reaches it only through a `static_cast`, which is
undefined behaviour. -/
def evaluateMathematicalExpression :
    Nat → Evaluator → EvalState → ASTNode → Except Stop LiteralNode
  | 0, _, _, _ => .error .outOfFuel
  | fuel + 1, ev, st, node =>
    match node with
    | .NumericExpression _ left right op =>
      match evaluateOperand fuel ev st left with
      | .error e => .error e
      | .ok leftInteger =>
        match evaluateOperand fuel ev st right with
        | .error e => .error e
        | .ok rightInteger => evaluateOperator ev.host leftInteger rightInteger op
    | _ => .error .undefinedBehaviour

/-- The function `Evaluator::evaluateTernaryExpression`. -/
def evaluateTernaryExpression :
    Nat → Evaluator → EvalState → ASTNode → Except Stop LiteralNode
  | 0, _, _, _ => .error .outOfFuel
  | fuel + 1, ev, st, node =>
    match node with
    | .TernaryExpression lineNumber first second third op =>
      match op with
      | .TernaryConditional =>
        match evaluateOperand fuel ev st first with
        | .error e => .error e
        | .ok condition =>
          if condition.literal.value.nonZero ev.host then evaluateOperand fuel ev st second
          else evaluateOperand fuel ev st third
      | _ => throwEvaluateError "invalid operator used in ternary expression" lineNumber
    | _ => .error .undefinedBehaviour

/-- The function `Evaluator::evaluateFunctionCall`. -/
def evaluateFunctionCall : Nat → Evaluator → EvalState → ASTNode → Except Stop LiteralNode
  | 0, _, _, _ => .error .outOfFuel
  | fuel + 1, ev, st, node =>
    match node with
    | .FunctionCall lineNumber functionName params =>
      match evaluateParams (evaluateMathematicalExpression fuel ev st) params with
      | .error e => .error e
      | .ok evaluatedParams => callFunction ev st lineNumber functionName evaluatedParams
    | _ => .error .undefinedBehaviour

/-- The function `Evaluator::evaluateScopeResolution`. -/
def evaluateScopeResolution : Nat → Evaluator → EvalState → ASTNode → Except Stop LiteralNode
  | 0, _, _, _ => .error .outOfFuel
  | fuel + 1, ev, st, node =>
    match node with
    | .ScopeResolution lineNumber path =>
      match resolveScope st.types path none with
      | some entry => evaluateMathematicalExpression fuel ev st entry
      | none => throwEvaluateError "failed to find identifier" lineNumber
    | _ => .error .undefinedBehaviour

end

/-! ## Evaluator: types and declarations -/

/-- A `static_cast<u64>` of an integer. -/
def toU64 (v : Int) : Nat := (v % 2 ^ 64).toNat

/-- The difference of two `u64` values, in `u64`. -/
def sub64 (a b : Nat) : Nat := (a % 2 ^ 64 + 2 ^ 64 - b % 2 ^ 64) % 2 ^ 64

/-- The function `Evaluator::evaluateBuiltinType`. -/
def evaluateBuiltinType (st : EvalState) (lineNumber : Nat) (type : ValueType) :
    Except Stop (PatternData × EvalState) :=
  let typeSize := Token.getTypeSize type
  let made : Except Stop PatternData :=
    if type = .Character then .ok (.Character (newAttrs st.currOffset 1))
    else if Token.isUnsigned type then .ok (.Unsigned (newAttrs st.currOffset typeSize))
    else if Token.isSigned type then .ok (.Signed (newAttrs st.currOffset typeSize))
    else if Token.isFloatingPoint type then .ok (.Float (newAttrs st.currOffset typeSize))
    else throwEvaluateError "invalid builtin type" lineNumber
  match made with
  | .error e => .error e
  | .ok pattern =>
    .ok (pattern.setTypeName (Token.getTypeName type),
      { st with currOffset := u64 (st.currOffset + typeSize) })

/-- The loop of `evaluateEnum` over the entries. -/
def evaluateEnumEntries (evaluateExpression : ASTNode → Except Stop LiteralNode) :
    List (String × ASTNode) → List (IntegerLiteral × String) →
    Except Stop (List (IntegerLiteral × String))
  | [], entryPatterns => .ok entryPatterns
  | (name, value) :: rest, entryPatterns =>
    match value with
    | .NumericExpression _ _ _ _ =>
      match evaluateExpression value with
      | .error e => .error e
      | .ok valueNode =>
        evaluateEnumEntries evaluateExpression rest (entryPatterns ++ [(valueNode.literal, name)])
    | _ => throwEvaluateError "invalid expression in enum value" value.getLineNumber

/-- The function `Evaluator::evaluateEnum`. -/
def evaluateEnum (fuel : Nat) (ev : Evaluator) (st : EvalState) (node : ASTNode) :
    Except Stop (PatternData × EvalState) :=
  match node with
  | .Enum lineNumber entries underlyingType =>
    let startOffset := st.currOffset
    match evaluateEnumEntries (evaluateMathematicalExpression fuel ev st) entries [] with
    | .error e => .error e
    | .ok entryPatterns =>
      match underlyingType with
      | .BuiltinType _ type =>
        .ok (.Enum (newAttrs startOffset (Token.getTypeSize type)) entryPatterns, st)
      | _ => throwEvaluateError "invalid enum underlying type" lineNumber
  | _ => .error .undefinedBehaviour

/-- The loop of `evaluateBitfield` over the entries, with the running number of
bits (a `size_t`) and the entries collected so far. -/
def evaluateBitfieldEntries (h : Host) (evaluateExpression : ASTNode → Except Stop LiteralNode)
    (lineNumber : Nat) :
    List (String × ASTNode) → Nat → List (String × Nat) →
    Except Stop (Nat × List (String × Nat))
  | [], bits, entryPatterns => .ok (bits, entryPatterns)
  | (name, value) :: rest, bits, entryPatterns =>
    match value with
    | .NumericExpression _ _ _ _ =>
      match evaluateExpression value with
      | .error e => .error e
      | .ok valueNode =>
        if Token.isFloatingPoint valueNode.literal.type then
          throwEvaluateError "bitfield entry size must be an integer value" lineNumber
        else
          let fieldBits := valueNode.literal.value.toS128 h
          if fieldBits > 64 ∨ fieldBits ≤ 0 then
            throwEvaluateError "bitfield entry must occupy between 1 and 64 bits"
              value.getLineNumber
          else
            evaluateBitfieldEntries h evaluateExpression lineNumber rest
              (toU64 (bits + fieldBits)) (entryPatterns ++ [(name, toU64 fieldBits)])
    | _ => throwEvaluateError "invalid expression in bitfield field size" value.getLineNumber

/-- The function `Evaluator::evaluateBitfield`. -/
def evaluateBitfield (fuel : Nat) (ev : Evaluator) (st : EvalState) (node : ASTNode) :
    Except Stop (PatternData × EvalState) :=
  match node with
  | .Bitfield lineNumber entries =>
    let startOffset := st.currOffset
    match evaluateBitfieldEntries ev.host (evaluateMathematicalExpression fuel ev st) lineNumber
        entries 0 [] with
    | .error e => .error e
    | .ok (bits, entryPatterns) =>
      .ok (.Bitfield (newAttrs startOffset (bits / 8 + 1)) entryPatterns, st)
  | _ => .error .undefinedBehaviour

/-- The placement-offset block at the head of `evaluateVariable` and
`evaluateArray`: a placement offset that is a numeric expression is evaluated
and becomes the cursor. -/
def evaluatePlacement (fuel : Nat) (ev : Evaluator) (st : EvalState)
    (placementOffset : Option ASTNode) (lineNumber : Nat) : Except Stop EvalState :=
  match placementOffset with
  | some (.NumericExpression l left right op) =>
    match evaluateMathematicalExpression fuel ev st (.NumericExpression l left right op) with
    | .error e => .error e
    | .ok valueNode =>
      if Token.isFloatingPoint valueNode.literal.type then
        throwEvaluateError "placement offset must be an integer value" lineNumber
      else .ok { st with currOffset := valueNode.literal.value.toU64 ev.host }
  | _ => .ok st

/-- The placement-offset block at the head of `evaluatePointer`: the pointer
offset (an `s128`) and the state with the cursor set to it. -/
def evaluatePointerPlacement (fuel : Nat) (ev : Evaluator) (st : EvalState)
    (placementOffset : Option ASTNode) (lineNumber : Nat) : Except Stop (Int × EvalState) :=
  match placementOffset with
  | some (.NumericExpression l left right op) =>
    match evaluateMathematicalExpression fuel ev st (.NumericExpression l left right op) with
    | .error e => .error e
    | .ok valueNode =>
      if Token.isFloatingPoint valueNode.literal.type then
        throwEvaluateError "pointer offset must be an integer value" lineNumber
      else
        let pointerOffset := valueNode.literal.value.toS128 ev.host
        .ok (pointerOffset, { st with currOffset := toU64 pointerOffset })
  | _ => .ok (st.currOffset, st)

/-- The array-size block of `evaluateArray`. -/
def evaluateArraySize (fuel : Nat) (ev : Evaluator) (st : EvalState) (size : ASTNode)
    (lineNumber : Nat) : Except Stop Nat :=
  match size with
  | .NumericExpression _ _ _ _ =>
    match evaluateMathematicalExpression fuel ev st size with
    | .error e => .error e
    | .ok valueNode =>
      if Token.isFloatingPoint valueNode.literal.type then
        throwEvaluateError "array size must be an integer value" lineNumber
      else .ok (valueNode.literal.value.toU64 ev.host)
  | _ => throwEvaluateError "array size not a numeric expression" lineNumber

/-- The test of `evaluateArray` for an array of `padding`. -/
def isPaddingType : ASTNode → Bool
  | .TypeDecl _ _ (.BuiltinType _ .Padding) _ => true
  | _ => false

/-- The evaluation of one element in the loop of `evaluateArray`, before it is
named. -/
def evaluateEntry (evaluateType : EvalState → ASTNode → Except Stop (PatternData × EvalState))
    (type : ASTNode) (st : EvalState) : Except Stop (PatternData × EvalState) :=
  match type with
  | .TypeDecl _ _ _ _ => evaluateType st type
  | .BuiltinType l builtin => evaluateBuiltinType st l builtin
  | _ => throwEvaluateError "ASTNodeVariableDecl had an invalid type. This is a bug!" 1

/-- The element loop of `evaluateArray`: `remaining` elements are still to be
placed, the next one has index `i`. -/
def arrayLoop (evaluateEntry : EvalState → Except Stop (PatternData × EvalState))
    (ev : Evaluator) (lineNumber : Nat) :
    Nat → Nat → List PatternData → EvalState → Except Stop (List PatternData × EvalState)
  | 0, _, entries, st => .ok (entries, st)
  | remaining + 1, i, entries, st =>
    match evaluateEntry st with
    | .error e => .error e
    | .ok (entry, st) =>
      let entry := (entry.setVariableName ("[" ++ toString (u64 i) ++ "]")).setEndian
        (getCurrentEndian ev st)
      if st.currOffset ≥ ev.provider.actualSize then
        throwEvaluateError "array exceeds size of file" lineNumber
      else arrayLoop evaluateEntry ev lineNumber remaining (i + 1) (entries ++ [entry]) st

/-- The pattern `evaluateArray` builds from the entries. -/
def arrayPattern (startOffset currOffset : Nat) (entries : List PatternData) : PatternData :=
  match entries with
  | [] => .Padding (newAttrs startOffset 0)
  | .Character _ :: _ => .String (newAttrs startOffset (sub64 currOffset startOffset))
  | _ => .Array (newAttrs startOffset (sub64 currOffset startOffset)) entries

/-- Append patterns to the innermost member list of `m_currMembers`. -/
def EvalState.addMembers (st : EvalState) (newMembers : List PatternData) : EvalState :=
  match st.currMembers with
  | [] => st
  | memberPatterns :: outer => { st with currMembers := (memberPatterns ++ newMembers) :: outer }

/-- The member loop of `evaluateStruct`; the patterns go to the innermost
member list. -/
def structLoop (evaluateMember : EvalState → ASTNode → Except Stop (List PatternData × EvalState)) :
    List ASTNode → EvalState → Except Stop EvalState
  | [], st => .ok st
  | member :: rest, st =>
    match evaluateMember st member with
    | .error e => .error e
    | .ok (newMembers, st) => structLoop evaluateMember rest (st.addMembers newMembers)

/-- The member loop of `evaluateUnion`; after each member the cursor goes back
to the start offset. -/
def unionLoop (evaluateMember : EvalState → ASTNode → Except Stop (List PatternData × EvalState))
    (startOffset : Nat) : List ASTNode → EvalState → Except Stop EvalState
  | [], st => .ok st
  | member :: rest, st =>
    match evaluateMember st member with
    | .error e => .error e
    | .ok (newMembers, st) =>
      unionLoop evaluateMember startOffset rest
        { st.addMembers newMembers with currOffset := startOffset }

/-- The statement loops of `evaluateMember` over a body of a conditional. -/
def bodyLoop (evaluateMember : EvalState → ASTNode → Except Stop (List PatternData × EvalState)) :
    List ASTNode → List PatternData → EvalState → Except Stop (List PatternData × EvalState)
  | [], patterns, st => .ok (patterns, st)
  | statement :: rest, patterns, st =>
    match evaluateMember st statement with
    | .error e => .error e
    | .ok (statementPatterns, st) =>
      bodyLoop evaluateMember rest (patterns ++ statementPatterns) st

mutual

/-- The function `Evaluator::evaluateMember`. -/
def evaluateMember :
    Nat → Evaluator → EvalState → ASTNode → Except Stop (List PatternData × EvalState)
  | 0, _, _, _ => .error .outOfFuel
  | fuel + 1, ev, st, node =>
    let st := { st with currEndian := none }
    match node with
    | .VariableDecl _ _ _ _ =>
      match evaluateVariable fuel ev st node with
      | .error e => .error e
      | .ok (pattern, st) => .ok ([pattern], st)
    | .ArrayVariableDecl _ _ _ _ _ =>
      match evaluateArray fuel ev st node with
      | .error e => .error e
      | .ok (pattern, st) => .ok ([pattern], st)
    | .PointerVariableDecl _ _ _ _ _ =>
      match evaluatePointer fuel ev st node with
      | .error e => .error e
      | .ok (pattern, st) => .ok ([pattern], st)
    | .ConditionalStatement _ condition trueBody falseBody =>
      match evaluateMathematicalExpression fuel ev st condition with
      | .error e => .error e
      | .ok condition =>
        if condition.literal.value.nonZero ev.host then
          bodyLoop (evaluateMember fuel ev) trueBody [] st
        else bodyLoop (evaluateMember fuel ev) falseBody [] st
    | _ => throwEvaluateError "invalid struct member" node.getLineNumber

/-- The function `Evaluator::evaluateStruct`. -/
def evaluateStruct :
    Nat → Evaluator → EvalState → ASTNode → Except Stop (PatternData × EvalState)
  | 0, _, _, _ => .error .outOfFuel
  | fuel + 1, ev, st, node =>
    match node with
    | .Struct _ members =>
      let startOffset := st.currOffset
      match structLoop (evaluateMember fuel ev) members
          { st with currMembers := [] :: st.currMembers } with
      | .error e => .error e
      | .ok st =>
        .ok (.Struct (newAttrs startOffset (sub64 st.currOffset startOffset))
              (st.currMembers.headD []),
          { st with currMembers := st.currMembers.tail })
    | _ => .error .undefinedBehaviour

/-- The function `Evaluator::evaluateUnion`. -/
def evaluateUnion :
    Nat → Evaluator → EvalState → ASTNode → Except Stop (PatternData × EvalState)
  | 0, _, _, _ => .error .outOfFuel
  | fuel + 1, ev, st, node =>
    match node with
    | .Union _ members =>
      let startOffset := st.currOffset
      match unionLoop (evaluateMember fuel ev) startOffset members
          { st with currMembers := [] :: st.currMembers } with
      | .error e => .error e
      | .ok st =>
        .ok (.Union (newAttrs startOffset (sub64 st.currOffset startOffset))
              (st.currMembers.headD []),
          { st with currMembers := st.currMembers.tail })
    | _ => .error .undefinedBehaviour

/-- The function `Evaluator::evaluateType`. A built-in inner type returns at
once, without the type name of the declaration. -/
def evaluateType :
    Nat → Evaluator → EvalState → ASTNode → Except Stop (PatternData × EvalState)
  | 0, _, _, _ => .error .outOfFuel
  | fuel + 1, ev, st, node =>
    match node with
    | .TypeDecl lineNumber name type endian =>
      let st := if st.currEndian.isSome then st else { st with currEndian := endian }
      let stamp (result : Except Stop (PatternData × EvalState)) :
          Except Stop (PatternData × EvalState) :=
        match result with
        | .error e => .error e
        | .ok (pattern, st) =>
          .ok (if name ≠ "" then pattern.setTypeName name else pattern, st)
      match type with
      | .BuiltinType l builtin => evaluateBuiltinType st l builtin
      | .TypeDecl _ _ _ _ => stamp (evaluateType fuel ev st type)
      | .Struct _ _ => stamp (evaluateStruct fuel ev st type)
      | .Union _ _ => stamp (evaluateUnion fuel ev st type)
      | .Enum _ _ _ => stamp (evaluateEnum fuel ev st type)
      | .Bitfield _ _ => stamp (evaluateBitfield fuel ev st type)
      | _ => throwEvaluateError "type could not be evaluated" lineNumber
    | _ => .error .undefinedBehaviour

/-- The function `Evaluator::evaluateVariable`. -/
def evaluateVariable :
    Nat → Evaluator → EvalState → ASTNode → Except Stop (PatternData × EvalState)
  | 0, _, _, _ => .error .outOfFuel
  | fuel + 1, ev, st, node =>
    match node with
    | .VariableDecl lineNumber name type placementOffset =>
      match evaluatePlacement fuel ev st placementOffset lineNumber with
      | .error e => .error e
      | .ok st =>
        if st.currOffset ≥ ev.provider.actualSize then
          throwEvaluateError "array exceeds size of file" lineNumber
        else
          let result : Except Stop (PatternData × EvalState) :=
            match type with
            | .TypeDecl _ _ _ _ => evaluateType fuel ev st type
            | .BuiltinType l builtin => evaluateBuiltinType st l builtin
            | _ => throwEvaluateError "ASTNodeVariableDecl had an invalid type. This is a bug!" 1
          match result with
          | .error e => .error e
          | .ok (pattern, st) =>
            .ok ((pattern.setVariableName name).setEndian (getCurrentEndian ev st),
              { st with currEndian := none })
    | _ => .error .undefinedBehaviour

/-- The function `Evaluator::evaluateArray`. -/
def evaluateArray :
    Nat → Evaluator → EvalState → ASTNode → Except Stop (PatternData × EvalState)
  | 0, _, _, _ => .error .outOfFuel
  | fuel + 1, ev, st, node =>
    match node with
    | .ArrayVariableDecl lineNumber name type size placementOffset =>
      match evaluatePlacement fuel ev st placementOffset lineNumber with
      | .error e => .error e
      | .ok st =>
        let startOffset := st.currOffset
        match evaluateArraySize fuel ev st size lineNumber with
        | .error e => .error e
        | .ok arraySize =>
          if isPaddingType type then
            .ok (.Padding (newAttrs startOffset arraySize),
              { st with currOffset := u64 (st.currOffset + arraySize) })
          else
            match arrayLoop (evaluateEntry (evaluateType fuel ev) type) ev lineNumber
                arraySize 0 [] st with
            | .error e => .error e
            | .ok (entries, st) =>
              .ok ((arrayPattern startOffset st.currOffset entries).setVariableName name,
                { st with currEndian := none })
    | _ => .error .undefinedBehaviour

/-- The function `Evaluator::evaluatePointer`. Passing a type that is not a
type declaration on to `evaluateType` dereferences a null pointer. -/
def evaluatePointer :
    Nat → Evaluator → EvalState → ASTNode → Except Stop (PatternData × EvalState)
  | 0, _, _, _ => .error .outOfFuel
  | fuel + 1, ev, st, node =>
    match node with
    | .PointerVariableDecl lineNumber _ type sizeType placementOffset =>
      match evaluatePointerPlacement fuel ev st placementOffset lineNumber with
      | .error e => .error e
      | .ok (pointerOffset, st) =>
        match sizeType with
        | .BuiltinType l builtin =>
          match evaluateBuiltinType st l builtin with
          | .error e => .error e
          | .ok (sizePattern, st) =>
            let pointerSize := sizePattern.getSize
            let pointedAtOffset :=
              loadU128 ev.native (ev.provider.read (toU64 pointerOffset) pointerSize)
            let st := { st with currOffset := u64 pointedAtOffset }
            match type with
            | .TypeDecl _ _ _ _ =>
              match evaluateType fuel ev st type with
              | .error e => .error e
              | .ok (pointedAt, st) =>
                .ok (.Pointer (newAttrs (toU64 pointerOffset) pointerSize) pointedAt,
                  { st with currOffset := toU64 (pointerOffset + pointerSize) })
            | _ => .error .undefinedBehaviour
        | _ => throwEvaluateError "Pointer size is not a builtin type" lineNumber
    | _ => .error .undefinedBehaviour

end

/-- The loop of `Evaluator::evaluate` over the top-level nodes. -/
def evaluateNodes (fuel : Nat) (ev : Evaluator) :
    List ASTNode → List PatternData → EvalState → Except Stop (List PatternData × EvalState)
  | [], patterns, st => .ok (patterns, st)
  | node :: rest, patterns, st =>
    let st := { st with currEndian := none }
    match node with
    | .VariableDecl _ _ _ _ =>
      match evaluateVariable fuel ev st node with
      | .error e => .error e
      | .ok (pattern, st) => evaluateNodes fuel ev rest (patterns ++ [pattern]) st
    | .ArrayVariableDecl _ _ _ _ _ =>
      match evaluateArray fuel ev st node with
      | .error e => .error e
      | .ok (pattern, st) => evaluateNodes fuel ev rest (patterns ++ [pattern]) st
    | .PointerVariableDecl _ _ _ _ _ =>
      match evaluatePointer fuel ev st node with
      | .error e => .error e
      | .ok (pattern, st) => evaluateNodes fuel ev rest (patterns ++ [pattern]) st
    | .TypeDecl _ name type _ =>
      evaluateNodes fuel ev rest patterns { st with types := (name, type) :: st.types }
    | _ => evaluateNodes fuel ev rest patterns st

/-- The function `Evaluator::evaluate`: the patterns, or the `EvaluateError`
that was caught and retained in `m_error` while the function returned nothing.
Undefined behaviour and exhausted fuel are passed on. -/
def Evaluator.evaluate (ev : Evaluator) (fuel : Nat) (st : EvalState) (ast : List ASTNode) :
    Except Stop (Except EvaluateError (List PatternData)) :=
  match evaluateNodes fuel ev ast [] st with
  | .ok (patterns, _) => .ok (.ok patterns)
  | .error (.evaluateError e) => .ok (.error e)
  | .error stop => .error stop

/-! ## Inputs of the examples -/

/-- A host for the examples, none of which reaches a floating-point operation. -/
def exampleHost : Host :=
  ⟨fun _ _ _ => .computed 0, fun _ _ _ => false, fun _ => true, fun _ => 0⟩

/-- A provider over the given bytes. -/
def bytesProvider (bytes : List Nat) : Provider := ⟨bytes.length, fun i => bytes.getD i 0⟩

/-- An evaluator over the given bytes, without registered functions, on a
little-endian host. -/
def exampleEvaluator (bytes : List Nat) (defaultDataEndian : Endian) : Evaluator :=
  ⟨bytesProvider bytes, defaultDataEndian, [], exampleHost, .little⟩

/-- The state of a fresh evaluator. -/
def initialState : EvalState := ⟨0, none, [], []⟩

/-- The numeric expression of an integer literal `n` of type `s32`, the literal
plus an untyped zero. -/
def literalExpression (n : Int) : ASTNode :=
  .NumericExpression 1 (.IntegerLiteral 1 ⟨.Signed32Bit, .int .s32 n⟩)
    (.IntegerLiteral 1 ⟨.Any, .int .s32 0⟩) .Plus

/-- The type node of a variable of a built-in type. -/
def builtinType (type : ValueType) : ASTNode := .TypeDecl 1 "" (.BuiltinType 1 type) none

/-- The declaration `u32 magic @ 0;`. -/
def exampleMagic : ASTNode :=
  .VariableDecl 1 "magic" (builtinType .Unsigned32Bit) (some (literalExpression 0))

/-- The declaration `union U { u8 x; u16 y; } u @ 0;`, with the union node by itself. -/
def exampleUnionNode : ASTNode :=
  .Union 1 [.VariableDecl 1 "x" (builtinType .Unsigned8Bit) none,
    .VariableDecl 1 "y" (builtinType .Unsigned16Bit) none]

/-- The declaration `union U { u8 x; u16 y; } u @ 0;`. -/
def exampleUnion : ASTNode :=
  .VariableDecl 1 "u" (.TypeDecl 1 "" (.TypeDecl 1 "U" exampleUnionNode none) none)
    (some (literalExpression 0))

/-- The declaration `u8 data[4] @ 0;`. -/
def exampleArray : ASTNode :=
  .ArrayVariableDecl 1 "data" (builtinType .Unsigned8Bit) (literalExpression 4)
    (some (literalExpression 0))

/-- The bitfield `bitfield Wide { a : 64; b : 64; }`. -/
def exampleWideBitfield : ASTNode :=
  .Bitfield 1 [("a", literalExpression 64), ("b", literalExpression 64)]

/-- The declaration `Wide w @ 0;` for `bitfield Wide { a : 64; b : 64; }`. -/
def exampleWide : ASTNode :=
  .VariableDecl 1 "w" (.TypeDecl 1 "" (.TypeDecl 1 "Wide" exampleWideBitfield none) none)
    (some (literalExpression 0))

/-- The declaration `u16 data[3] @ 0;`. -/
def exampleShortArray : ASTNode :=
  .ArrayVariableDecl 1 "data" (builtinType .Unsigned16Bit) (literalExpression 3)
    (some (literalExpression 0))

/-! ## Notions used to state the properties -/

/-- The state after the first `k` elements of an array have been placed one
after the other from a state, the size of the source not being looked at. -/
def placeEntries (evaluateEntry : EvalState → Except Stop (PatternData × EvalState)) :
    Nat → EvalState → Except Stop EvalState
  | 0, st => .ok st
  | k + 1, st =>
    match evaluateEntry st with
    | .error e => .error e
    | .ok (_, st) => placeEntries evaluateEntry k st

/-- The override of the outermost named type declaration of a type chain that
carries one. -/
def chainOverride : ASTNode → Option Endian
  | .TypeDecl _ _ _ (some endian) => some endian
  | .TypeDecl _ _ type none => chainOverride type
  | _ => none

/-- A type chain that ends in a built-in type, an enum or a bitfield. -/
def endsInScalar : ASTNode → Bool
  | .BuiltinType _ _ => true
  | .Enum _ _ _ => true
  | .Bitfield _ _ => true
  | .TypeDecl _ _ type _ => endsInScalar type
  | _ => false

/-- The struct `struct { u16 b; }` declared big-endian under the name `T`. -/
def exampleBigStruct : ASTNode :=
  .TypeDecl 1 "T" (.Struct 1 [.VariableDecl 1 "b" (builtinType .Unsigned16Bit) none])
    (some .big)

/-- The declaration `T x @ 0;` for `using T = be struct { u16 b; };`. -/
def exampleBigStructVariable : ASTNode :=
  .VariableDecl 1 "x" (.TypeDecl 1 "" exampleBigStruct none) (some (literalExpression 0))

/-- The declaration `T x @ 0;` for `using T = be u32;`. -/
def exampleBigWord : ASTNode :=
  .VariableDecl 1 "x"
    (.TypeDecl 1 "" (.TypeDecl 1 "T" (.BuiltinType 1 .Unsigned32Bit) (some .big)) none)
    (some (literalExpression 0))

/-- A built-in type that `evaluateBuiltinType` places: unsigned, signed,
floating point or character. -/
def placeable (type : ValueType) : Bool :=
  type = .Character || Token.isUnsigned type || Token.isSigned type
    || Token.isFloatingPoint type

/-- The built-in type of a member that is a plain variable of a built-in type
(named directly or through the type declaration of the variable) without
placement offset. -/
def plainMemberType : ASTNode → Option ValueType
  | .VariableDecl _ _ (.BuiltinType _ type) none => if placeable type then some type else none
  | .VariableDecl _ _ (.TypeDecl _ _ (.BuiltinType _ type) _) none =>
    if placeable type then some type else none
  | _ => none

/-- The width of a plain member of built-in type. -/
def memberWidth (member : ASTNode) : Nat :=
  match plainMemberType member with
  | some type => Token.getTypeSize type
  | none => 0

/-- The offsets and sizes of plain members of built-in type laid out one after
the other from a start offset. -/
def layout (start : Nat) : List ASTNode → List (Nat × Nat)
  | [] => []
  | member :: rest => (start, memberWidth member) :: layout (start + memberWidth member) rest

/-- The members of the declaration `struct S { u8 a; u16 b; } s @ 0;`. -/
def exampleStructMembers : List ASTNode :=
  [.VariableDecl 1 "a" (builtinType .Unsigned8Bit) none,
    .VariableDecl 1 "b" (builtinType .Unsigned16Bit) none]

/-- A type, as named by a variable, whose evaluation moves the cursor by the
size of its pattern: a type chain that ends in a built-in type, a struct or a
union (and not in an enum or a bitfield, which leave the cursor where it is). -/
def typeAdvances : ASTNode → Bool
  | .BuiltinType _ _ => true
  | .TypeDecl _ _ (.BuiltinType _ _) _ => true
  | .TypeDecl _ _ (.Struct _ _) _ => true
  | .TypeDecl _ _ (.Union _ _) _ => true
  | .TypeDecl _ _ (.TypeDecl l name type endian) _ => typeAdvances (.TypeDecl l name type endian)
  | _ => false

mutual

/-- A member without placement offset that moves the cursor by the sizes of
its patterns: a variable whose type advances, an array, a pointer, or a
conditional whose bodies consist of such members. -/
def memberAdvances : ASTNode → Bool
  | .VariableDecl _ _ type none => typeAdvances type
  | .ArrayVariableDecl _ _ _ _ none => true
  | .PointerVariableDecl _ _ _ _ none => true
  | .ConditionalStatement _ _ trueBody falseBody =>
    membersAdvance trueBody && membersAdvance falseBody
  | _ => false

/-- Every member of the list advances. -/
def membersAdvance : List ASTNode → Bool
  | [] => true
  | member :: rest => memberAdvances member && membersAdvance rest

end

/-- The declaration `struct S { u8 a @ 2; } s @ 0;`. -/
def examplePlacedMember : ASTNode :=
  .VariableDecl 1 "s"
    (.TypeDecl 1 ""
      (.TypeDecl 1 "S"
        (.Struct 1 [.VariableDecl 1 "a" (builtinType .Unsigned8Bit) (some (literalExpression 2))])
        none) none)
    (some (literalExpression 0))

/-- The members of `struct { u8 a; u8 d[2]; u8 *p : u8; struct { u8 x; } n; }`. -/
def exampleMixedMembers : List ASTNode :=
  [.VariableDecl 1 "a" (builtinType .Unsigned8Bit) none,
    .ArrayVariableDecl 1 "d" (builtinType .Unsigned8Bit) (literalExpression 2) none,
    .PointerVariableDecl 1 "p" (builtinType .Unsigned8Bit) (.BuiltinType 1 .Unsigned8Bit) none,
    .VariableDecl 1 "n"
      (.TypeDecl 1 "" (.Struct 1 [.VariableDecl 1 "x" (builtinType .Unsigned8Bit) none]) none)
      none]

/-! ## Comparing patterns -/

mutual

/-- Whether two patterns are the same. -/
def PatternData.same : PatternData → PatternData → Bool
  | .Unsigned a, .Unsigned b => a == b
  | .Signed a, .Signed b => a == b
  | .Float a, .Float b => a == b
  | .Character a, .Character b => a == b
  | .String a, .String b => a == b
  | .Padding a, .Padding b => a == b
  | .Enum a es, .Enum b fs => a == b && es == fs
  | .Bitfield a es, .Bitfield b fs => a == b && es == fs
  | .Struct a ms, .Struct b ns => a == b && PatternData.sameList ms ns
  | .Union a ms, .Union b ns => a == b && PatternData.sameList ms ns
  | .Array a ms, .Array b ns => a == b && PatternData.sameList ms ns
  | .Pointer a p, .Pointer b q => a == b && PatternData.same p q
  | _, _ => false

/-- Whether two lists of patterns are the same. -/
def PatternData.sameList : List PatternData → List PatternData → Bool
  | [], [] => true
  | p :: ps, q :: qs => PatternData.same p q && PatternData.sameList ps qs
  | _, _ => false

end

/-- Whether an evaluation has produced the given pattern. -/
def producesPattern (r : Except Stop (PatternData × EvalState)) (p : PatternData) : Bool :=
  match r with
  | .ok (q, _) => PatternData.same q p
  | .error _ => false

/-- Whether an evaluation has produced the given patterns. -/
def producesPatterns (r : Except Stop (List PatternData × EvalState))
    (ps : List PatternData) : Bool :=
  match r with
  | .ok (qs, _) => PatternData.sameList qs ps
  | .error _ => false

/-- The state an evaluation ends in, the given state when it does not end. -/
def finalState {α : Type} (r : Except Stop (α × EvalState)) (st : EvalState) : EvalState :=
  match r with
  | .ok (_, st') => st'
  | .error _ => st

/-- Whether `evaluate` has returned the given patterns. -/
def returnsPatterns (r : Except Stop (Except EvaluateError (List PatternData)))
    (ps : List PatternData) : Bool :=
  match r with
  | .ok (.ok qs) => PatternData.sameList qs ps
  | _ => false

/-! ## Notions used to state the properties of literals -/

/-- The three ways of writing the digits of an integer literal. -/
inductive Radix where
  | hexadecimal | binary | decimal
  deriving DecidableEq, Repr

/-- The base of a radix. -/
def Radix.base : Radix → Nat
  | .hexadecimal => 16
  | .binary => 2
  | .decimal => 10

/-- The characters that introduce the digits of a radix: `0x`, `0b`, or
nothing. -/
def Radix.lead : Radix → List Char
  | .hexadecimal => ['0', 'x']
  | .binary => ['0', 'b']
  | .decimal => []

/-- The digits of a radix: hex digits of either case, `0` and `1`, or decimal
digits. -/
def Radix.isDigit : Radix → Char → Bool
  | .hexadecimal, c =>
    decide ((48 ≤ c.toNat ∧ c.toNat ≤ 57) ∨ (65 ≤ c.toNat ∧ c.toNat ≤ 70)
      ∨ (97 ≤ c.toNat ∧ c.toNat ≤ 102))
  | .binary, c => decide (c = '0' ∨ c = '1')
  | .decimal, c => decide (48 ≤ c.toNat ∧ c.toNat ≤ 57)

/-- The value a digit character stands for: `0` to `9`, and `10` to `15` for
the letters `A` to `F` of either case. -/
def digitOf (c : Char) : Nat :=
  if c.toNat ≤ 57 then c.toNat - 48
  else if c.toNat ≤ 70 then c.toNat - 55
  else c.toNat - 87

/-- The positional value of a digit string in a base, as a natural number. -/
def positionalValue (base : Nat) (digits : List Char) : Nat :=
  digits.foldl (fun value c => value * base + digitOf c) 0

/-- What may follow an integer literal in the source: nothing, or a character
that cannot be part of a literal. -/
def endsLiteral (rest : List Char) : Bool :=
  match rest with
  | [] => true
  | c :: _ => !literalChars.contains c

/-! ## Notions used to state the properties of operators -/

/-- The ladder of types, highest rank first. -/
def typeLadder : List ValueType :=
  [.Double, .Float, .Unsigned128Bit, .Signed128Bit, .Unsigned64Bit, .Signed64Bit,
    .Unsigned32Bit, .Signed32Bit, .Unsigned16Bit, .Signed16Bit, .Unsigned8Bit, .Signed8Bit,
    .Character]

/-- The first type of the ladder that equals the type of one of the two
operands, and `s32` when there is none. -/
def ladderType (left right : ValueType) : ValueType :=
  (typeLadder.find? (fun type => decide (left = type ∨ right = type))).getD .Signed32Bit

/-- The rank of a type: its position in the ladder, `0` being the highest. -/
def typeRank (type : ValueType) : Nat := typeLadder.indexOf type

/-- The bitwise and shift operators. -/
def bitwiseOperators : List Operator :=
  [.ShiftLeft, .ShiftRight, .BitAnd, .BitOr, .BitXor, .BitNot]

/-- The message of the error for a bitwise operation on a floating-point value. -/
def bitwiseMessage : String := "bitwise operations on floating point numbers are forbidden"

/-! ## Notions used to state the properties of bitfields, variables and pointers -/

/-- The width in bits that the size expression of a bitfield entry stands for:
the value of the literal it evaluates to, when the literal is not of a
floating-point type and its value, as an `s128`, lies between 1 and 64. -/
def fieldWidth (fuel : Nat) (ev : Evaluator) (st : EvalState) (value : ASTNode) : Option Nat :=
  match evaluateMathematicalExpression fuel ev st value with
  | .ok size =>
    if Token.isFloatingPoint size.literal.type then none
    else if 1 ≤ size.literal.value.toS128 ev.host ∧ size.literal.value.toS128 ev.host ≤ 64 then
      some (size.literal.value.toS128 ev.host).toNat
    else none
  | .error _ => none

/-- The entries of a bitfield in declaration order, each name with the width of
the entry. -/
def fieldWidths (fuel : Nat) (ev : Evaluator) (st : EvalState)
    (entries : List (String × ASTNode)) : List (String × Nat) :=
  entries.map (fun entry => (entry.1, (fieldWidth fuel ev st entry.2).getD 0))

/-- The total number of bits of the entries of a bitfield. -/
def totalBits (fuel : Nat) (ev : Evaluator) (st : EvalState)
    (entries : List (String × ASTNode)) : Nat :=
  ((fieldWidths fuel ev st entries).map Prod.snd).sum

/-- The type `bitfield B { a : 3; b : 5; }`. -/
def exampleBitfield : ASTNode :=
  .Bitfield 1 [("a", literalExpression 3), ("b", literalExpression 5)]

/-- The built-in type of a variable: the type node names a built-in type that
`evaluateBuiltinType` places, directly or through the type declaration of the
variable. -/
def namedBuiltin : ASTNode → Option ValueType
  | .BuiltinType _ type => if placeable type then some type else none
  | .TypeDecl _ _ (.BuiltinType _ type) _ => if placeable type then some type else none
  | _ => none

/-- The declaration `u16 value @ 2;`. -/
def examplePlacedVariable : ASTNode :=
  .VariableDecl 1 "value" (builtinType .Unsigned16Bit) (some (literalExpression 2))

/-- The declaration `u8 *p : u32 @ 0;`. -/
def examplePointer : ASTNode :=
  .PointerVariableDecl 1 "p" (builtinType .Unsigned8Bit) (.BuiltinType 1 .Unsigned32Bit)
    (some (literalExpression 0))

/-! ## Notions and inputs for the properties of r-values, types, arrays and the
top-level loop -/

/-- The source that consists of a single quote character. -/
def exampleQuote : String := String.mk [Char.ofNat 39]

/-- The source `'`, a NUL byte, `'`: the source of a single quote followed by a
NUL byte and a further quote. -/
def exampleQuoteNulQuote : String := String.mk [Char.ofNat 39, nul, Char.ofNat 39]

/-- The unsigned value type and alternative of a width in bytes. -/
def unsignedOfSize : Nat → Option (ValueType × IntKind)
  | 1 => some (.Unsigned8Bit, .u8)
  | 2 => some (.Unsigned16Bit, .u16)
  | 4 => some (.Unsigned32Bit, .u32)
  | 8 => some (.Unsigned64Bit, .u64)
  | 16 => some (.Unsigned128Bit, .u128)
  | _ => none

/-- The patterns `evaluateRValue` reads an integer from: unsigned, signed and
enum patterns. -/
def isIntegerPattern : PatternData → Bool
  | .Unsigned _ | .Signed _ | .Enum _ _ => true
  | _ => false

/-- A state inside a struct whose members so far are `s8 a`, `char c` and
`u16 u`. -/
def exampleMemberState : EvalState :=
  ⟨4, none, [[.Signed ⟨0, 1, "s8", "a", some .little⟩,
    .Character ⟨1, 1, "char", "c", some .little⟩,
    .Unsigned ⟨2, 2, "u16", "u", some .little⟩]], []⟩

/-- A state in which `enum E : u8 { A = 3 }` has been declared. -/
def exampleEnumState : EvalState :=
  ⟨0, none, [], [("E", .Enum 1 [("A", literalExpression 3)] (.BuiltinType 1 .Unsigned8Bit))]⟩

/-- The patterns of the statements of a body, one statement after the other
from a state: the patterns of each statement in order, and the state after the
last. -/
def inlineBody (evaluateMember : EvalState → ASTNode → Except Stop (List PatternData × EvalState)) :
    List ASTNode → EvalState → Except Stop (List PatternData × EvalState)
  | [], st => .ok ([], st)
  | statement :: rest, st =>
    match evaluateMember st statement with
    | .error e => .error e
    | .ok (statementPatterns, st) =>
      match inlineBody evaluateMember rest st with
      | .error e => .error e
      | .ok (restPatterns, st) => .ok (statementPatterns ++ restPatterns, st)

/-- The member `if (1) { u8 a; } else { u16 b; }`. -/
def exampleConditional : ASTNode :=
  .ConditionalStatement 1 (literalExpression 1)
    [.VariableDecl 1 "a" (builtinType .Unsigned8Bit) none]
    [.VariableDecl 1 "b" (builtinType .Unsigned16Bit) none]

/-- The program `using MyInt = u32; MyInt x @ 0;`. -/
def exampleUsing : List ASTNode :=
  [.TypeDecl 1 "MyInt" (.BuiltinType 1 .Unsigned32Bit) none,
    .VariableDecl 2 "x" (.TypeDecl 2 "" (.TypeDecl 1 "MyInt" (.BuiltinType 1 .Unsigned32Bit) none)
      none) (some (literalExpression 0))]

/-- A variable declaration without placement offset. -/
def isUnplacedVariable : ASTNode → Bool
  | .VariableDecl _ _ _ none => true
  | _ => false

/-- The name of the element of an array at an index. -/
def elementName (i : Nat) : String := "[" ++ toString i ++ "]"

/-- The declaration `u16 words[2];`. -/
def exampleWords : ASTNode :=
  .ArrayVariableDecl 1 "words" (builtinType .Unsigned16Bit) (literalExpression 2) none

/-- The top-level nodes that place bytes: variable, array-variable and
pointer-variable declarations. -/
def isDeclaration : ASTNode → Bool
  | .VariableDecl _ _ _ _ | .ArrayVariableDecl _ _ _ _ _ | .PointerVariableDecl _ _ _ _ _ => true
  | _ => false

/-- The evaluation of a declaration by the function for its kind. -/
def evaluateDeclaration (fuel : Nat) (ev : Evaluator) (st : EvalState) (node : ASTNode) :
    Except Stop (PatternData × EvalState) :=
  match node with
  | .VariableDecl _ _ _ _ => evaluateVariable fuel ev st node
  | .ArrayVariableDecl _ _ _ _ _ => evaluateArray fuel ev st node
  | .PointerVariableDecl _ _ _ _ _ => evaluatePointer fuel ev st node
  | _ => .error .undefinedBehaviour

/-- The program `u8 a @ 0;` followed, on line 2, by `u16 data[3] @ 0;`. -/
def exampleFailingProgram : List ASTNode :=
  [.VariableDecl 1 "a" (builtinType .Unsigned8Bit) (some (literalExpression 0)),
    .ArrayVariableDecl 2 "data" (builtinType .Unsigned16Bit) (literalExpression 3)
      (some (literalExpression 0))]

/-! ## Notions and inputs for the properties of operators in the source,
ternaries, unary operators and function calls -/

/-- The two-character operators with the token each stands for. -/
def twoCharacterOperators : List (String × TokenValue) :=
  [("==", .Operator .BoolEquals), ("!=", .Operator .BoolNotEquals),
    (">=", .Operator .BoolGreaterThanOrEquals), ("<=", .Operator .BoolLessThanOrEquals),
    ("&&", .Operator .BoolAnd), ("||", .Operator .BoolOr), ("^^", .Operator .BoolXor),
    ("<<", .Operator .ShiftLeft), (">>", .Operator .ShiftRight),
    ("::", .Separator .ScopeResolution)]

/-- The numeric expression of an r-value: the r-value plus an untyped zero. -/
def rvalueExpression (path : List String) : ASTNode :=
  .NumericExpression 1 (.RValue 1 path) (.IntegerLiteral 1 ⟨.Any, .int .s32 0⟩) .Plus

/-- The arity rules of a registered function: exactly `n` parameters, any number
of parameters, fewer than `n`, more than `n`. -/
inductive Arity where
  | exact (n : Nat)
  | unlimited
  | fewerThan (n : Nat)
  | moreThan (n : Nat)
  deriving DecidableEq, Repr

/-- The number a rule names (none for the unlimited rule). -/
def Arity.bound : Arity → Nat
  | .exact n | .fewerThan n | .moreThan n => n
  | .unlimited => 0

/-- The parameter count that stands for a rule: the number itself, the constant
for unlimited parameters, or the number combined with the flag of the rule, as
the constructor of `Evaluator` registers `findSequence`. -/
def Arity.encode : Arity → Nat
  | .exact n => n
  | .unlimited => Function.UnlimitedParameters
  | .fewerThan n => Function.LessParametersThan ||| n
  | .moreThan n => Function.MoreParametersThan ||| n

/-- Whether a rule admits a number of parameters. -/
def Arity.accepts : Arity → Nat → Bool
  | .exact n, count => decide (count = n)
  | .unlimited, _ => true
  | .fewerThan n, count => decide (count < n)
  | .moreThan n, count => decide (count > n)

/-- The functions the constructor of `Evaluator` registers, with their
parameter counts. The handlers `findSequence`, `readUnsigned` and `readSigned`
are not among the sources; here each one returns the literal `s32` 0. -/
def registeredFunctions : List (String × Function) :=
  [("findSequence", ⟨Function.MoreParametersThan ||| 1,
      fun _ _ => .ok ⟨1, ⟨.Signed32Bit, .int .s32 0⟩⟩⟩),
    ("readUnsigned", ⟨2, fun _ _ => .ok ⟨1, ⟨.Signed32Bit, .int .s32 0⟩⟩⟩),
    ("readSigned", ⟨2, fun _ _ => .ok ⟨1, ⟨.Signed32Bit, .int .s32 0⟩⟩⟩)]

/-- An evaluator over the given bytes with the registered functions. -/
def registeredEvaluator (bytes : List Nat) : Evaluator :=
  ⟨bytesProvider bytes, .little, registeredFunctions, exampleHost, .little⟩

/-- The declaration `struct S { BE16 v; u8 d[v]; } s @ 0;` with
`using BE16 = be u16;`. -/
def exampleTagged : ASTNode :=
  .VariableDecl 1 "s"
    (.TypeDecl 1 "" (.TypeDecl 1 "S" (.Struct 1
      [.VariableDecl 1 "v"
          (.TypeDecl 1 "" (.TypeDecl 1 "BE16" (.BuiltinType 1 .Unsigned16Bit) (some .big)) none)
          none,
        .ArrayVariableDecl 1 "d" (builtinType .Unsigned8Bit) (rvalueExpression ["v"]) none])
      none) none)
    (some (literalExpression 0))

/-- The members `u8 n;` and `u8 d[n];`. -/
def exampleCounted : List ASTNode :=
  [.VariableDecl 1 "n" (builtinType .Unsigned8Bit) none,
    .ArrayVariableDecl 1 "d" (builtinType .Unsigned8Bit) (rvalueExpression ["n"]) none]

/-- The type `struct { if (1) { u8 n; u8 d[n]; } }`. -/
def exampleHidden : ASTNode :=
  .Struct 1 [.ConditionalStatement 1 (literalExpression 1) exampleCounted []]

/-- The type `struct { u8 n; if (1) { u8 d[n]; } }`. -/
def exampleVisible : ASTNode :=
  .Struct 1 [.VariableDecl 1 "n" (builtinType .Unsigned8Bit) none,
    .ConditionalStatement 1 (literalExpression 1)
      [.ArrayVariableDecl 1 "d" (builtinType .Unsigned8Bit) (rvalueExpression ["n"]) none] []]

/-! ## Notions for the properties of the scanning loop -/

/-- The characters that are a token by themselves. -/
def punctuation : List Char :=
  [';', '(', ')', Char.ofNat 123, Char.ofNat 125, '[', ']', ',', '.', '@', '=', ':', '+', '-',
    '*', '/', '>', '<', '!', '|', '&', '^', '~', '?']

/-- The two-character operators, as character lists. -/
def operatorPairs : List (List Char) :=
  [['=', '='], ['!', '='], ['>', '='], ['<', '='], ['&', '&'], ['|', '|'], ['^', '^'],
    [':', ':'], ['<', '<'], ['>', '>']]

/-- The characters an identifier goes on with: letters, digits and `_`. -/
def isWordCharacter (c : Char) : Bool := isalnum c || c = '_'

/-- The single quote. -/
def quoteCharacter : Char := Char.ofNat 39

/-- The backslash. -/
def backslashCharacter : Char := Char.ofNat 92

/-- The character a character literal stands for and the number of characters
of the source it takes up, the opening quote included, given what follows the
opening quote: a character other than backslash, quote, newline and carriage
return followed by a quote, or a backslash followed by a backslash or a quote
and then by a quote. Anything else is no character literal. -/
def characterLiteral : List Char → Option (Char × Nat)
  | [] => none
  | x :: rest =>
    if x = backslashCharacter then
      match rest with
      | e :: q :: _ =>
        if (e = backslashCharacter ∨ e = quoteCharacter) ∧ q = quoteCharacter then some (e, 4)
        else none
      | _ => none
    else if x = quoteCharacter ∨ x = Char.ofNat 10 ∨ x = Char.ofNat 13 then none
    else
      match rest with
      | q :: _ => if q = quoteCharacter then some (x, 3) else none
      | [] => none

/-- The token of a character literal. -/
def characterToken (x : Char) : TokenValue :=
  .Integer ⟨.Character, .int .chr (IntKind.chr.wrap x.toNat)⟩

/-- The words the scanning loop does not lex as identifiers: the keywords and
the names of the built-in types, in the order of its tables. -/
def reservedWords : List String :=
  ["struct", "union", "using", "enum", "bitfield", "be", "le", "if", "else",
    "u8", "s8", "u16", "s16", "u32", "s32", "u64", "s64", "u128", "s128",
    "float", "double", "char", "padding"]

/-- The number of newline characters before an offset of the source. -/
def newlinesBefore (code : List Char) (offset : Nat) : Nat :=
  (code.take offset).count (Char.ofNat 10)

/-- The state of the scanning loop of `Lexer::lex` after a number of rounds
from a state, when each of these rounds goes on to a next round: the state in
which the following round starts. -/
def lexRounds (code : List Char) : Nat → LexState → Option LexState
  | 0, st => some st
  | rounds + 1, st =>
    match lexStep code st with
    | .next st' => lexRounds code rounds st'
    | _ => none

/-- The source `a structs;`. -/
def exampleWord : String := "a structs;"

/-- The source that is the character literal of `a`. -/
def exampleQuoted : String := "'a'"

/-- The source `0x1F;`. -/
def exampleHexadecimal : String := "0x1F;"

/-! ## Notions for the malformed literals -/

/-- The radix a literal without its suffix is written in: hexadecimal behind
`0x`, binary behind `0b`, decimal otherwise. -/
def literalRadix (body : List Char) : Radix :=
  if startsWith body ['0', 'x'] then .hexadecimal
  else if startsWith body ['0', 'b'] then .binary
  else .decimal

/-- The digit region of a literal without its suffix: what follows `0x` or
`0b`, or the whole of a decimal literal. -/
def digitRegion (body : List Char) : List Char :=
  body.drop (literalRadix body).lead.length

/-- The digit region holds a character that is no digit of the radix; the `.`
of a decimal literal is the decimal point and does not count. -/
def hasInvalidDigit (body : List Char) : Bool :=
  (digitRegion body).any (fun c =>
    !(literalRadix body).isDigit c && !(decide (literalRadix body = .decimal) && c == '.'))

/-- The digit region is empty. -/
def hasNoDigits (body : List Char) : Bool := (digitRegion body).isEmpty

/-- There is more than one `.`. -/
def hasTwoPoints (body : List Char) : Bool := decide (1 < body.count '.')

/-- The last character is a `.`. -/
def hasTrailingPoint (body : List Char) : Bool := body.getLast? == some '.'

/-! # Theorems -/

set_option maxRecDepth 8000

/-! ## Patterns -/

@[simp] theorem attrs_mapAttrs (f : PatternAttrs → PatternAttrs) (p : PatternData) :
    (p.mapAttrs f).attrs = f p.attrs := by
  cases p <;> rfl

@[simp] theorem getOffset_setTypeName (p : PatternData) (n : Name) :
    (p.setTypeName n).getOffset = p.getOffset := by
  simp [PatternData.setTypeName, PatternData.getOffset]

@[simp] theorem getOffset_setVariableName (p : PatternData) (n : Name) :
    (p.setVariableName n).getOffset = p.getOffset := by
  simp [PatternData.setVariableName, PatternData.getOffset]

@[simp] theorem getOffset_setEndian (p : PatternData) (e : Endian) :
    (p.setEndian e).getOffset = p.getOffset := by
  simp [PatternData.setEndian, PatternData.getOffset]

@[simp] theorem getSize_setTypeName (p : PatternData) (n : Name) :
    (p.setTypeName n).getSize = p.getSize := by
  simp [PatternData.setTypeName, PatternData.getSize]

@[simp] theorem getSize_setVariableName (p : PatternData) (n : Name) :
    (p.setVariableName n).getSize = p.getSize := by
  simp [PatternData.setVariableName, PatternData.getSize]

@[simp] theorem getSize_setEndian (p : PatternData) (e : Endian) :
    (p.setEndian e).getSize = p.getSize := by
  simp [PatternData.setEndian, PatternData.getSize]

@[simp] theorem getEndian_setEndian (p : PatternData) (e : Endian) :
    (p.setEndian e).getEndian = some e := by
  simp [PatternData.setEndian, PatternData.getEndian]

/-! ## Where a pattern starts -/

theorem evaluateBuiltinType_offset {st st' : EvalState} {l : Nat} {t : ValueType}
    {p : PatternData} (h : evaluateBuiltinType st l t = .ok (p, st')) :
    p.getOffset = st.currOffset := by
  unfold evaluateBuiltinType at h
  simp only at h
  split at h
  · cases h
  · rename_i pattern hp
    cases h
    simp only [getOffset_setTypeName]
    split_ifs at hp <;> first | (cases hp; rfl) | cases hp

theorem evaluateStruct_offset {fuel : Nat} {ev : Evaluator} {st st' : EvalState}
    {node : ASTNode} {p : PatternData} (h : evaluateStruct fuel ev st node = .ok (p, st')) :
    p.getOffset = st.currOffset := by
  cases fuel with
  | zero => simp [evaluateStruct] at h
  | succ n =>
    cases node <;> simp only [evaluateStruct] at h <;> try cases h
    split at h
    · cases h
    · cases h; rfl

theorem evaluateUnion_offset {fuel : Nat} {ev : Evaluator} {st st' : EvalState}
    {node : ASTNode} {p : PatternData} (h : evaluateUnion fuel ev st node = .ok (p, st')) :
    p.getOffset = st.currOffset := by
  cases fuel with
  | zero => simp [evaluateUnion] at h
  | succ n =>
    cases node <;> simp only [evaluateUnion] at h <;> try cases h
    split at h
    · cases h
    · cases h; rfl

theorem evaluateEnum_offset {fuel : Nat} {ev : Evaluator} {st st' : EvalState}
    {node : ASTNode} {p : PatternData} (h : evaluateEnum fuel ev st node = .ok (p, st')) :
    p.getOffset = st.currOffset := by
  cases node <;> simp only [evaluateEnum] at h <;> try cases h
  split at h
  · cases h
  · split at h
    · cases h; rfl
    · cases h

theorem evaluateBitfield_offset {fuel : Nat} {ev : Evaluator} {st st' : EvalState}
    {node : ASTNode} {p : PatternData} (h : evaluateBitfield fuel ev st node = .ok (p, st')) :
    p.getOffset = st.currOffset := by
  cases node <;> simp only [evaluateBitfield] at h <;> try cases h
  split at h
  · cases h
  · cases h; rfl

theorem stamp_offset {name : String} {r : Except Stop (PatternData × EvalState)}
    {p : PatternData} {st' : EvalState} {o : Nat}
    (hr : ∀ q s, r = .ok (q, s) → q.getOffset = o)
    (h : (match r with
      | .error e => .error e
      | .ok (pattern, st) =>
        Except.ok (if name ≠ "" then pattern.setTypeName name else pattern, st))
        = Except.ok (p, st')) :
    p.getOffset = o := by
  cases r with
  | error e => cases h
  | ok v =>
    obtain ⟨q, s⟩ := v
    simp only [Except.ok.injEq, Prod.mk.injEq] at h
    obtain ⟨h1, -⟩ := h
    have := hr q s rfl
    subst h1
    split_ifs <;> simp [this]

theorem evaluateType_offset : ∀ (fuel : Nat) (ev : Evaluator) (st st' : EvalState)
    (node : ASTNode) (p : PatternData),
    evaluateType fuel ev st node = .ok (p, st') → p.getOffset = st.currOffset := by
  intro fuel
  induction fuel with
  | zero => intro ev st st' node p h; simp [evaluateType] at h
  | succ n ih =>
    intro ev st st' node p h
    cases node <;> simp only [evaluateType] at h <;> try cases h
    rename_i line name type endian
    have hst : (if st.currEndian.isSome = true then st
        else { st with currEndian := endian }).currOffset = st.currOffset := by
      split_ifs <;> rfl
    split at h
    · rw [← hst]; exact evaluateBuiltinType_offset h
    · rw [← hst]; exact stamp_offset (fun q s hq => ih _ _ _ _ _ hq) h
    · rw [← hst]; exact stamp_offset (fun q s hq => evaluateStruct_offset hq) h
    · rw [← hst]; exact stamp_offset (fun q s hq => evaluateUnion_offset hq) h
    · rw [← hst]; exact stamp_offset (fun q s hq => evaluateEnum_offset hq) h
    · rw [← hst]; exact stamp_offset (fun q s hq => evaluateBitfield_offset hq) h
    · cases h

/-- C1 (as amended): the pattern of a variable declaration that evaluates
successfully starts inside the byte source, `offset < actual_size`; only the
start of a variable is checked against the size. -/
theorem C1_variable_starts_inside (fuel : Nat) (ev : Evaluator) (st st' : EvalState)
    (node : ASTNode) (p : PatternData)
    (h : evaluateVariable fuel ev st node = .ok (p, st')) :
    p.getOffset < ev.provider.actualSize := by
  cases fuel with
  | zero => simp [evaluateVariable] at h
  | succ n =>
    cases node <;> simp only [evaluateVariable] at h <;> try cases h
    rename_i line name type placement
    split at h
    · cases h
    · rename_i st1 hplace
      split_ifs at h with hlt
      · cases h
      · split at h
        · cases h
        · rename_i pattern st2 hres
          cases h
          simp only [getOffset_setEndian, getOffset_setVariableName]
          have hoff : pattern.getOffset = st1.currOffset := by
            split at hres
            · exact evaluateType_offset _ _ _ _ _ _ hres
            · exact evaluateBuiltinType_offset hres
            · cases hres
          omega

/-- C1, witness: `u32 magic @ 0;` on the four bytes `DE AD BE EF`. -/
theorem C1_variable_starts_inside_witness :
    evaluateVariable 3 (exampleEvaluator [0xDE, 0xAD, 0xBE, 0xEF] .little) initialState
        exampleMagic
      = .ok (.Unsigned ⟨0, 4, "u32", "magic", some .little⟩, ⟨4, none, [], []⟩)
    ∧ (PatternData.Unsigned ⟨0, 4, "u32", "magic", some .little⟩).getOffset
      < (exampleEvaluator [0xDE, 0xAD, 0xBE, 0xEF] .little).provider.actualSize :=
  ⟨rfl, C1_variable_starts_inside 3 (exampleEvaluator [0xDE, 0xAD, 0xBE, 0xEF] .little)
    initialState ⟨4, none, [], []⟩ exampleMagic _ rfl⟩

/-- C1, counterexample: `u32 magic @ 0;` on a source of one byte evaluates
successfully to an unsigned pattern of offset 0 and size 4, which ends three
bytes past the end of the source. -/
theorem C1_counterexample :
    ∃ a : PatternAttrs,
      (exampleEvaluator [0xDE] .little).evaluate 3 initialState [exampleMagic]
        = .ok (.ok [.Unsigned a])
      ∧ ¬ (a.offset + a.size ≤ (exampleEvaluator [0xDE] .little).provider.actualSize) :=
  ⟨⟨0, 4, "u32", "magic", some .little⟩, rfl, by decide⟩

/-! ## The scanning loop on a literal that ends the source -/

theorem lexStep_of_scan_none {code : List Char} (st : LexState) {offset lineNumber : Nat}
    (h : scan code st.offset st.lineNumber = .advance offset lineNumber none) :
    lexStep code st = .next ⟨offset, lineNumber, st.tokens⟩ := by
  unfold lexStep
  rw [h]

theorem lexStep_of_scan_some {code : List Char} (st : LexState) {offset lineNumber : Nat}
    {value : TokenValue}
    (h : scan code st.offset st.lineNumber = .advance offset lineNumber (some value)) :
    lexStep code st = .next ⟨offset, lineNumber, st.tokens ++ [⟨value, st.lineNumber⟩]⟩ := by
  unfold lexStep
  rw [h]

theorem lexLoop_next {code : List Char} {fuel : Nat} {st st' : LexState}
    (h : lexStep code st = .next st') :
    lexLoop code (fuel + 1) st = lexLoop code fuel st' := by
  rw [lexLoop, h]

theorem scan_blank_five_at_0 : scan [' ', '5'] 0 1 = .advance 1 1 none := by
  decide!

theorem scan_blank_five_at_1 :
    scan [' ', '5'] 1 1 = .advance 0 1 (some (.Integer ⟨.Signed32Bit, .int .s32 5⟩)) := by
  decide!

theorem lexLoop_blank_five : ∀ (fuel : Nat) (tokens : List Token),
    lexLoop [' ', '5'] fuel ⟨0, 1, tokens⟩ = none
    ∧ lexLoop [' ', '5'] fuel ⟨1, 1, tokens⟩ = none := by
  intro fuel
  induction fuel with
  | zero => intro tokens; exact ⟨rfl, rfl⟩
  | succ n ih =>
    intro tokens
    exact ⟨(lexLoop_next (lexStep_of_scan_none ⟨0, 1, tokens⟩
        scan_blank_five_at_0)).trans (ih tokens).2,
      (lexLoop_next (lexStep_of_scan_some ⟨1, 1, tokens⟩
        scan_blank_five_at_1)).trans (ih _).1⟩

/-- C2 (the code at the failing input): on the source ` 5`, a numeric literal
at offset 1 that ends the source, the loop of `Lexer::lex` never leaves: for
every number of rounds it is still running, because the `u32` offset is advanced
by `npos` and so steps back by one. -/
theorem C2_lex_blank_five_never_returns (fuel : Nat) : Lexer.lex fuel " 5" = none :=
  (lexLoop_blank_five fuel []).1

/-! ## Unions -/

theorem sub64_self (a : Nat) : sub64 a a = 0 := by
  unfold sub64
  rw [Nat.add_sub_cancel_left]
  exact Nat.mod_self _

theorem unionLoop_currOffset
    (f : EvalState → ASTNode → Except Stop (List PatternData × EvalState)) (start : Nat) :
    ∀ (members : List ASTNode) (st st' : EvalState),
      unionLoop f start members st = .ok st' →
      st'.currOffset = st.currOffset ∨ st'.currOffset = start := by
  intro members
  induction members with
  | nil =>
    intro st st' h
    simp only [unionLoop, Except.ok.injEq] at h
    exact Or.inl (by rw [h])
  | cons m ms ih =>
    intro st st' h
    simp only [unionLoop] at h
    split at h
    · cases h
    · rename_i newMembers st1 hm
      rcases ih _ _ h with h1 | h1
      · exact Or.inr h1
      · exact Or.inr h1

/-- C3 (what the code does instead): every union pattern `evaluateUnion`
produces has size 0, whatever the sizes of its members, because the size is
taken as the cursor minus the start offset after the cursor was put back to the
start. -/
theorem C3_union_size_is_zero (fuel : Nat) (ev : Evaluator) (st st' : EvalState)
    (node : ASTNode) (p : PatternData)
    (h : evaluateUnion fuel ev st node = .ok (p, st')) :
    p.getSize = 0 := by
  cases fuel with
  | zero => simp [evaluateUnion] at h
  | succ n =>
    cases node <;> simp only [evaluateUnion] at h <;> try cases h
    split at h
    · cases h
    · rename_i st1 hloop
      cases h
      show sub64 st1.currOffset st.currOffset = 0
      rcases unionLoop_currOffset _ _ _ _ _ hloop with h1 | h1
      · rw [h1]; exact sub64_self _
      · rw [h1]; exact sub64_self _

/-- C3, witness: `union { u8 x; u16 y; }` at offset 0 of the two bytes `AA BB`
has members of size 1 and 2 and size 0. -/
theorem C3_union_size_is_zero_witness :
    evaluateUnion 4 (exampleEvaluator [0xAA, 0xBB] .big) initialState exampleUnionNode
      = .ok (.Union ⟨0, 0, "", "", none⟩
          [.Unsigned ⟨0, 1, "u8", "x", some .big⟩, .Unsigned ⟨0, 2, "u16", "y", some .big⟩],
        initialState)
    ∧ (PatternData.Union ⟨0, 0, "", "", none⟩
          [.Unsigned ⟨0, 1, "u8", "x", some .big⟩,
            .Unsigned ⟨0, 2, "u16", "y", some .big⟩]).getSize = 0 :=
  ⟨rfl, C3_union_size_is_zero 4 (exampleEvaluator [0xAA, 0xBB] .big) initialState initialState
    exampleUnionNode _ rfl⟩

/-! ## Arrays -/

/-- C8 (the code at the failing input): `u8 data[4] @ 0;` on a source of four
bytes does not evaluate: after the last element the cursor equals the size of
the source and `evaluateArray` throws, so `evaluate` returns nothing. -/
theorem C8_array_ending_at_the_end_fails :
    (exampleEvaluator [1, 2, 3, 4] .little).evaluate 3 initialState [exampleArray]
      = .ok (.error ⟨"array exceeds size of file", 1⟩) := by
  rfl

/-! ## Bitfields -/

theorem toU64_of_field {v : Int} (h : ¬ (v > 64 ∨ v ≤ 0)) : 1 ≤ toU64 v ∧ toU64 v ≤ 64 := by
  unfold toU64
  have h1 : v % 2 ^ 64 = v := Int.emod_eq_of_lt (by omega) (by omega)
  rw [h1]
  omega

theorem evaluateBitfieldEntries_range (h : Host) (f : ASTNode → Except Stop LiteralNode)
    (line : Nat) : ∀ (entries : List (String × ASTNode)) (bits : Nat)
      (acc : List (String × Nat)) (bits' : Nat) (acc' : List (String × Nat)),
      evaluateBitfieldEntries h f line entries bits acc = .ok (bits', acc') →
      (∀ e ∈ acc, 1 ≤ e.2 ∧ e.2 ≤ 64) → ∀ e ∈ acc', 1 ≤ e.2 ∧ e.2 ≤ 64 := by
  intro entries
  induction entries with
  | nil =>
    intro bits acc bits' acc' hres hacc
    simp only [evaluateBitfieldEntries, Except.ok.injEq, Prod.mk.injEq] at hres
    rw [← hres.2]; exact hacc
  | cons entry rest ih =>
    intro bits acc bits' acc' hres hacc
    obtain ⟨name, value⟩ := entry
    cases value <;> simp only [evaluateBitfieldEntries] at hres <;> try cases hres
    split at hres
    · cases hres
    · split_ifs at hres with hfloat hrange
      · cases hres
      · cases hres
      · refine ih _ _ _ _ hres ?_
        intro e he
        rcases List.mem_append.mp he with he | he
        · exact hacc e he
        · simp only [List.mem_singleton] at he
          subst he
          exact toU64_of_field hrange

/-- C10 (as amended): every entry of a bitfield that evaluates successfully
has a bit width between 1 and 64; the sum of the widths is not checked. -/
theorem C10_bitfield_entries_in_range (fuel : Nat) (ev : Evaluator) (st st' : EvalState)
    (node : ASTNode) (a : PatternAttrs) (entries : List (String × Nat))
    (h : evaluateBitfield fuel ev st node = .ok (.Bitfield a entries, st')) :
    ∀ e ∈ entries, 1 ≤ e.2 ∧ e.2 ≤ 64 := by
  cases node <;> simp only [evaluateBitfield] at h <;> try cases h
  split at h
  · cases h
  · rename_i bits entryPatterns hloop
    simp only [Except.ok.injEq, Prod.mk.injEq, PatternData.Bitfield.injEq] at h
    obtain ⟨⟨-, h2⟩, -⟩ := h
    subst h2
    exact evaluateBitfieldEntries_range _ _ _ _ _ _ _ _ hloop (by simp)

/-- C10, witness: the entries of `bitfield Wide { a : 64; b : 64; }`. -/
theorem C10_bitfield_entries_in_range_witness :
    evaluateBitfield 2 (exampleEvaluator [0xA5] .little) initialState exampleWideBitfield
      = .ok (.Bitfield ⟨0, 17, "", "", none⟩ [("a", 64), ("b", 64)], initialState)
    ∧ ∀ e ∈ [("a", 64), ("b", 64)], 1 ≤ e.2 ∧ e.2 ≤ 64 :=
  ⟨rfl, C10_bitfield_entries_in_range 2 (exampleEvaluator [0xA5] .little) initialState
    initialState exampleWideBitfield _ _ rfl⟩

/-- C10, counterexample: `Wide w @ 0;` with `bitfield Wide { a : 64; b : 64; }`
evaluates successfully although its entries total 128 bits. -/
theorem C10_counterexample :
    ∃ (a : PatternAttrs) (entries : List (String × Nat)),
      (exampleEvaluator [0xA5] .little).evaluate 5 initialState [exampleWide]
        = .ok (.ok [.Bitfield a entries])
      ∧ ¬ ((entries.map Prod.snd).sum ≤ 64) :=
  ⟨⟨0, 17, "Wide", "w", some .little⟩, [("a", 64), ("b", 64)], rfl, by decide⟩

theorem arrayLoop_exceeds (f : EvalState → Except Stop (PatternData × EvalState))
    (ev : Evaluator) (line : Nat) :
    ∀ (k remaining i : Nat) (entries : List PatternData) (st stk : EvalState),
      1 ≤ k → k ≤ remaining → placeEntries f k st = .ok stk →
      stk.currOffset > ev.provider.actualSize →
      arrayLoop f ev line remaining i entries st
        = throwEvaluateError "array exceeds size of file" line := by
  intro k
  induction k with
  | zero => intro remaining i entries st stk h1; omega
  | succ k ih =>
    intro remaining i entries st stk _ hk hplaced hpast
    obtain ⟨r, rfl⟩ : ∃ r, remaining = r + 1 := ⟨remaining - 1, by omega⟩
    simp only [placeEntries] at hplaced
    simp only [arrayLoop]
    cases hf : f st with
    | error e => rw [hf] at hplaced; cases hplaced
    | ok v =>
      obtain ⟨entry, st1⟩ := v
      rw [hf] at hplaced
      simp only at hplaced ⊢
      split_ifs with hge
      · rfl
      · cases k with
        | zero =>
          simp only [placeEntries, Except.ok.injEq] at hplaced
          subst hplaced
          omega
        | succ k => exact ih r (i + 1) _ st1 stk (by omega) (by omega) hplaced hpast

theorem evaluateNodes_append (fuel : Nat) (ev : Evaluator) :
    ∀ (pre rest : List ASTNode) (acc ps : List PatternData) (st top : EvalState),
      evaluateNodes fuel ev pre acc st = .ok (ps, top) →
      evaluateNodes fuel ev (pre ++ rest) acc st = evaluateNodes fuel ev rest ps top := by
  intro pre
  induction pre with
  | nil =>
    intro rest acc ps st top h
    simp only [evaluateNodes, Except.ok.injEq, Prod.mk.injEq] at h
    obtain ⟨h1, h2⟩ := h
    subst h1 h2
    rfl
  | cons node pre ih =>
    intro rest acc ps st top h
    cases node <;> simp only [evaluateNodes, List.cons_append] at h ⊢ <;>
      first
      | exact ih _ _ _ _ _ h
      | (split at h
         · cases h
         · exact ih _ _ _ _ _ h)

/-- C9: when the elements of an array are placed one after the other and the
cursor is greater than `actual_size` after one of them (the `k`-th, of `n`),
`evaluateArray` throws "array exceeds size of file", and `evaluate` of a list
of declarations that reaches this array returns no pattern list and retains
that error. -/
theorem C9_array_past_the_end_fails (fuel : Nat) (ev : Evaluator) (st st0 stk : EvalState)
    (line : Nat) (name : String) (type size : ASTNode) (placement : Option ASTNode)
    (n k : Nat)
    (hplace : evaluatePlacement fuel ev st placement line = .ok st0)
    (hsize : evaluateArraySize fuel ev st0 size line = .ok n)
    (hpad : isPaddingType type = false)
    (hk : 1 ≤ k) (hkn : k ≤ n)
    (hplaced : placeEntries (evaluateEntry (evaluateType fuel ev) type) k st0 = .ok stk)
    (hpast : stk.currOffset > ev.provider.actualSize) :
    evaluateArray (fuel + 1) ev st (.ArrayVariableDecl line name type size placement)
      = throwEvaluateError "array exceeds size of file" line
    ∧ ∀ (pre rest : List ASTNode) (ps : List PatternData) (top0 top : EvalState),
        evaluateNodes (fuel + 1) ev pre [] top0 = .ok (ps, top) →
        { top with currEndian := none } = st →
        ev.evaluate (fuel + 1) top0
            (pre ++ .ArrayVariableDecl line name type size placement :: rest)
          = .ok (.error ⟨"array exceeds size of file", line⟩) := by
  have harray : evaluateArray (fuel + 1) ev st
      (.ArrayVariableDecl line name type size placement)
      = throwEvaluateError "array exceeds size of file" line := by
    simp only [evaluateArray, hplace, hsize, hpad]
    rw [arrayLoop_exceeds _ ev line k n 0 [] st0 stk hk hkn hplaced hpast]
    rfl
  refine ⟨harray, ?_⟩
  intro pre rest ps top0 top hpre htop
  unfold Evaluator.evaluate
  rw [evaluateNodes_append _ _ _ _ _ _ _ _ hpre]
  simp only [evaluateNodes, htop, harray]
  rfl

/-- C9, witness: `u16 data[3] @ 0;` on a source of four bytes; after the third
element the cursor would be 6. -/
theorem C9_array_past_the_end_fails_witness :
    placeEntries
        (evaluateEntry (evaluateType 2 (exampleEvaluator [1, 2, 3, 4] .little))
          (builtinType .Unsigned16Bit)) 3 initialState
      = .ok ⟨6, none, [], []⟩
    ∧ (exampleEvaluator [1, 2, 3, 4] .little).evaluate 3 initialState [exampleShortArray]
      = .ok (.error ⟨"array exceeds size of file", 1⟩) :=
  ⟨rfl, (C9_array_past_the_end_fails 2 (exampleEvaluator [1, 2, 3, 4] .little) initialState
    initialState ⟨6, none, [], []⟩ 1 "data" (builtinType .Unsigned16Bit) (literalExpression 3)
    (some (literalExpression 0)) 3 3 rfl rfl rfl (by decide) (by decide) rfl
    (by decide)).2 [] [] [] initialState initialState rfl rfl⟩

/-! ## Endianness -/

theorem evaluateBuiltinType_currEndian {st st' : EvalState} {l : Nat} {t : ValueType}
    {p : PatternData} (h : evaluateBuiltinType st l t = .ok (p, st')) :
    st'.currEndian = st.currEndian := by
  unfold evaluateBuiltinType at h
  simp only at h
  split at h
  · cases h
  · cases h; rfl

theorem evaluateEnum_state {fuel : Nat} {ev : Evaluator} {st st' : EvalState}
    {node : ASTNode} {p : PatternData} (h : evaluateEnum fuel ev st node = .ok (p, st')) :
    st' = st := by
  cases node <;> simp only [evaluateEnum] at h <;> try cases h
  split at h
  · cases h
  · split at h
    · cases h; rfl
    · cases h

theorem evaluateBitfield_state {fuel : Nat} {ev : Evaluator} {st st' : EvalState}
    {node : ASTNode} {p : PatternData} (h : evaluateBitfield fuel ev st node = .ok (p, st')) :
    st' = st := by
  cases node <;> simp only [evaluateBitfield] at h <;> try cases h
  split at h
  · cases h
  · cases h; rfl

theorem stamp_state {name : String} {r : Except Stop (PatternData × EvalState)}
    {p : PatternData} {st' : EvalState}
    (h : (match r with
      | .error e => .error e
      | .ok (pattern, st) =>
        Except.ok (if name ≠ "" then pattern.setTypeName name else pattern, st))
        = Except.ok (p, st')) :
    ∃ q, r = .ok (q, st') := by
  cases r with
  | error e => cases h
  | ok v =>
    obtain ⟨q, s⟩ := v
    simp only [Except.ok.injEq, Prod.mk.injEq] at h
    exact ⟨q, by rw [h.2]⟩

theorem evaluatePlacement_currEndian {fuel : Nat} {ev : Evaluator} {st st' : EvalState}
    {placement : Option ASTNode} {line : Nat}
    (h : evaluatePlacement fuel ev st placement line = .ok st') :
    st'.currEndian = st.currEndian := by
  unfold evaluatePlacement at h
  split at h
  · split at h
    · cases h
    · split_ifs at h
      · cases h
      · cases h; rfl
  · cases h; rfl

/-- The override in force after a type chain that ends in a scalar has been
evaluated: the one in force before, or else the one the chain carries. -/
theorem evaluateType_currEndian : ∀ (fuel : Nat) (ev : Evaluator) (st st' : EvalState)
    (node : ASTNode) (p : PatternData),
    evaluateType fuel ev st node = .ok (p, st') → endsInScalar node = true →
    st'.currEndian = if st.currEndian.isSome then st.currEndian else chainOverride node := by
  intro fuel
  induction fuel with
  | zero => intro ev st st' node p h; simp [evaluateType] at h
  | succ n ih =>
    intro ev st st' node p h hs
    cases node <;> simp only [evaluateType] at h <;> try cases h
    rename_i line name type endian
    cases type <;> simp only [endsInScalar, Bool.false_eq_true] at hs <;>
      simp only at h
    case BuiltinType l t =>
      rw [evaluateBuiltinType_currEndian h]
      cases hst : st.currEndian <;> cases endian <;> simp [chainOverride, hst]
    case TypeDecl l nm ty en =>
      obtain ⟨q, hq⟩ := stamp_state h
      have hs' : endsInScalar (.TypeDecl l nm ty en) = true := by
        simpa only [endsInScalar] using hs
      rw [ih _ _ _ _ _ hq hs']
      cases hst : st.currEndian <;> cases endian <;> simp [chainOverride, hst]
    case Enum l es u =>
      obtain ⟨q, hq⟩ := stamp_state h
      rw [evaluateEnum_state hq]
      cases hst : st.currEndian <;> cases endian <;> simp [chainOverride, hst]
    case Bitfield l es =>
      obtain ⟨q, hq⟩ := stamp_state h
      rw [evaluateBitfield_state hq]
      cases hst : st.currEndian <;> cases endian <;> simp [chainOverride, hst]

/-- The endianness of the pattern of a variable whose type chain ends in a
scalar, and the override afterwards. -/
theorem evaluateVariable_endian {fuel : Nat} {ev : Evaluator} {st st' : EvalState}
    {line : Nat} {name : String} {type : ASTNode} {placement : Option ASTNode}
    {p : PatternData}
    (h : evaluateVariable fuel ev st (.VariableDecl line name type placement) = .ok (p, st'))
    (hs : endsInScalar type = true) :
    p.getEndian = some ((if st.currEndian.isSome then st.currEndian
        else chainOverride type).getD ev.defaultDataEndian)
    ∧ st'.currEndian = none := by
  cases fuel with
  | zero => simp [evaluateVariable] at h
  | succ n =>
    simp only [evaluateVariable] at h
    split at h
    · cases h
    · rename_i st1 hplace
      have hend := evaluatePlacement_currEndian hplace
      split_ifs at h with hlt
      · cases h
      · split at h
        · cases h
        · rename_i pattern st2 hres
          cases h
          refine ⟨?_, rfl⟩
          rw [getEndian_setEndian]
          have hst2 : st2.currEndian = if st.currEndian.isSome then st.currEndian
              else chainOverride type := by
            split at hres
            · rw [evaluateType_currEndian _ _ _ _ _ _ hres hs, hend]
            · rw [evaluateBuiltinType_currEndian hres, hend]
              cases hst : st.currEndian <;> simp [chainOverride]
            · cases hres
          simp only [getCurrentEndian, hst2]

/-- C6 (as amended): a member variable whose type chain ends in a built-in
type, an enum or a bitfield and carries no endianness override receives
`default_endian` as its pattern endianness, whatever override is in force when
the member is reached (such as the `be` of the named type of the enclosing
struct): `evaluateMember` resets the override first. -/
theorem C6_member_gets_default_endian (fuel : Nat) (ev : Evaluator) (st st' : EvalState)
    (line : Nat) (name : String) (type : ASTNode) (placement : Option ASTNode)
    (ps : List PatternData)
    (hs : endsInScalar type = true) (hnone : chainOverride type = none)
    (h : evaluateMember fuel ev st (.VariableDecl line name type placement) = .ok (ps, st')) :
    ∃ p, ps = [p] ∧ p.getEndian = some ev.defaultDataEndian := by
  cases fuel with
  | zero => simp [evaluateMember] at h
  | succ n =>
    simp only [evaluateMember] at h
    split at h
    · cases h
    · rename_i pattern st1 hvar
      cases h
      refine ⟨pattern, rfl, ?_⟩
      rw [(evaluateVariable_endian hvar hs).1]
      simp [hnone]

/-- C6, witness: the member `u16 b;` reached with the override `be` in force,
under a little-endian default. -/
theorem C6_member_gets_default_endian_witness :
    evaluateMember 4 (exampleEvaluator [1, 2] .little) ⟨0, some .big, [[]], []⟩
        (.VariableDecl 1 "b" (builtinType .Unsigned16Bit) none)
      = .ok ([.Unsigned ⟨0, 2, "u16", "b", some .little⟩], ⟨2, none, [[]], []⟩)
    ∧ ∃ p, [PatternData.Unsigned ⟨0, 2, "u16", "b", some .little⟩] = [p]
        ∧ p.getEndian = some (exampleEvaluator [1, 2] .little).defaultDataEndian :=
  ⟨rfl, C6_member_gets_default_endian 4 (exampleEvaluator [1, 2] .little)
    ⟨0, some .big, [[]], []⟩ ⟨2, none, [[]], []⟩ 1 "b" (builtinType .Unsigned16Bit) none _
    rfl rfl rfl⟩

/-- C6, counterexample: with `using T = be struct { u16 b; };` and a
little-endian default, `T x @ 0;` gives the member `b` little-endian. -/
theorem C6_counterexample :
    ∃ (a b : PatternAttrs),
      (exampleEvaluator [1, 2] .little).evaluate 7 initialState [exampleBigStructVariable]
        = .ok (.ok [.Struct a [.Unsigned b]])
      ∧ b.variableName = "b" ∧ b.endian ≠ some Endian.big :=
  ⟨⟨0, 2, "T", "x", some .little⟩, ⟨0, 2, "u16", "b", some .little⟩, rfl, rfl, by decide⟩

/-- C7 (as amended): for a variable declaration reached with no override in
force, as every top-level declaration is, whose type chain ends in a built-in
type, an enum or a bitfield, the endianness of the pattern is the override of
the outermost named type declaration of the chain that carries one, else
`default_endian`; afterwards the override is none. -/
theorem C7_variable_endianness (fuel : Nat) (ev : Evaluator) (st st' : EvalState)
    (line : Nat) (name : String) (type : ASTNode) (placement : Option ASTNode)
    (p : PatternData)
    (hs : endsInScalar type = true)
    (h : evaluateVariable fuel ev { st with currEndian := none }
      (.VariableDecl line name type placement) = .ok (p, st')) :
    p.getEndian = some ((chainOverride type).getD ev.defaultDataEndian)
    ∧ st'.currEndian = none := by
  have := evaluateVariable_endian h hs
  simpa using this

/-- C7, witness: `using T = be u32; T x @ 0;` under a little-endian default. -/
theorem C7_variable_endianness_witness :
    evaluateVariable 4 (exampleEvaluator [1, 2, 3, 4] .little)
        { initialState with currEndian := none } exampleBigWord
      = .ok (.Unsigned ⟨0, 4, "u32", "x", some .big⟩, ⟨4, none, [], []⟩)
    ∧ (PatternData.Unsigned ⟨0, 4, "u32", "x", some .big⟩).getEndian = some Endian.big
    ∧ (⟨4, none, [], []⟩ : EvalState).currEndian = none :=
  ⟨rfl, C7_variable_endianness 4 (exampleEvaluator [1, 2, 3, 4] .little) initialState
    ⟨4, none, [], []⟩ 1 "x"
    (.TypeDecl 1 "" (.TypeDecl 1 "T" (.BuiltinType 1 .Unsigned32Bit) (some .big)) none)
    (some (literalExpression 0)) _ rfl rfl⟩

/-- C7, counterexample: with `using T = be struct { u16 b; };` and a
little-endian default, the pattern of the top-level `T x @ 0;` is little-endian
although the outermost named type of its chain that carries an override says
`be`. -/
theorem C7_counterexample :
    ∃ (a : PatternAttrs) (members : List PatternData),
      (exampleEvaluator [1, 2] .little).evaluate 7 initialState [exampleBigStructVariable]
        = .ok (.ok [.Struct a members])
      ∧ chainOverride (.TypeDecl 1 "" exampleBigStruct none) = some Endian.big
      ∧ a.endian ≠ some Endian.big :=
  ⟨⟨0, 2, "T", "x", some .little⟩, [.Unsigned ⟨0, 2, "u16", "b", some .little⟩], rfl, rfl,
    by decide⟩

/-! ## Structs of plain members of built-in type -/

theorem getTypeSize_le (t : ValueType) : Token.getTypeSize t ≤ 16 := by
  cases t <;> decide

theorem evaluateBuiltinType_plain {st st' : EvalState} {l : Nat} {t : ValueType}
    {p : PatternData} (h : evaluateBuiltinType st l t = .ok (p, st')) :
    p.getOffset = st.currOffset ∧ p.getSize = Token.getTypeSize t
    ∧ st'.currOffset = u64 (st.currOffset + Token.getTypeSize t)
    ∧ st'.currMembers = st.currMembers := by
  unfold evaluateBuiltinType at h
  simp only at h
  split at h
  · cases h
  · rename_i pattern hp
    cases h
    refine ⟨?_, ?_, rfl, rfl⟩
    · rw [getOffset_setTypeName]
      split_ifs at hp <;> first | (cases hp; rfl) | cases hp
    · rw [getSize_setTypeName]
      split_ifs at hp with h1 <;> first | (cases hp; subst h1; rfl) | (cases hp; rfl) | cases hp

theorem u64_of_lt {a : Nat} (h : a < 2 ^ 64) : u64 a = a := by
  unfold u64
  exact Nat.mod_eq_of_lt h

theorem evaluateMember_plain {fuel : Nat} {ev : Evaluator} {st st' : EvalState}
    {member : ASTNode} {t : ValueType} {ps : List PatternData}
    (hm : plainMemberType member = some t)
    (hsize : ev.provider.actualSize + 16 ≤ 2 ^ 64)
    (h : evaluateMember fuel ev st member = .ok (ps, st')) :
    ∃ p, ps = [p] ∧ p.getOffset = st.currOffset ∧ p.getSize = Token.getTypeSize t
      ∧ st'.currOffset = st.currOffset + Token.getTypeSize t
      ∧ st'.currMembers = st.currMembers
      ∧ st.currOffset < ev.provider.actualSize := by
  have hle := getTypeSize_le t
  cases fuel with
  | zero => simp [evaluateMember] at h
  | succ n =>
    unfold plainMemberType at hm
    split at hm
    · -- the type is the built-in type itself
      rename_i l1 nm l2 ty
      split_ifs at hm
      cases hm
      simp only [evaluateMember] at h
      split at h
      · cases h
      · rename_i pattern st1 hvar
        cases h
        cases n with
        | zero => simp [evaluateVariable] at hvar
        | succ n =>
          simp only [evaluateVariable, evaluatePlacement] at hvar
          split_ifs at hvar with hlt
          · cases hvar
          · split at hvar
            · cases hvar
            · rename_i q st2 hres
              cases hvar
              obtain ⟨h1, h2, h3, h4⟩ := evaluateBuiltinType_plain hres
              simp only at h1 h3 h4 hlt
              refine ⟨_, rfl, ?_, ?_, ?_, ?_, by omega⟩
              · simpa using h1
              · simpa using h2
              · show st2.currOffset = _
                rw [h3, u64_of_lt (by omega)]
              · exact h4
    · -- the type is a type declaration of the built-in type
      rename_i l1 nm l2 tn l3 ty en
      split_ifs at hm
      cases hm
      simp only [evaluateMember] at h
      split at h
      · cases h
      · rename_i pattern st1 hvar
        cases h
        cases n with
        | zero => simp [evaluateVariable] at hvar
        | succ n =>
          simp only [evaluateVariable, evaluatePlacement] at hvar
          split_ifs at hvar with hlt
          · cases hvar
          · split at hvar
            · cases hvar
            · rename_i q st2 hres
              cases hvar
              cases n with
              | zero => simp [evaluateType] at hres
              | succ n =>
                simp only [evaluateType] at hres
                obtain ⟨h1, h2, h3, h4⟩ := evaluateBuiltinType_plain hres
                simp only at hlt
                refine ⟨_, rfl, ?_, ?_, ?_, ?_, by omega⟩
                · simpa using h1
                · simpa using h2
                · show st2.currOffset = _
                  rw [h3]
                  split_ifs <;> exact u64_of_lt (by simp only; omega)
                · rw [h4]; split_ifs <;> rfl
    · cases hm

theorem memberWidth_of_plain {member : ASTNode} {t : ValueType}
    (hm : plainMemberType member = some t) : memberWidth member = Token.getTypeSize t := by
  simp only [memberWidth, hm]

theorem structLoop_plain (fuel : Nat) (ev : Evaluator)
    (hsize : ev.provider.actualSize + 16 ≤ 2 ^ 64) :
    ∀ (members : List ASTNode) (st st' : EvalState) (top : List PatternData)
      (outer : List (List PatternData)),
      (∀ m ∈ members, (plainMemberType m).isSome = true) →
      st.currMembers = top :: outer →
      structLoop (evaluateMember fuel ev) members st = .ok st' →
      ∃ pats, st'.currMembers = (top ++ pats) :: outer
        ∧ st'.currOffset = st.currOffset + (members.map memberWidth).sum
        ∧ pats.map (fun c => (c.getOffset, c.getSize)) = layout st.currOffset members
        ∧ (members ≠ [] → st'.currOffset < ev.provider.actualSize + 16) := by
  intro members
  induction members with
  | nil =>
    intro st st' top outer _ htop h
    simp only [structLoop, Except.ok.injEq] at h
    subst h
    exact ⟨[], by simpa using htop, by simp, by simp [layout], by simp⟩
  | cons m ms ih =>
    intro st st' top outer hall htop h
    simp only [structLoop] at h
    split at h
    · cases h
    · rename_i newMembers st1 hmem
      obtain ⟨t, ht⟩ := Option.isSome_iff_exists.mp (hall m (List.mem_cons_self _ _))
      obtain ⟨p, hps, hoff, hsz, hcur, hmembers, hlt⟩ := evaluateMember_plain ht hsize hmem
      have hle := getTypeSize_le t
      subst hps
      have htop1 : (st1.addMembers [p]).currMembers = (top ++ [p]) :: outer := by
        simp only [EvalState.addMembers, hmembers, htop]
      have hcur1 : (st1.addMembers [p]).currOffset = st1.currOffset := by
        simp only [EvalState.addMembers, hmembers, htop]
      obtain ⟨pats, h1, h2, h3, h4⟩ := ih _ _ _ _
        (fun x hx => hall x (List.mem_cons_of_mem _ hx)) htop1 h
      refine ⟨p :: pats, ?_, ?_, ?_, ?_⟩
      rotate_left 3
      · intro _
        cases ms with
        | nil =>
          rw [h2, hcur1, hcur]
          simp only [List.map_nil, List.sum_nil]
          omega
        | cons m' ms' => exact h4 (by simp)
      · rw [h1]; simp
      · rw [h2, hcur1, hcur]
        simp only [List.map_cons, List.sum_cons, memberWidth_of_plain ht]
        omega
      · simp only [List.map_cons, layout, memberWidth_of_plain ht, hoff, hsz]
        rw [h3, hcur1, hcur]

theorem layout_length (start : Nat) (members : List ASTNode) :
    (layout start members).length = members.length := by
  induction members generalizing start with
  | nil => rfl
  | cons m ms ih => simp [layout, ih]

theorem layout_getElem? : ∀ (members : List ASTNode) (start i : Nat) (member : ASTNode),
    members[i]? = some member →
    (layout start members)[i]?
      = some (start + ((members.take i).map memberWidth).sum, memberWidth member) := by
  intro members
  induction members with
  | nil => intro start i member h; simp at h
  | cons m ms ih =>
    intro start i member h
    cases i with
    | zero =>
      simp only [List.getElem?_cons_zero, Option.some.injEq] at h
      subst h
      simp [layout]
    | succ i =>
      simp only [List.getElem?_cons_succ] at h
      have hrest := ih (start + memberWidth m) i member h
      rw [layout]
      simp only [List.getElem?_cons_succ]
      rw [hrest]
      simp only [List.take_succ_cons, List.map_cons, List.sum_cons, Option.some.injEq,
        Prod.mk.injEq, and_true]
      omega

theorem layout_offset_ge : ∀ (members : List ASTNode) (start : Nat),
    ∀ x ∈ layout start members, start ≤ x.1 := by
  intro members
  induction members with
  | nil => intro start x hx; simp [layout] at hx
  | cons m ms ih =>
    intro start x hx
    simp only [layout, List.mem_cons] at hx
    rcases hx with hx | hx
    · rw [hx]
    · have := ih _ x hx
      omega

theorem layout_sorted : ∀ (members : List ASTNode) (start : Nat),
    (layout start members).Pairwise (fun x y => x.1 ≤ y.1) := by
  intro members
  induction members with
  | nil => intro start; simp [layout]
  | cons m ms ih =>
    intro start
    simp only [layout, List.pairwise_cons]
    refine ⟨?_, ih _⟩
    intro y hy
    have := layout_offset_ge ms _ y hy
    omega

theorem sub64_add_left {a s : Nat} (h : a + s < 2 ^ 64) : sub64 (a + s) a = s := by
  unfold sub64
  rw [Nat.mod_eq_of_lt h, Nat.mod_eq_of_lt (by omega : a < 2 ^ 64)]
  have : a + s + 2 ^ 64 - a = s + 2 ^ 64 := by omega
  rw [this, Nat.add_mod_right]
  exact Nat.mod_eq_of_lt (by omega)

/-- C5: a struct whose members are all plain variables of built-in type without
placement offsets, on a source of at most `2^64 - 16` bytes, evaluated with the
cursor at `start` and succeeding: the struct pattern has offset `start` and size
the sum of the member widths, the cursor afterwards is `start` plus that sum,
there is one child per member, the `i`-th child has offset `start` plus the
widths of the members before it and size its own width, and the offsets of the
children are non-decreasing. -/
theorem C5_plain_struct_layout (fuel : Nat) (ev : Evaluator) (st st' : EvalState)
    (line : Nat) (members : List ASTNode) (p : PatternData)
    (hall : ∀ m ∈ members, (plainMemberType m).isSome = true)
    (hsize : ev.provider.actualSize + 16 ≤ 2 ^ 64)
    (h : evaluateStruct fuel ev st (.Struct line members) = .ok (p, st')) :
    ∃ (a : PatternAttrs) (children : List PatternData),
      p = .Struct a children
      ∧ a.offset = st.currOffset
      ∧ a.size = (members.map memberWidth).sum
      ∧ st'.currOffset = st.currOffset + (members.map memberWidth).sum
      ∧ children.length = members.length
      ∧ (∀ (i : Nat) (member : ASTNode), members[i]? = some member →
          ∃ child, children[i]? = some child
            ∧ child.getOffset = st.currOffset + ((members.take i).map memberWidth).sum
            ∧ child.getSize = memberWidth member)
      ∧ children.Pairwise (fun x y => x.getOffset ≤ y.getOffset) := by
  cases fuel with
  | zero => simp [evaluateStruct] at h
  | succ n =>
    simp only [evaluateStruct] at h
    split at h
    · cases h
    · rename_i st1 hloop
      obtain ⟨pats, h1, h2, h3, h4⟩ :=
        structLoop_plain n ev hsize members _ st1 [] st.currMembers hall rfl hloop
      simp only [List.nil_append] at h1
      simp only at h2 h3
      cases h
      have hlen : pats.length = members.length := by
        have := congrArg List.length h3
        simpa [layout_length] using this
      refine ⟨_, _, rfl, rfl, ?_, ?_, ?_, ?_, ?_⟩
      · show sub64 st1.currOffset st.currOffset = _
        rw [h2]
        cases members with
        | nil => simpa using sub64_self st.currOffset
        | cons m ms =>
          have := h4 (by simp)
          exact sub64_add_left (by omega)
      · exact h2
      · rw [h1]; exact hlen
      · intro i member hi
        have hlay := layout_getElem? members st.currOffset i member hi
        rw [← h3, List.getElem?_map] at hlay
        rw [h1]
        simp only [List.headD_cons]
        cases hc : pats[i]? with
        | none => rw [hc] at hlay; simp at hlay
        | some child =>
          rw [hc] at hlay
          simp only [Option.map_some', Option.some.injEq, Prod.mk.injEq] at hlay
          exact ⟨child, rfl, hlay.1, hlay.2⟩
      · rw [h1]
        simp only [List.headD_cons]
        have hs := layout_sorted members st.currOffset
        rw [← h3, List.pairwise_map] at hs
        exact hs

/-- C5, witness: `struct S { u8 a; u16 b; }` at offset 0 of the three bytes
`01 02 03`. -/
theorem C5_plain_struct_layout_witness :
    evaluateStruct 4 (exampleEvaluator [1, 2, 3] .big) initialState
        (.Struct 1 exampleStructMembers)
      = .ok (.Struct ⟨0, 3, "", "", none⟩
          [.Unsigned ⟨0, 1, "u8", "a", some .big⟩, .Unsigned ⟨1, 2, "u16", "b", some .big⟩],
        ⟨3, none, [], []⟩)
    ∧ ∃ (a : PatternAttrs) (children : List PatternData),
      PatternData.Struct ⟨0, 3, "", "", none⟩
          [.Unsigned ⟨0, 1, "u8", "a", some .big⟩, .Unsigned ⟨1, 2, "u16", "b", some .big⟩]
        = .Struct a children
      ∧ a.offset = initialState.currOffset
      ∧ a.size = (exampleStructMembers.map memberWidth).sum
      ∧ (⟨3, none, [], []⟩ : EvalState).currOffset
        = initialState.currOffset + (exampleStructMembers.map memberWidth).sum
      ∧ children.length = exampleStructMembers.length
      ∧ (∀ (i : Nat) (member : ASTNode), exampleStructMembers[i]? = some member →
          ∃ child, children[i]? = some child
            ∧ child.getOffset
              = initialState.currOffset + ((exampleStructMembers.take i).map memberWidth).sum
            ∧ child.getSize = memberWidth member)
      ∧ children.Pairwise (fun x y => x.getOffset ≤ y.getOffset) :=
  ⟨rfl, C5_plain_struct_layout 4 (exampleEvaluator [1, 2, 3] .big) initialState
    ⟨3, none, [], []⟩ 1 exampleStructMembers _ (by decide) (by decide) rfl⟩

/-! ## The member stack is left as it was found -/

theorem evaluatePlacement_frame {fuel : Nat} {ev : Evaluator} {st st' : EvalState}
    {placement : Option ASTNode} {line : Nat}
    (h : evaluatePlacement fuel ev st placement line = .ok st') :
    st'.currMembers = st.currMembers := by
  unfold evaluatePlacement at h
  split at h
  · split at h
    · cases h
    · split_ifs at h
      · cases h
      · cases h; rfl
  · cases h; rfl

theorem evaluatePointerPlacement_frame {fuel : Nat} {ev : Evaluator} {st st' : EvalState}
    {placement : Option ASTNode} {line : Nat} {o : Int}
    (h : evaluatePointerPlacement fuel ev st placement line = .ok (o, st')) :
    st'.currMembers = st.currMembers := by
  unfold evaluatePointerPlacement at h
  split at h
  · split at h
    · cases h
    · split_ifs at h
      · cases h
      · cases h; rfl
  · cases h; rfl

theorem structLoop_frame
    (f : EvalState → ASTNode → Except Stop (List PatternData × EvalState))
    (hf : ∀ st node r st', f st node = .ok (r, st') → st'.currMembers = st.currMembers) :
    ∀ (members : List ASTNode) (st st' : EvalState) (top : List PatternData)
      (outer : List (List PatternData)),
      st.currMembers = top :: outer → structLoop f members st = .ok st' →
      ∃ pats, st'.currMembers = (top ++ pats) :: outer := by
  intro members
  induction members with
  | nil =>
    intro st st' top outer htop h
    simp only [structLoop, Except.ok.injEq] at h
    subst h
    exact ⟨[], by simpa using htop⟩
  | cons m ms ih =>
    intro st st' top outer htop h
    simp only [structLoop] at h
    split at h
    · cases h
    · rename_i newMembers st1 hmem
      have h1 := hf _ _ _ _ hmem
      have htop1 : (st1.addMembers newMembers).currMembers = (top ++ newMembers) :: outer := by
        simp only [EvalState.addMembers, h1, htop]
      obtain ⟨pats, hp⟩ := ih _ _ _ _ htop1 h
      exact ⟨newMembers ++ pats, by rw [hp, List.append_assoc]⟩

theorem unionLoop_frame
    (f : EvalState → ASTNode → Except Stop (List PatternData × EvalState))
    (hf : ∀ st node r st', f st node = .ok (r, st') → st'.currMembers = st.currMembers)
    (start : Nat) :
    ∀ (members : List ASTNode) (st st' : EvalState) (top : List PatternData)
      (outer : List (List PatternData)),
      st.currMembers = top :: outer → unionLoop f start members st = .ok st' →
      ∃ pats, st'.currMembers = (top ++ pats) :: outer := by
  intro members
  induction members with
  | nil =>
    intro st st' top outer htop h
    simp only [unionLoop, Except.ok.injEq] at h
    subst h
    exact ⟨[], by simpa using htop⟩
  | cons m ms ih =>
    intro st st' top outer htop h
    simp only [unionLoop] at h
    split at h
    · cases h
    · rename_i newMembers st1 hmem
      have h1 := hf _ _ _ _ hmem
      have htop1 : ({ st1.addMembers newMembers with currOffset := start } : EvalState).currMembers
          = (top ++ newMembers) :: outer := by
        simp only [EvalState.addMembers, h1, htop]
      obtain ⟨pats, hp⟩ := ih _ _ _ _ htop1 h
      exact ⟨newMembers ++ pats, by rw [hp, List.append_assoc]⟩

theorem bodyLoop_frame
    (f : EvalState → ASTNode → Except Stop (List PatternData × EvalState))
    (hf : ∀ st node r st', f st node = .ok (r, st') → st'.currMembers = st.currMembers) :
    ∀ (body : List ASTNode) (acc ps : List PatternData) (st st' : EvalState),
      bodyLoop f body acc st = .ok (ps, st') → st'.currMembers = st.currMembers := by
  intro body
  induction body with
  | nil =>
    intro acc ps st st' h
    simp only [bodyLoop, Except.ok.injEq, Prod.mk.injEq] at h
    rw [h.2]
  | cons s ss ih =>
    intro acc ps st st' h
    simp only [bodyLoop] at h
    split at h
    · cases h
    · rename_i r st1 hs
      rw [ih _ _ _ _ h, hf _ _ _ _ hs]

theorem arrayLoop_frame (g : EvalState → Except Stop (PatternData × EvalState))
    (hg : ∀ st r st', g st = .ok (r, st') → st'.currMembers = st.currMembers)
    (ev : Evaluator) (line : Nat) :
    ∀ (remaining i : Nat) (entries es : List PatternData) (st st' : EvalState),
      arrayLoop g ev line remaining i entries st = .ok (es, st') →
      st'.currMembers = st.currMembers := by
  intro remaining
  induction remaining with
  | zero =>
    intro i entries es st st' h
    simp only [arrayLoop, Except.ok.injEq, Prod.mk.injEq] at h
    rw [h.2]
  | succ r ih =>
    intro i entries es st st' h
    simp only [arrayLoop] at h
    split at h
    · cases h
    · rename_i entry st1 hentry
      split_ifs at h
      · cases h
      · rw [ih _ _ _ _ _ h, hg _ _ _ hentry]

theorem evaluateEntry_frame
    (f : EvalState → ASTNode → Except Stop (PatternData × EvalState))
    (hf : ∀ st node r st', f st node = .ok (r, st') → st'.currMembers = st.currMembers)
    (type : ASTNode) :
    ∀ st r st', evaluateEntry f type st = .ok (r, st') →
      st'.currMembers = st.currMembers := by
  intro st r st' h
  unfold evaluateEntry at h
  split at h
  · exact hf _ _ _ _ h
  · exact (evaluateBuiltinType_plain h).2.2.2
  · cases h

/-- Each declaration function leaves `m_currMembers` as it found it. -/
theorem evaluate_frame : ∀ (fuel : Nat),
    (∀ ev st node r st', evaluateMember fuel ev st node = .ok (r, st') →
      st'.currMembers = st.currMembers)
    ∧ (∀ ev st node r st', evaluateStruct fuel ev st node = .ok (r, st') →
      st'.currMembers = st.currMembers)
    ∧ (∀ ev st node r st', evaluateUnion fuel ev st node = .ok (r, st') →
      st'.currMembers = st.currMembers)
    ∧ (∀ ev st node r st', evaluateType fuel ev st node = .ok (r, st') →
      st'.currMembers = st.currMembers)
    ∧ (∀ ev st node r st', evaluateVariable fuel ev st node = .ok (r, st') →
      st'.currMembers = st.currMembers)
    ∧ (∀ ev st node r st', evaluateArray fuel ev st node = .ok (r, st') →
      st'.currMembers = st.currMembers)
    ∧ (∀ ev st node r st', evaluatePointer fuel ev st node = .ok (r, st') →
      st'.currMembers = st.currMembers) := by
  intro fuel
  induction fuel with
  | zero =>
    refine ⟨?_, ?_, ?_, ?_, ?_, ?_, ?_⟩ <;> intro ev st node r st' h
    · simp [evaluateMember] at h
    · simp [evaluateStruct] at h
    · simp [evaluateUnion] at h
    · simp [evaluateType] at h
    · simp [evaluateVariable] at h
    · simp [evaluateArray] at h
    · simp [evaluatePointer] at h
  | succ n ih =>
    obtain ⟨ihM, ihS, ihU, ihT, ihV, ihA, ihP⟩ := ih
    refine ⟨?_, ?_, ?_, ?_, ?_, ?_, ?_⟩ <;> intro ev st node r st' h
    · -- evaluateMember
      cases node <;> simp only [evaluateMember] at h <;> try cases h
      · split at h
        · cases h
        · rename_i hv; cases h; have hv' := ihV _ _ _ _ _ hv; exact hv'
      · split at h
        · cases h
        · rename_i hv; cases h; have hv' := ihA _ _ _ _ _ hv; exact hv'
      · split at h
        · cases h
        · rename_i hv; cases h; have hv' := ihP _ _ _ _ _ hv; exact hv'
      · split at h
        · cases h
        · split_ifs at h
          · have hb := bodyLoop_frame _ (ihM ev) _ _ _ _ _ h; exact hb
          · have hb := bodyLoop_frame _ (ihM ev) _ _ _ _ _ h; exact hb
    · -- evaluateStruct
      cases node <;> simp only [evaluateStruct] at h <;> try cases h
      split at h
      · cases h
      · rename_i st1 hloop
        cases h
        obtain ⟨pats, hp⟩ := structLoop_frame _ (ihM ev) _ _ _ [] st.currMembers rfl hloop
        show st1.currMembers.tail = st.currMembers
        rw [hp]; rfl
    · -- evaluateUnion
      cases node <;> simp only [evaluateUnion] at h <;> try cases h
      split at h
      · cases h
      · rename_i st1 hloop
        cases h
        obtain ⟨pats, hp⟩ := unionLoop_frame _ (ihM ev) _ _ _ _ [] st.currMembers rfl hloop
        show st1.currMembers.tail = st.currMembers
        rw [hp]; rfl
    · -- evaluateType
      cases node <;> simp only [evaluateType] at h <;> try cases h
      rename_i line name type endian
      have hst : (if st.currEndian.isSome = true then st
          else { st with currEndian := endian }).currMembers = st.currMembers := by
        split_ifs <;> rfl
      split at h
      · rw [(evaluateBuiltinType_plain h).2.2.2, hst]
      · obtain ⟨q, hq⟩ := stamp_state h; rw [ihT _ _ _ _ _ hq, hst]
      · obtain ⟨q, hq⟩ := stamp_state h; rw [ihS _ _ _ _ _ hq, hst]
      · obtain ⟨q, hq⟩ := stamp_state h; rw [ihU _ _ _ _ _ hq, hst]
      · obtain ⟨q, hq⟩ := stamp_state h; rw [evaluateEnum_state hq, hst]
      · obtain ⟨q, hq⟩ := stamp_state h; rw [evaluateBitfield_state hq, hst]
      · cases h
    · -- evaluateVariable
      cases node <;> simp only [evaluateVariable] at h <;> try cases h
      split at h
      · cases h
      · rename_i st1 hplace
        split_ifs at h
        · cases h
        · split at h
          · cases h
          · rename_i pattern st2 hres
            cases h
            show st2.currMembers = st.currMembers
            rw [← evaluatePlacement_frame hplace]
            split at hres
            · exact ihT _ _ _ _ _ hres
            · exact (evaluateBuiltinType_plain hres).2.2.2
            · cases hres
    · -- evaluateArray
      cases node <;> simp only [evaluateArray] at h <;> try cases h
      split at h
      · cases h
      · rename_i st1 hplace
        split at h
        · cases h
        · split_ifs at h
          · cases h
            show st1.currMembers = st.currMembers
            exact evaluatePlacement_frame hplace
          · split at h
            · cases h
            · rename_i entries st2 hloop
              cases h
              show st2.currMembers = st.currMembers
              rw [← evaluatePlacement_frame hplace]
              exact arrayLoop_frame _ (evaluateEntry_frame _ (ihT ev) _) _ _ _ _ _ _ _ _ hloop
    · -- evaluatePointer
      cases node <;> simp only [evaluatePointer] at h <;> try cases h
      split at h
      · cases h
      · rename_i o st1 hplace
        split at h
        · split at h
          · cases h
          · rename_i sizePattern st2 hsize
            split at h
            · split at h
              · cases h
              · rename_i pointedAt st3 hty
                cases h
                show st3.currMembers = st.currMembers
                rw [ihT _ _ _ _ _ hty]
                show st2.currMembers = st.currMembers
                rw [(evaluateBuiltinType_plain hsize).2.2.2]
                exact evaluatePointerPlacement_frame hplace
            · cases h
        · cases h

/-! ## Comparing patterns -/

mutual

theorem PatternData.eq_of_same : ∀ (p q : PatternData), PatternData.same p q = true → p = q
  | .Unsigned a, q, h => by
    cases q <;> simp only [PatternData.same, Bool.false_eq_true, beq_iff_eq] at h
    rw [h]
  | .Signed a, q, h => by
    cases q <;> simp only [PatternData.same, Bool.false_eq_true, beq_iff_eq] at h
    rw [h]
  | .Float a, q, h => by
    cases q <;> simp only [PatternData.same, Bool.false_eq_true, beq_iff_eq] at h
    rw [h]
  | .Character a, q, h => by
    cases q <;> simp only [PatternData.same, Bool.false_eq_true, beq_iff_eq] at h
    rw [h]
  | .String a, q, h => by
    cases q <;> simp only [PatternData.same, Bool.false_eq_true, beq_iff_eq] at h
    rw [h]
  | .Padding a, q, h => by
    cases q <;> simp only [PatternData.same, Bool.false_eq_true, beq_iff_eq] at h
    rw [h]
  | .Enum a es, q, h => by
    cases q <;>
      simp only [PatternData.same, Bool.false_eq_true, Bool.and_eq_true, beq_iff_eq] at h
    rw [h.1, h.2]
  | .Bitfield a es, q, h => by
    cases q <;>
      simp only [PatternData.same, Bool.false_eq_true, Bool.and_eq_true, beq_iff_eq] at h
    rw [h.1, h.2]
  | .Struct a ms, q, h => by
    cases q <;>
      simp only [PatternData.same, Bool.false_eq_true, Bool.and_eq_true, beq_iff_eq] at h
    rw [h.1, PatternData.eq_of_sameList _ _ h.2]
  | .Union a ms, q, h => by
    cases q <;>
      simp only [PatternData.same, Bool.false_eq_true, Bool.and_eq_true, beq_iff_eq] at h
    rw [h.1, PatternData.eq_of_sameList _ _ h.2]
  | .Array a ms, q, h => by
    cases q <;>
      simp only [PatternData.same, Bool.false_eq_true, Bool.and_eq_true, beq_iff_eq] at h
    rw [h.1, PatternData.eq_of_sameList _ _ h.2]
  | .Pointer a p, q, h => by
    cases q <;>
      simp only [PatternData.same, Bool.false_eq_true, Bool.and_eq_true, beq_iff_eq] at h
    rw [h.1, PatternData.eq_of_same _ _ h.2]

theorem PatternData.eq_of_sameList : ∀ (ps qs : List PatternData),
    PatternData.sameList ps qs = true → ps = qs
  | [], qs, h => by
    cases qs <;> simp only [PatternData.sameList, Bool.false_eq_true] at h
    rfl
  | p :: ps, qs, h => by
    cases qs <;>
      simp only [PatternData.sameList, Bool.false_eq_true, Bool.and_eq_true] at h
    rw [PatternData.eq_of_same _ _ h.1, PatternData.eq_of_sameList _ _ h.2]

end

theorem eq_of_producesPattern {r : Except Stop (PatternData × EvalState)} {p : PatternData}
    (st : EvalState) (h : producesPattern r p = true) : r = .ok (p, finalState r st) := by
  cases r with
  | error e => simp [producesPattern] at h
  | ok v =>
    obtain ⟨q, s⟩ := v
    simp only [producesPattern] at h
    rw [PatternData.eq_of_same _ _ h]
    rfl

theorem eq_of_producesPatterns {r : Except Stop (List PatternData × EvalState)}
    {ps : List PatternData} (st : EvalState) (h : producesPatterns r ps = true) :
    r = .ok (ps, finalState r st) := by
  cases r with
  | error e => simp [producesPatterns] at h
  | ok v =>
    obtain ⟨qs, s⟩ := v
    simp only [producesPatterns] at h
    rw [PatternData.eq_of_sameList _ _ h]
    rfl

theorem eq_of_returnsPatterns {r : Except Stop (Except EvaluateError (List PatternData))}
    {ps : List PatternData} (h : returnsPatterns r ps = true) : r = .ok (.ok ps) := by
  unfold returnsPatterns at h
  split at h
  · rw [PatternData.eq_of_sameList _ _ h]
  · cases h

/-! ## The size of a struct and the sizes of its members -/

theorem add_sub64 (x a : Nat) : (a + sub64 x a) % 2 ^ 64 = x % 2 ^ 64 := by
  unfold sub64
  omega

theorem sub64_of_congr {x a s : Nat} (h : x % 2 ^ 64 = (a + s) % 2 ^ 64) :
    sub64 x a = s % 2 ^ 64 := by
  unfold sub64
  omega

theorem toU64_natCast_add (a b : Nat) : toU64 ((a : Int) + (b : Int)) = (a + b) % 2 ^ 64 := by
  unfold toU64
  omega

theorem stamp_inv {name : String} {r : Except Stop (PatternData × EvalState)}
    {p : PatternData} {st' : EvalState}
    (h : (match r with
      | .error e => .error e
      | .ok (pattern, st) =>
        Except.ok (if name ≠ "" then pattern.setTypeName name else pattern, st))
        = Except.ok (p, st')) :
    ∃ q, r = .ok (q, st') ∧ p.getSize = q.getSize := by
  cases r with
  | error e => cases h
  | ok v =>
    obtain ⟨q, s⟩ := v
    simp only [Except.ok.injEq, Prod.mk.injEq] at h
    obtain ⟨h1, h2⟩ := h
    subst h1 h2
    refine ⟨q, rfl, ?_⟩
    split_ifs <;> simp

theorem evaluateStruct_size {fuel : Nat} {ev : Evaluator} {st st' : EvalState}
    {node : ASTNode} {p : PatternData} (h : evaluateStruct fuel ev st node = .ok (p, st')) :
    p.getSize = sub64 st'.currOffset st.currOffset := by
  cases fuel with
  | zero => simp [evaluateStruct] at h
  | succ n =>
    cases node <;> simp only [evaluateStruct] at h <;> try cases h
    split at h
    · cases h
    · cases h; rfl

theorem evaluateUnion_size {fuel : Nat} {ev : Evaluator} {st st' : EvalState}
    {node : ASTNode} {p : PatternData} (h : evaluateUnion fuel ev st node = .ok (p, st')) :
    p.getSize = sub64 st'.currOffset st.currOffset := by
  cases fuel with
  | zero => simp [evaluateUnion] at h
  | succ n =>
    cases node <;> simp only [evaluateUnion] at h <;> try cases h
    split at h
    · cases h
    · cases h; rfl

theorem evaluateBuiltinType_advances {st st' : EvalState} {l : Nat} {t : ValueType}
    {p : PatternData} (h : evaluateBuiltinType st l t = .ok (p, st')) :
    st'.currOffset % 2 ^ 64 = (st.currOffset + p.getSize) % 2 ^ 64 := by
  obtain ⟨-, h2, h3, -⟩ := evaluateBuiltinType_plain h
  rw [h3, h2]
  unfold u64
  exact Nat.mod_mod _ _

theorem evaluateType_advances : ∀ (fuel : Nat) (ev : Evaluator) (st st' : EvalState)
    (node : ASTNode) (p : PatternData),
    evaluateType fuel ev st node = .ok (p, st') → typeAdvances node = true →
    st'.currOffset % 2 ^ 64 = (st.currOffset + p.getSize) % 2 ^ 64 := by
  intro fuel
  induction fuel with
  | zero => intro ev st st' node p h; simp [evaluateType] at h
  | succ n ih =>
    intro ev st st' node p h hs
    cases node <;> simp only [evaluateType] at h <;> try cases h
    rename_i line name type endian
    have hst : (if st.currEndian.isSome = true then st
        else { st with currEndian := endian }).currOffset = st.currOffset := by
      split_ifs <;> rfl
    cases type <;> simp only [typeAdvances, Bool.false_eq_true] at hs <;> simp only at h
    case BuiltinType l t =>
      rw [← hst]; exact evaluateBuiltinType_advances h
    case TypeDecl l nm ty en =>
      obtain ⟨q, hq, hsz⟩ := stamp_inv h
      rw [hsz, ← hst]
      exact ih _ _ _ _ _ hq hs
    case Struct l ms =>
      obtain ⟨q, hq, hsz⟩ := stamp_inv h
      rw [hsz, evaluateStruct_size hq, hst]
      exact (add_sub64 _ _).symm
    case Union l ms =>
      obtain ⟨q, hq, hsz⟩ := stamp_inv h
      rw [hsz, evaluateUnion_size hq, hst]
      exact (add_sub64 _ _).symm

theorem arrayLoop_entries (g : EvalState → Except Stop (PatternData × EvalState))
    (ev : Evaluator) (line : Nat) :
    ∀ (remaining i : Nat) (entries es : List PatternData) (st st' : EvalState),
      arrayLoop g ev line remaining i entries st = .ok (es, st') →
      (es = entries ∧ st' = st) ∨ entries.length < es.length := by
  intro remaining
  induction remaining with
  | zero =>
    intro i entries es st st' h
    simp only [arrayLoop, Except.ok.injEq, Prod.mk.injEq] at h
    exact Or.inl ⟨h.1.symm, h.2.symm⟩
  | succ r ih =>
    intro i entries es st st' h
    simp only [arrayLoop] at h
    split at h
    · cases h
    · split_ifs at h
      · cases h
      · right
        rcases ih _ _ _ _ _ h with ⟨h1, -⟩ | h1
        · rw [h1]; simp
        · simp only [List.length_append, List.length_singleton] at h1
          omega

theorem arrayPattern_size {start cur : Nat} {entries : List PatternData}
    (h : entries = [] → cur = start) :
    (start + (arrayPattern start cur entries).getSize) % 2 ^ 64 = cur % 2 ^ 64 := by
  unfold arrayPattern
  split
  · rw [h rfl]; rfl
  · exact add_sub64 _ _
  · exact add_sub64 _ _

theorem membersAdvance_mem : ∀ (members : List ASTNode), membersAdvance members = true →
    ∀ m ∈ members, memberAdvances m = true := by
  intro members
  induction members with
  | nil => intro _ m hm; simp at hm
  | cons x xs ih =>
    intro h m hm
    simp only [membersAdvance, Bool.and_eq_true] at h
    rcases List.mem_cons.mp hm with rfl | hm
    · exact h.1
    · exact ih h.2 m hm

theorem bodyLoop_advances
    (f : EvalState → ASTNode → Except Stop (List PatternData × EvalState)) :
    ∀ (body : List ASTNode) (acc ps : List PatternData) (st st' : EvalState),
      (∀ s ∈ body, ∀ st r st', f st s = .ok (r, st') →
        st'.currOffset % 2 ^ 64
          = (st.currOffset + (r.map PatternData.getSize).sum) % 2 ^ 64) →
      bodyLoop f body acc st = .ok (ps, st') →
      ∃ new, ps = acc ++ new
        ∧ st'.currOffset % 2 ^ 64
          = (st.currOffset + (new.map PatternData.getSize).sum) % 2 ^ 64 := by
  intro body
  induction body with
  | nil =>
    intro acc ps st st' _ h
    simp only [bodyLoop, Except.ok.injEq, Prod.mk.injEq] at h
    exact ⟨[], by simp [h.1], by simp [h.2]⟩
  | cons s ss ih =>
    intro acc ps st st' hadv h
    simp only [bodyLoop] at h
    split at h
    · cases h
    · rename_i r st1 hs
      have h1 := hadv s (List.mem_cons_self _ _) _ _ _ hs
      obtain ⟨new, hnew, h2⟩ := ih _ _ _ _
        (fun x hx => hadv x (List.mem_cons_of_mem _ hx)) h
      refine ⟨r ++ new, by rw [hnew, List.append_assoc], ?_⟩
      simp only [List.map_append, List.sum_append]
      omega

theorem memberAdvances_variable {l : Nat} {name : String} {type : ASTNode}
    {placement : Option ASTNode}
    (h : memberAdvances (.VariableDecl l name type placement) = true) :
    placement = none ∧ typeAdvances type = true := by
  cases placement with
  | none => exact ⟨rfl, by simpa [memberAdvances] using h⟩
  | some e => simp [memberAdvances] at h

theorem memberAdvances_array {l : Nat} {name : String} {type size : ASTNode}
    {placement : Option ASTNode}
    (h : memberAdvances (.ArrayVariableDecl l name type size placement) = true) :
    placement = none := by
  cases placement with
  | none => rfl
  | some e => simp [memberAdvances] at h

theorem memberAdvances_pointer {l : Nat} {name : String} {type sizeType : ASTNode}
    {placement : Option ASTNode}
    (h : memberAdvances (.PointerVariableDecl l name type sizeType placement) = true) :
    placement = none := by
  cases placement with
  | none => rfl
  | some e => simp [memberAdvances] at h

theorem memberAdvances_conditional {l : Nat} {condition : ASTNode}
    {trueBody falseBody : List ASTNode}
    (h : memberAdvances (.ConditionalStatement l condition trueBody falseBody) = true) :
    membersAdvance trueBody = true ∧ membersAdvance falseBody = true := by
  simpa [memberAdvances] using h

/-- A member that advances moves the cursor by the sizes of its patterns,
modulo `2^64`. -/
theorem evaluateMember_advances : ∀ (fuel : Nat) (ev : Evaluator) (st st' : EvalState)
    (node : ASTNode) (ps : List PatternData),
    evaluateMember fuel ev st node = .ok (ps, st') → memberAdvances node = true →
    st'.currOffset % 2 ^ 64
      = (st.currOffset + (ps.map PatternData.getSize).sum) % 2 ^ 64 := by
  intro fuel
  induction fuel with
  | zero => intro ev st st' node ps h; simp [evaluateMember] at h
  | succ n ih =>
    intro ev st st' node ps h hadv
    cases node
    case VariableDecl line name type placement =>
      obtain ⟨hnone, hadv⟩ := memberAdvances_variable hadv
      subst hnone
      simp only [evaluateMember] at h
      split at h
      · cases h
      · rename_i pattern st1 hvar
        cases h
        simp only [List.map_cons, List.map_nil, List.sum_cons, List.sum_nil, Nat.add_zero]
        cases n with
        | zero => simp [evaluateVariable] at hvar
        | succ n =>
          simp only [evaluateVariable, evaluatePlacement] at hvar
          split_ifs at hvar
          · cases hvar
          · split at hvar
            · cases hvar
            · rename_i q st2 hres
              cases hvar
              simp only [getSize_setEndian, getSize_setVariableName]
              show st2.currOffset % 2 ^ 64 = _
              split at hres
              · have hq := evaluateType_advances _ _ _ _ _ _ hres hadv
                exact hq
              · have hq := evaluateBuiltinType_advances hres
                exact hq
              · cases hres
    case ArrayVariableDecl line name type size placement =>
      have hnone := memberAdvances_array hadv
      subst hnone
      simp only [evaluateMember] at h
      split at h
      · cases h
      · rename_i pattern st1 harr
        cases h
        simp only [List.map_cons, List.map_nil, List.sum_cons, List.sum_nil, Nat.add_zero]
        cases n with
        | zero => simp [evaluateArray] at harr
        | succ n =>
          simp only [evaluateArray, evaluatePlacement] at harr
          split at harr
          · cases harr
          · rename_i arraySize hsize
            split_ifs at harr
            · cases harr
              show u64 (st.currOffset + arraySize) % 2 ^ 64 = (st.currOffset + arraySize) % 2 ^ 64
              unfold u64
              exact Nat.mod_mod _ _
            · split at harr
              · cases harr
              · rename_i entries st2 hloop
                cases harr
                simp only [getSize_setVariableName]
                show st2.currOffset % 2 ^ 64 = _
                refine (arrayPattern_size ?_).symm
                intro hnil
                rcases arrayLoop_entries _ _ _ _ _ _ _ _ _ hloop with ⟨-, h2⟩ | h2
                · rw [h2]
                · rw [hnil] at h2; simp at h2
    case PointerVariableDecl line name type sizeType placement =>
      have hnone := memberAdvances_pointer hadv
      subst hnone
      simp only [evaluateMember] at h
      split at h
      · cases h
      · rename_i pattern st1 hptr
        cases h
        simp only [List.map_cons, List.map_nil, List.sum_cons, List.sum_nil, Nat.add_zero]
        cases n with
        | zero => simp [evaluatePointer] at hptr
        | succ n =>
          simp only [evaluatePointer, evaluatePointerPlacement] at hptr
          split at hptr
          · split at hptr
            · cases hptr
            · rename_i sizePattern st2 hsz
              split at hptr
              · split at hptr
                · cases hptr
                · cases hptr
                  show toU64 ((st.currOffset : Int) + (sizePattern.getSize : Int)) % 2 ^ 64
                    = (st.currOffset + sizePattern.getSize) % 2 ^ 64
                  rw [toU64_natCast_add]
                  exact Nat.mod_mod _ _
              · cases hptr
          · cases hptr
    case ConditionalStatement line condition trueBody falseBody =>
      have hadv := memberAdvances_conditional hadv
      simp only [evaluateMember] at h
      split at h
      · cases h
      · split_ifs at h
        · obtain ⟨new, hnew, h2⟩ := bodyLoop_advances _ _ _ _ _ _
            (fun s hs st r st' hr => ih _ _ _ _ _ hr (membersAdvance_mem _ hadv.1 s hs)) h
          simp only [List.nil_append] at hnew
          rw [hnew]; exact h2
        · obtain ⟨new, hnew, h2⟩ := bodyLoop_advances _ _ _ _ _ _
            (fun s hs st r st' hr => ih _ _ _ _ _ hr (membersAdvance_mem _ hadv.2 s hs)) h
          simp only [List.nil_append] at hnew
          rw [hnew]; exact h2
    all_goals simp [memberAdvances] at hadv

theorem structLoop_sizes
    (f : EvalState → ASTNode → Except Stop (List PatternData × EvalState))
    (hf : ∀ st node r st', f st node = .ok (r, st') → st'.currMembers = st.currMembers) :
    ∀ (members : List ASTNode) (st st' : EvalState) (top : List PatternData)
      (outer : List (List PatternData)),
      (∀ m ∈ members, ∀ st r st', f st m = .ok (r, st') →
        st'.currOffset % 2 ^ 64
          = (st.currOffset + (r.map PatternData.getSize).sum) % 2 ^ 64) →
      st.currMembers = top :: outer → structLoop f members st = .ok st' →
      ∃ pats, st'.currMembers = (top ++ pats) :: outer
        ∧ st'.currOffset % 2 ^ 64
          = (st.currOffset + (pats.map PatternData.getSize).sum) % 2 ^ 64 := by
  intro members
  induction members with
  | nil =>
    intro st st' top outer _ htop h
    simp only [structLoop, Except.ok.injEq] at h
    subst h
    exact ⟨[], by simpa using htop, by simp⟩
  | cons m ms ih =>
    intro st st' top outer hadv htop h
    simp only [structLoop] at h
    split at h
    · cases h
    · rename_i newMembers st1 hmem
      have h1 := hf _ _ _ _ hmem
      have h2 := hadv m (List.mem_cons_self _ _) _ _ _ hmem
      have htop1 : (st1.addMembers newMembers).currMembers = (top ++ newMembers) :: outer := by
        simp only [EvalState.addMembers, h1, htop]
      have hcur1 : (st1.addMembers newMembers).currOffset = st1.currOffset := by
        simp only [EvalState.addMembers, h1, htop]
      obtain ⟨pats, hp, h3⟩ := ih _ _ _ _
        (fun x hx => hadv x (List.mem_cons_of_mem _ hx)) htop1 h
      refine ⟨newMembers ++ pats, by rw [hp, List.append_assoc], ?_⟩
      rw [hcur1] at h3
      simp only [List.map_append, List.sum_append]
      omega

/-- C4 (as amended): for a struct evaluated successfully whose members have no
placement offsets and are variables of a built-in, struct or union type, arrays,
pointers, or conditionals of such members, the size of the struct pattern is the
sum of the sizes of its direct member patterns (modulo `2^64`, the width of the
cursor). -/
theorem C4_struct_size_is_sum_of_member_sizes (fuel : Nat) (ev : Evaluator)
    (st st' : EvalState) (line : Nat) (members : List ASTNode) (p : PatternData)
    (hall : membersAdvance members = true)
    (h : evaluateStruct fuel ev st (.Struct line members) = .ok (p, st')) :
    ∃ (a : PatternAttrs) (children : List PatternData),
      p = .Struct a children
      ∧ a.size = (children.map PatternData.getSize).sum % 2 ^ 64 := by
  cases fuel with
  | zero => simp [evaluateStruct] at h
  | succ n =>
    simp only [evaluateStruct] at h
    split at h
    · cases h
    · rename_i st1 hloop
      obtain ⟨pats, h1, h2⟩ := structLoop_sizes _ ((evaluate_frame n).1 ev) members _ st1 []
        st.currMembers
        (fun m hm s r s' hr =>
          evaluateMember_advances n ev s s' m r hr (membersAdvance_mem _ hall m hm))
        rfl hloop
      cases h
      refine ⟨_, _, rfl, ?_⟩
      show sub64 st1.currOffset st.currOffset = _
      rw [h1]
      simp only [List.nil_append, List.headD_cons]
      exact sub64_of_congr h2

/-- C4, witness: `struct { u8 a; u8 d[2]; u8 *p : u8; struct { u8 x; } n; }` at
offset 0 of the six bytes `01 02 03 05 04 06`. -/
theorem C4_struct_size_is_sum_of_member_sizes_witness :
    membersAdvance exampleMixedMembers = true
    ∧ ∃ (a : PatternAttrs) (children : List PatternData) (st' : EvalState),
      evaluateStruct 10 (exampleEvaluator [1, 2, 3, 5, 4, 6] .little) initialState
          (.Struct 1 exampleMixedMembers)
        = .ok (.Struct a children, st')
      ∧ children.map PatternData.getSize = [1, 2, 1, 1]
      ∧ a.size = 5
      ∧ ∃ (b : PatternAttrs) (members : List PatternData),
        PatternData.Struct a children = .Struct b members
        ∧ b.size = (members.map PatternData.getSize).sum % 2 ^ 64 :=
  ⟨by decide,
    ⟨0, 5, "", "", none⟩,
    [.Unsigned ⟨0, 1, "u8", "a", some .little⟩,
      .Array ⟨1, 2, "", "d", none⟩
        [.Unsigned ⟨1, 1, "u8", "[0]", some .little⟩,
          .Unsigned ⟨2, 1, "u8", "[1]", some .little⟩],
      .Pointer ⟨3, 1, "", "", none⟩ (.Unsigned ⟨5, 1, "u8", "", none⟩),
      .Struct ⟨4, 1, "", "n", some .little⟩ [.Unsigned ⟨4, 1, "u8", "x", some .little⟩]],
    _, eq_of_producesPattern initialState (by decide!), rfl, rfl,
    C4_struct_size_is_sum_of_member_sizes 10
      (exampleEvaluator [1, 2, 3, 5, 4, 6] .little) initialState _ 1
      exampleMixedMembers _ (by decide) (eq_of_producesPattern initialState (by decide!))⟩

/-- C4, counterexample: `struct S { u8 a @ 2; } s @ 0;` on a source of three
bytes evaluates to a struct of size 3 whose only member has size 1. -/
theorem C4_counterexample :
    ∃ (a : PatternAttrs) (children : List PatternData),
      (exampleEvaluator [1, 2, 3] .little).evaluate 10 initialState [examplePlacedMember]
        = .ok (.ok [.Struct a children])
      ∧ a.size ≠ (children.map PatternData.getSize).sum :=
  ⟨⟨0, 3, "S", "s", some .little⟩, [.Unsigned ⟨2, 1, "u8", "a", some .little⟩], rfl,
    by decide⟩

/-! ## Integer literals -/

theorem findIdx?_none_of_all {string allowed : List Char}
    (h : ∀ c ∈ string, allowed.contains c = true) :
    string.findIdx? (fun c => !allowed.contains c) = none := by
  rw [List.findIdx?_eq_none_iff]
  intro c hc
  simp only [h c hc, Bool.not_true]

theorem findFirstNotOf_all {string allowed : List Char}
    (h : ∀ c ∈ string, allowed.contains c = true) : findFirstNotOf string allowed = npos := by
  simp only [findFirstNotOf, findIdx?_none_of_all h]

theorem literal_region {lit rest : List Char}
    (hlit : ∀ c ∈ lit, literalChars.contains c = true) (hrest : endsLiteral rest = true)
    (hlen : lit.length < 2 ^ 64) :
    substr (lit ++ rest) 0 (getIntegerLiteralLength (lit ++ rest)) = lit := by
  have hnone := findIdx?_none_of_all hlit
  cases rest with
  | nil =>
    have hlen' : lit.length ≤ npos := by
      have : npos = 2 ^ 64 - 1 := rfl
      omega
    simp only [List.append_nil, getIntegerLiteralLength, findFirstNotOf, hnone, substr,
      List.drop_zero, Nat.sub_zero, Nat.min_eq_right hlen', List.take_length]
  | cons c rest =>
    have hc : (!literalChars.contains c) = true := hrest
    have hidx : (lit ++ c :: rest).findIdx? (fun c => !literalChars.contains c)
        = some lit.length := by
      rw [List.findIdx?_append, hnone, List.findIdx?_cons]
      simp only [hc, if_true, Option.map_some', Nat.zero_add, Option.or]
    simp only [getIntegerLiteralLength, findFirstNotOf, hidx, substr, List.drop_zero,
      Nat.sub_zero, List.length_append]
    rw [Nat.min_eq_left (Nat.le_add_right _ _), List.take_left']
    rfl

theorem removeSuffix_append (d suffix : List Char) :
    removeSuffix (d ++ suffix) suffix.length = d := by
  simp [removeSuffix]

theorem endsWith_concat_one (s : List Char) (a c : Char) :
    endsWith (s ++ [a]) [c] = (c == a) := by
  simp [endsWith, List.isSuffixOf, List.isPrefixOf]

theorem endsWith_concat_two (s : List Char) (a c₁ c₂ : Char) (h : c₂ ≠ a) :
    endsWith (s ++ [a]) [c₁, c₂] = false := by
  simp [endsWith, List.isSuffixOf, List.isPrefixOf, h]

theorem endsWith_concat_three (s : List Char) (a c₁ c₂ c₃ : Char) (h : c₃ ≠ a) :
    endsWith (s ++ [a]) [c₁, c₂, c₃] = false := by
  simp [endsWith, List.isSuffixOf, List.isPrefixOf, h]

theorem stripSuffix_U (d : List Char) :
    stripSuffix (d ++ ['U']) = (.Unsigned32Bit, d) := by
  have h := removeSuffix_append d ['U']
  simp only [List.length_singleton] at h
  simp only [stripSuffix, endsWith_concat_one, beq_self_eq_true, if_true, h]

theorem stripSuffix_UL (d : List Char) :
    stripSuffix (d ++ ['U', 'L']) = (.Unsigned64Bit, d) := by
  have h := removeSuffix_append d ['U', 'L']
  have e : d ++ ['U', 'L'] = (d ++ ['U']) ++ ['L'] := by simp
  have h1 : endsWith (d ++ ['U', 'L']) ['U'] = false := by
    rw [e, endsWith_concat_one]; decide
  have h2 : endsWith (d ++ ['U', 'L']) ['U', 'L'] = true := by
    simp [endsWith, List.isSuffixOf, List.isPrefixOf]
  simp only [List.length_cons, List.length_nil] at h
  simp only [stripSuffix, h1, h2, if_true, h]
  simp

theorem stripSuffix_ULL (d : List Char) :
    stripSuffix (d ++ ['U', 'L', 'L']) = (.Unsigned128Bit, d) := by
  have h := removeSuffix_append d ['U', 'L', 'L']
  have h1 : endsWith (d ++ ['U', 'L', 'L']) ['U'] = false := by
    simp [endsWith, List.isSuffixOf, List.isPrefixOf]
  have h2 : endsWith (d ++ ['U', 'L', 'L']) ['U', 'L'] = false := by
    simp [endsWith, List.isSuffixOf, List.isPrefixOf]
  have h3 : endsWith (d ++ ['U', 'L', 'L']) ['U', 'L', 'L'] = true := by
    simp [endsWith, List.isSuffixOf, List.isPrefixOf]
  simp only [List.length_cons, List.length_nil] at h
  simp only [stripSuffix, h1, h2, h3, if_true, h]
  simp

theorem stripSuffix_L (init : List Char) (a : Char) (ha : a ≠ 'U') (hb : a ≠ 'L') :
    stripSuffix (init ++ [a] ++ ['L']) = (.Signed64Bit, init ++ [a]) := by
  have h := removeSuffix_append (init ++ [a]) ['L']
  have h1 : endsWith (init ++ [a] ++ ['L']) ['U'] = false := by
    simp [endsWith, List.isSuffixOf, List.isPrefixOf]
  have h2 : endsWith (init ++ [a] ++ ['L']) ['U', 'L'] = false := by
    simp [endsWith, List.isSuffixOf, List.isPrefixOf, Ne.symm ha]
  have h3 : endsWith (init ++ [a] ++ ['L']) ['U', 'L', 'L'] = false := by
    simp [endsWith, List.isSuffixOf, List.isPrefixOf, Ne.symm hb]
  have h4 : endsWith (init ++ [a] ++ ['L']) ['L'] = true := by
    simp [endsWith, List.isSuffixOf, List.isPrefixOf]
  simp only [List.length_cons, List.length_nil] at h
  simp only [stripSuffix, h1, h2, h3, h4, if_true, h]
  simp

theorem stripSuffix_LL (init : List Char) (a : Char) (ha : a ≠ 'U') :
    stripSuffix (init ++ [a] ++ ['L', 'L']) = (.Signed64Bit, init ++ [a] ++ ['L']) := by
  have e : init ++ [a] ++ ['L', 'L'] = (init ++ [a] ++ ['L']) ++ ['L'] := by simp
  have h := removeSuffix_append (init ++ [a] ++ ['L']) ['L']
  have h1 : endsWith (init ++ [a] ++ ['L', 'L']) ['U'] = false := by
    simp [endsWith, List.isSuffixOf, List.isPrefixOf]
  have h2 : endsWith (init ++ [a] ++ ['L', 'L']) ['U', 'L'] = false := by
    simp [endsWith, List.isSuffixOf, List.isPrefixOf]
  have h3 : endsWith (init ++ [a] ++ ['L', 'L']) ['U', 'L', 'L'] = false := by
    simp [endsWith, List.isSuffixOf, List.isPrefixOf, Ne.symm ha]
  have h4 : endsWith (init ++ [a] ++ ['L', 'L']) ['L'] = true := by
    simp [endsWith, List.isSuffixOf, List.isPrefixOf]
  simp only [List.length_cons, List.length_nil] at h
  rw [← e] at h
  simp only [stripSuffix, h1, h2, h3, h4, if_true, h]
  simp

theorem stripSuffix_plain (init : List Char) (a : Char) (hU : a ≠ 'U') (hL : a ≠ 'L')
    (h : (startsWith (init ++ [a]) ['0', 'x'] = true ∨ startsWith (init ++ [a]) ['0', 'b'] = true)
      ∨ (a ≠ 'F' ∧ a ≠ 'D')) :
    stripSuffix (init ++ [a]) = (.Any, init ++ [a]) := by
  have h1 : endsWith (init ++ [a]) ['U'] = false := by
    rw [endsWith_concat_one]; simpa using Ne.symm hU
  have h2 : endsWith (init ++ [a]) ['U', 'L'] = false := endsWith_concat_two _ _ _ _ (Ne.symm hL)
  have h3 : endsWith (init ++ [a]) ['U', 'L', 'L'] = false :=
    endsWith_concat_three _ _ _ _ _ (Ne.symm hL)
  have h4 : endsWith (init ++ [a]) ['L'] = false := by
    rw [endsWith_concat_one]; simpa using Ne.symm hL
  have h5 : endsWith (init ++ [a]) ['L', 'L'] = false := endsWith_concat_two _ _ _ _ (Ne.symm hL)
  simp only [stripSuffix, h1, h2, h3, h4, h5]
  rcases h with h | ⟨hF, hD⟩
  · rcases h with h | h <;> simp [h]
  · have h6 : endsWith (init ++ [a]) ['F'] = false := by
      rw [endsWith_concat_one]; simpa using Ne.symm hF
    have h7 : endsWith (init ++ [a]) ['D'] = false := by
      rw [endsWith_concat_one]; simpa using Ne.symm hD
    simp [h6, h7]

theorem digitValue_of_isDigit (radix : Radix) (c : Char) (h : radix.isDigit c = true) :
    digitValue c = some (digitOf c) := by
  cases radix <;> simp only [Radix.isDigit, decide_eq_true_eq] at h
  · simp only [digitValue, isdigit, digitOf, decide_eq_true_eq]
    split_ifs <;> first | rfl | (congr 1; omega)
  · rcases h with h | h <;> subst h <;> decide
  · simp only [digitValue, isdigit, digitOf, decide_eq_true_eq]
    split_ifs <;> first | rfl | (congr 1; omega)

theorem foldl_value_mod (base : Nat) : ∀ (digits : List Char) (a : Nat),
    digits.foldl (fun value c => value * base + digitOf c) a % 2 ^ 128
      = digits.foldl (fun value c => value * base + digitOf c) (a % 2 ^ 128) % 2 ^ 128 := by
  intro digits
  induction digits with
  | nil => intro a; simp
  | cons c rest ih =>
    intro a
    simp only [List.foldl_cons]
    rw [ih (a * base + digitOf c), ih (a % 2 ^ 128 * base + digitOf c)]
    congr 2
    exact (((Nat.mod_modEq a _).mul_right base).add_right (digitOf c)).symm

theorem accumulate_value (radix : Radix) (base : Nat) : ∀ (digits : List Char) (a : Nat),
    (∀ c ∈ digits, radix.isDigit c = true) → a < 2 ^ 128 →
    accumulate base digits a
      = some (digits.foldl (fun value c => value * base + digitOf c) a % 2 ^ 128) := by
  intro digits
  induction digits with
  | nil =>
    intro a _ ha
    simp only [accumulate, List.foldl_nil, Nat.mod_eq_of_lt ha]
  | cons c rest ih =>
    intro a h ha
    have hc := digitValue_of_isDigit radix c (h c (List.mem_cons_self _ _))
    simp only [accumulate, hc, List.foldl_cons]
    rw [ih _ (fun d hd => h d (List.mem_cons_of_mem _ hd)) (Nat.mod_lt _ (by norm_num))]
    rw [foldl_value_mod base rest (a * base + digitOf c)]
    congr 3
    exact Nat.ModEq.add_right (digitOf c) (Nat.mod_modEq (a * base) _)

theorem accumulate_positional (radix : Radix) (base : Nat) (digits : List Char)
    (h : ∀ c ∈ digits, radix.isDigit c = true) :
    accumulate base digits 0 = some (positionalValue base digits % 2 ^ 128) :=
  accumulate_value radix base digits 0 h (by norm_num)

theorem wrap_mod (k : IntKind) (v : Nat) :
    k.wrap ((v % 2 ^ 128 : Nat) : Int) = k.wrap (v : Int) := by
  cases k <;> simp only [IntKind.wrap, IntKind.isSigned, IntKind.bits] <;> simp <;> omega

theorem isDigit_hexadecimal (radix : Radix) (c : Char) (h : radix.isDigit c = true) :
    Radix.hexadecimal.isDigit c = true := by
  cases radix
  · exact h
  · simp only [Radix.isDigit, decide_eq_true_eq] at h
    rcases h with h | h <;> subst h <;> decide
  · simp only [Radix.isDigit, decide_eq_true_eq] at h ⊢
    exact Or.inl h

theorem ne_of_isDigit (radix : Radix) {c a : Char} (h : radix.isDigit c = true)
    (ha : radix.isDigit a = false) : c ≠ a := by
  intro e
  subst e
  rw [h] at ha
  cases ha

theorem hexChars_contains (c : Char) (h : Radix.hexadecimal.isDigit c = true) :
    "0123456789ABCDEFabcdef".toList.contains c = true := by
  simp only [Radix.isDigit, decide_eq_true_eq] at h
  have hc : Char.ofNat c.toNat = c := Char.ofNat_toNat c
  rw [← hc]
  generalize c.toNat = n at h
  rcases h with h | h | h <;> obtain ⟨h1, h2⟩ := h <;> interval_cases n <;> decide

theorem literalChars_contains (radix : Radix) (c : Char) (h : radix.isDigit c = true) :
    literalChars.contains c = true := by
  have h := isDigit_hexadecimal radix c h
  simp only [Radix.isDigit, decide_eq_true_eq] at h
  have hc : Char.ofNat c.toNat = c := Char.ofNat_toNat c
  rw [← hc]
  generalize c.toNat = n at h
  rcases h with h | h | h <;> obtain ⟨h1, h2⟩ := h <;> interval_cases n <;> decide

theorem binaryChars_contains (c : Char) (h : Radix.binary.isDigit c = true) :
    "01".toList.contains c = true := by
  simp only [Radix.isDigit, decide_eq_true_eq] at h
  rcases h with h | h <;> subst h <;> decide

theorem decimalChars_contains (c : Char) (h : Radix.decimal.isDigit c = true) :
    "0123456789".toList.contains c = true := by
  simp only [Radix.isDigit, decide_eq_true_eq] at h
  have hc : Char.ofNat c.toNat = c := Char.ofNat_toNat c
  rw [← hc]
  generalize c.toNat = n at h
  obtain ⟨h1, h2⟩ := h
  interval_cases n <;> decide

theorem startsWith_mem {s : List Char} {a b : Char} (h : startsWith s [a, b] = true) : b ∈ s := by
  cases s with
  | nil => simp [startsWith, List.isPrefixOf] at h
  | cons c s =>
    cases s with
    | nil => simp [startsWith, List.isPrefixOf] at h
    | cons d s =>
      simp only [startsWith, List.isPrefixOf, Bool.and_eq_true, beq_iff_eq, and_true] at h
      simp [h.2]

theorem startsWith_decimal {digits : List Char} {b : Char}
    (hd : ∀ c ∈ digits, Radix.decimal.isDigit c = true) (hb : Radix.decimal.isDigit b = false) :
    startsWith digits ['0', b] = false := by
  cases h : startsWith digits ['0', b]
  · rfl
  · exact absurd rfl (ne_of_isDigit .decimal (hd b (startsWith_mem h)) hb)

theorem selectBase_radix (radix : Radix) (digits : List Char) (type : ValueType)
    (hd : ∀ c ∈ digits, radix.isDigit c = true) (hne : digits ≠ [])
    (htype : Token.isFloatingPoint type = false) :
    selectBase type (radix.lead ++ digits) = some (radix.base, digits, type) := by
  cases radix
  · have h1 : startsWith (Radix.hexadecimal.lead ++ digits) ['0', 'x'] = true := by
      simp [startsWith, Radix.lead, List.isPrefixOf]
    have h2 := findFirstNotOf_all (fun c hc => hexChars_contains c (hd c hc))
    have h3 : (Radix.hexadecimal.lead ++ digits).drop 2 = digits := rfl
    simp only [selectBase, h1, h3, htype, h2, if_true, bne_self_eq_false, Radix.base]
    rfl
  · have h0 : startsWith (Radix.binary.lead ++ digits) ['0', 'x'] = false := by
      simp [startsWith, Radix.lead, List.isPrefixOf]
    have h1 : startsWith (Radix.binary.lead ++ digits) ['0', 'b'] = true := by
      simp [startsWith, Radix.lead, List.isPrefixOf]
    have h2 := findFirstNotOf_all (fun c hc => binaryChars_contains c (hd c hc))
    have h3 : (Radix.binary.lead ++ digits).drop 2 = digits := rfl
    simp only [selectBase, h0, h1, h3, htype, h2, if_true, bne_self_eq_false, Radix.base]
    rfl
  · have h0 : startsWith digits ['0', 'x'] = false := startsWith_decimal hd (by decide)
    have h1 : startsWith digits ['0', 'b'] = false := startsWith_decimal hd (by decide)
    have h2 := findFirstNotOf_all (fun c hc => decimalChars_contains c (hd c hc))
    have h3 : digits.contains '.' = false := by
      cases h : digits.contains '.'
      · rfl
      · exact absurd rfl
          (ne_of_isDigit .decimal (hd '.' (by simpa using h)) (by decide))
    have h4 : isdigit (digits.headD nul) = true := by
      cases digits with
      | nil => exact absurd rfl hne
      | cons c rest => exact hd c (List.mem_cons_self _ _)
    simp only [Radix.lead, List.nil_append, selectBase, h0, h1, h2, h3, h4, htype, if_true,
      bne_self_eq_false, Radix.base]
    rfl

theorem parse_radix (radix : Radix) (digits suffix rest : List Char) (type : ValueType)
    (hd : ∀ c ∈ digits, radix.isDigit c = true) (hne : digits ≠ [])
    (hsuffix : ∀ c ∈ suffix, literalChars.contains c = true)
    (hrest : endsLiteral rest = true)
    (hlen : (radix.lead ++ digits ++ suffix).length < 2 ^ 64)
    (hstrip : stripSuffix (radix.lead ++ digits ++ suffix) = (type, radix.lead ++ digits))
    (hfloat : Token.isFloatingPoint type = false) :
    parseIntegerLiteral (radix.lead ++ digits ++ suffix ++ rest)
      = match (if type = .Any then .Signed32Bit else type : ValueType) with
        | .Unsigned32Bit => some ⟨.Unsigned32Bit,
            .int .u32 (IntKind.u32.wrap (positionalValue radix.base digits : Nat))⟩
        | .Signed32Bit => some ⟨.Signed32Bit,
            .int .s32 (IntKind.s32.wrap (positionalValue radix.base digits : Nat))⟩
        | .Unsigned64Bit => some ⟨.Unsigned64Bit,
            .int .u64 (IntKind.u64.wrap (positionalValue radix.base digits : Nat))⟩
        | .Signed64Bit => some ⟨.Signed64Bit,
            .int .s64 (IntKind.s64.wrap (positionalValue radix.base digits : Nat))⟩
        | .Unsigned128Bit => some ⟨.Unsigned128Bit,
            .int .u128 (IntKind.u128.wrap (positionalValue radix.base digits : Nat))⟩
        | .Signed128Bit => some ⟨.Signed128Bit,
            .int .s128 (IntKind.s128.wrap (positionalValue radix.base digits : Nat))⟩
        | _ => none := by
  have hlit : ∀ c ∈ radix.lead ++ digits ++ suffix, literalChars.contains c = true := by
    intro c hc
    rcases List.mem_append.mp hc with hc | hc
    · rcases List.mem_append.mp hc with hc | hc
      · cases radix <;> simp only [Radix.lead, List.mem_cons, List.mem_singleton,
          List.not_mem_nil, or_false] at hc
        · rcases hc with hc | hc <;> subst hc <;> decide
        · rcases hc with hc | hc <;> subst hc <;> decide
      · exact literalChars_contains radix c (hd c hc)
    · exact hsuffix c hc
  have hlength : ¬ digits.length = 0 := by
    intro e; exact hne (List.length_eq_zero.mp e)
  simp only [parseIntegerLiteral, literal_region hlit hrest hlen, hstrip,
    selectBase_radix radix digits type hd hne hfloat, hlength, if_false,
    accumulate_positional radix radix.base digits hd, wrap_mod]
  cases type <;> first | rfl | cases hfloat

theorem concat_of_ne_nil {digits : List Char} (hne : digits ≠ []) :
    ∃ init a, digits = init ++ [a] ∧ a ∈ digits :=
  ⟨digits.dropLast, digits.getLast hne, (List.dropLast_append_getLast hne).symm,
    List.getLast_mem hne⟩

theorem selectBase_trailing (digits : List Char) (type : ValueType)
    (hd : ∀ c ∈ digits, isdigit c = true) (hne : digits ≠ [])
    (hlen : digits.length + 1 < 2 ^ 64) (hfloat : Token.isFloatingPoint type = false) :
    selectBase type (digits ++ ['L']) = none := by
  have hall : ∀ c ∈ digits ++ ['L'], c ≠ 'x' ∧ c ≠ 'b' ∧ c ≠ '.' := by
    intro c hc
    rcases List.mem_append.mp hc with hc | hc
    · exact ⟨ne_of_isDigit .decimal (hd c hc) (by decide),
        ne_of_isDigit .decimal (hd c hc) (by decide),
        ne_of_isDigit .decimal (hd c hc) (by decide)⟩
    · rw [List.mem_singleton] at hc
      subst hc
      decide
  have h0 : startsWith (digits ++ ['L']) ['0', 'x'] = false := by
    cases h : startsWith (digits ++ ['L']) ['0', 'x']
    · rfl
    · exact absurd rfl (hall _ (startsWith_mem h)).1
  have h1 : startsWith (digits ++ ['L']) ['0', 'b'] = false := by
    cases h : startsWith (digits ++ ['L']) ['0', 'b']
    · rfl
    · exact absurd rfl (hall _ (startsWith_mem h)).2.1
  have h3 : (digits ++ ['L']).contains '.' = false := by
    cases h : (digits ++ ['L']).contains '.'
    · rfl
    · exact absurd rfl (hall '.' (by simpa using h)).2.2
  have h4 : isdigit ((digits ++ ['L']).headD nul) = true := by
    cases digits with
    | nil => exact absurd rfl hne
    | cons c rest => exact hd c (List.mem_cons_self _ _)
  have h5 : findFirstNotOf (digits ++ ['L']) "0123456789".toList = digits.length := by
    have hnone := findIdx?_none_of_all (fun c hc => decimalChars_contains c (hd c hc))
    have hL : (!"0123456789".toList.contains 'L') = true := by decide
    simp only [findFirstNotOf, List.findIdx?_append, hnone, List.findIdx?_cons, hL, if_true,
      Option.map_some', Nat.zero_add, Option.or]
  have h6 : (digits.length != npos) = true := by
    have : npos = 2 ^ 64 - 1 := rfl
    simp only [bne_iff_ne, ne_eq]
    omega
  simp only [selectBase, h0, h1, h3, h4, h5, h6, hfloat, if_true, if_false, Bool.or_self]
  rfl

/-- C17 (the code at the failing inputs): `parseIntegerLiteral` returns nothing
for a non-empty string of decimal digits followed by the suffix `LL`. The test
for the suffix `L` comes before the test for `LL`, so one `L` is removed, the
literal is given the type `s64`, and the remaining `L` is then rejected as a
character that is not a decimal digit. -/
theorem C17_long_long_suffix_is_rejected (digits rest : List Char)
    (hd : ∀ c ∈ digits, isdigit c = true) (hne : digits ≠ [])
    (hrest : endsLiteral rest = true) (hlen : digits.length + 2 < 2 ^ 64) :
    parseIntegerLiteral (digits ++ ['L', 'L'] ++ rest) = none := by
  obtain ⟨init, a, e, ha⟩ := concat_of_ne_nil hne
  have hlit : ∀ c ∈ digits ++ ['L', 'L'], literalChars.contains c = true := by
    intro c hc
    rcases List.mem_append.mp hc with hc | hc
    · exact literalChars_contains .decimal c (hd c hc)
    · simp only [List.mem_cons, List.mem_singleton, List.not_mem_nil, or_false, or_self] at hc
      subst hc
      decide
  have hstrip : stripSuffix (digits ++ ['L', 'L']) = (.Signed64Bit, digits ++ ['L']) := by
    rw [e]
    exact stripSuffix_LL init a (ne_of_isDigit .decimal (hd a ha) (by decide))
  have hregion := literal_region hlit hrest
    (by simp only [List.length_append, List.length_cons, List.length_nil]; omega)
  simp only [parseIntegerLiteral, hregion, hstrip,
    selectBase_trailing digits .Signed64Bit hd hne (by omega) rfl]

theorem C17_long_long_suffix_is_rejected_witness :
    parseIntegerLiteral "10LL".toList = none :=
  C17_long_long_suffix_is_rejected ['1', '0'] [] (by decide) (by decide) (by decide)
    (by decide)

theorem suffix_in_region {suffix : List Char} (h : ∀ c ∈ suffix, c = 'U' ∨ c = 'L') :
    ∀ c ∈ suffix, literalChars.contains c = true := by
  intro c hc
  rcases h c hc with e | e <;> subst e <;> decide

/-- C18: `parseIntegerLiteral` applied to a non-empty string of decimal digits
followed by the suffix `U`, `UL`, `ULL` or `L` (and then by nothing, or by a
character that cannot belong to a literal) returns a literal of type `u32`,
`u64`, `u128` or `s64` respectively, holding the positional value of the digits
narrowed to that width; the suffix does not count as a digit. -/
theorem C18_suffixed_decimal_literal (digits rest : List Char)
    (hd : ∀ c ∈ digits, isdigit c = true) (hne : digits ≠ [])
    (hrest : endsLiteral rest = true) (hlen : digits.length + 3 < 2 ^ 64) :
    parseIntegerLiteral (digits ++ ['U'] ++ rest)
      = some ⟨.Unsigned32Bit, .int .u32 (IntKind.u32.wrap (positionalValue 10 digits : Nat))⟩
    ∧ parseIntegerLiteral (digits ++ ['U', 'L'] ++ rest)
      = some ⟨.Unsigned64Bit, .int .u64 (IntKind.u64.wrap (positionalValue 10 digits : Nat))⟩
    ∧ parseIntegerLiteral (digits ++ ['U', 'L', 'L'] ++ rest)
      = some ⟨.Unsigned128Bit,
          .int .u128 (IntKind.u128.wrap (positionalValue 10 digits : Nat))⟩
    ∧ parseIntegerLiteral (digits ++ ['L'] ++ rest)
      = some ⟨.Signed64Bit, .int .s64 (IntKind.s64.wrap (positionalValue 10 digits : Nat))⟩ := by
  obtain ⟨init, a, e, ha⟩ := concat_of_ne_nil hne
  have hU : a ≠ 'U' := ne_of_isDigit .decimal (hd a ha) (by decide)
  have hL : a ≠ 'L' := ne_of_isDigit .decimal (hd a ha) (by decide)
  refine ⟨?_, ?_, ?_, ?_⟩
  · exact parse_radix .decimal digits ['U'] rest .Unsigned32Bit hd hne
      (suffix_in_region (by simp)) hrest
      (by simp only [Radix.lead, List.length_append, List.length_cons, List.length_nil]; omega)
      (stripSuffix_U digits) rfl
  · exact parse_radix .decimal digits ['U', 'L'] rest .Unsigned64Bit hd hne
      (suffix_in_region (by simp)) hrest
      (by simp only [Radix.lead, List.length_append, List.length_cons, List.length_nil]; omega)
      (stripSuffix_UL digits) rfl
  · exact parse_radix .decimal digits ['U', 'L', 'L'] rest .Unsigned128Bit hd hne
      (suffix_in_region (by simp)) hrest
      (by simp only [Radix.lead, List.length_append, List.length_cons, List.length_nil]; omega)
      (stripSuffix_ULL digits) rfl
  · exact parse_radix .decimal digits ['L'] rest .Signed64Bit hd hne
      (suffix_in_region (by simp)) hrest
      (by simp only [Radix.lead, List.length_append, List.length_cons, List.length_nil]; omega)
      (by rw [e]; exact stripSuffix_L init a hU hL) rfl

theorem C18_suffixed_decimal_literal_witness :
    parseIntegerLiteral "10U".toList = some ⟨.Unsigned32Bit, .int .u32 10⟩
    ∧ parseIntegerLiteral "10UL".toList = some ⟨.Unsigned64Bit, .int .u64 10⟩
    ∧ parseIntegerLiteral "10ULL".toList = some ⟨.Unsigned128Bit, .int .u128 10⟩
    ∧ parseIntegerLiteral "10L".toList = some ⟨.Signed64Bit, .int .s64 10⟩ :=
  C18_suffixed_decimal_literal ['1', '0'] [] (by decide) (by decide) (by decide) (by decide)

/-- C19: for a literal without suffix, `parseIntegerLiteral` of `0x` followed by
a non-empty string of hex digits of either case, of `0b` followed by a non-empty
string of binary digits, or of a non-empty string of decimal digits (followed by
nothing, or by a character that cannot belong to a literal) returns a literal of
type `s32` whose value is the positional value of the digits in base 16, 2 or
10, reduced modulo `2 ^ 128` and then narrowed to 32 bits in two's complement. -/
theorem C19_unsuffixed_literal (radix : Radix) (digits rest : List Char)
    (hd : ∀ c ∈ digits, radix.isDigit c = true) (hne : digits ≠ [])
    (hrest : endsLiteral rest = true) (hlen : digits.length + 2 < 2 ^ 64) :
    parseIntegerLiteral (radix.lead ++ digits ++ rest)
      = some ⟨.Signed32Bit, .int .s32
          (IntKind.s32.wrap ((positionalValue radix.base digits % 2 ^ 128 : Nat) : Int))⟩ := by
  obtain ⟨init, a, e, ha⟩ := concat_of_ne_nil hne
  have hhex := isDigit_hexadecimal radix a (hd a ha)
  have hU : a ≠ 'U' := ne_of_isDigit .hexadecimal hhex (by decide)
  have hL : a ≠ 'L' := ne_of_isDigit .hexadecimal hhex (by decide)
  have hstrip : stripSuffix (radix.lead ++ digits ++ []) = (.Any, radix.lead ++ digits) := by
    rw [List.append_nil, e, ← List.append_assoc]
    refine stripSuffix_plain (radix.lead ++ init) a hU hL ?_
    cases radix
    · exact Or.inl (Or.inl (by simp [startsWith, Radix.lead, List.isPrefixOf]))
    · exact Or.inl (Or.inr (by simp [startsWith, Radix.lead, List.isPrefixOf]))
    · exact Or.inr ⟨ne_of_isDigit .decimal (hd a ha) (by decide),
        ne_of_isDigit .decimal (hd a ha) (by decide)⟩
  have h := parse_radix radix digits [] rest .Any hd hne (by simp) hrest
    (by cases radix <;>
      simp only [Radix.lead, List.length_append, List.length_cons, List.length_nil] <;> omega)
    hstrip rfl
  rw [List.append_nil] at h
  rw [h, wrap_mod]
  rfl

theorem C19_unsuffixed_literal_witness :
    parseIntegerLiteral "0xFFFFFFFF".toList = some ⟨.Signed32Bit, .int .s32 (-1)⟩ :=
  (C19_unsuffixed_literal .hexadecimal "FFFFFFFF".toList [] (by decide) (by decide)
    (by decide) (by decide)).trans (by decide)

theorem lexLoop_of_scan_failed {code : List Char} (fuel : Nat) (st : LexState)
    {message : String} (h : scan code st.offset st.lineNumber = .failed message) :
    lexLoop code (fuel + 1) st = some (.error ⟨message, st.lineNumber⟩) := by
  have hstep : lexStep code st = .failed ⟨message, st.lineNumber⟩ := by
    unfold lexStep
    rw [h]
  rw [lexLoop, hstep]

/-! ## Operators -/

theorem newType_eq_ladderType (left right : ValueType) :
    newType left right = ladderType left right := by
  cases left <;> cases right <;> rfl

theorem evaluateOperator_type {h : Host} {left right result : LiteralNode} {op : Operator}
    (hok : evaluateOperator h left right op = .ok result) :
    result.literal.type = newType left.literal.type right.literal.type := by
  unfold evaluateOperator at hok
  cases op <;> simp only [throwEvaluateError] at hok <;> (try split at hok) <;> cases hok <;> rfl

/-- C15: whenever `evaluateOperator` succeeds on two typed literals, the type
tag of the result is the first type of the ladder `double, float, u128, s128,
u64, s64, u32, s32, u16, s16, u8, s8, char` that equals the type of the left or
of the right operand, and `s32` when neither type is on the ladder; the tag is
the same when the operands are swapped, and for two types of the ladder it is
the one of higher rank. -/
theorem C15_result_type_follows_the_ladder (h : Host) (left right result : LiteralNode)
    (op : Operator) (hok : evaluateOperator h left right op = .ok result) :
    result.literal.type = ladderType left.literal.type right.literal.type
    ∧ (∀ swapped, evaluateOperator h right left op = .ok swapped →
        swapped.literal.type = result.literal.type)
    ∧ (left.literal.type ∈ typeLadder → right.literal.type ∈ typeLadder →
        result.literal.type
          = if typeRank left.literal.type ≤ typeRank right.literal.type
            then left.literal.type else right.literal.type) := by
  have ht := evaluateOperator_type hok
  refine ⟨ht.trans (newType_eq_ladderType _ _), ?_, ?_⟩
  · intro swapped hswapped
    rw [evaluateOperator_type hswapped, ht]
    generalize left.literal.type = a
    generalize right.literal.type = b
    cases a <;> cases b <;> rfl
  · rw [ht]
    generalize left.literal.type = a
    generalize right.literal.type = b
    intro ha hb
    cases a <;> cases b <;> first | rfl | exact absurd ha (by decide)

theorem C15_result_type_follows_the_ladder_witness :
    evaluateOperator exampleHost ⟨1, ⟨.Unsigned8Bit, .int .u8 1⟩⟩
        ⟨1, ⟨.Unsigned64Bit, .int .u64 2⟩⟩ .Plus
      = .ok ⟨1, ⟨.Unsigned64Bit, .int .u64 3⟩⟩
    ∧ ladderType .Unsigned8Bit .Unsigned64Bit = .Unsigned64Bit :=
  ⟨by decide, (C15_result_type_follows_the_ladder exampleHost ⟨1, ⟨.Unsigned8Bit, .int .u8 1⟩⟩
    ⟨1, ⟨.Unsigned64Bit, .int .u64 2⟩⟩ ⟨1, ⟨.Unsigned64Bit, .int .u64 3⟩⟩ .Plus
    (by decide)).1.symm⟩

theorem bitOperation_int (op : Operator) (a : IntKind) (x : Int) (b : IntKind) (y : Int) :
    ∃ r, bitOperation op (.int a x) (.int b y) = some r
      ∧ ∀ e, r ≠ .error (.evaluateError e) := by
  simp only [bitOperation]
  cases op <;> simp only <;> (try split_ifs) <;> exact ⟨_, rfl, fun e h => by cases h⟩

/-- C16: for each of the operators `<<`, `>>`, `&`, `|`, `^` and `~`,
`evaluateOperator` throws the evaluation error "bitwise operations on floating
point numbers are forbidden" (at the line of the left operand) whenever the left
or the right operand holds a floating-point value, and throws no evaluation
error at all, so not this one either, when both operands hold integers. -/
theorem C16_bitwise_operator_on_floating_point (h : Host) (left right : LiteralNode)
    (op : Operator) (hop : op ∈ bitwiseOperators) :
    ((left.literal.value.isFloating = true ∨ right.literal.value.isFloating = true) →
      evaluateOperator h left right op = throwEvaluateError bitwiseMessage left.lineNumber)
    ∧ (left.literal.value.isFloating = false → right.literal.value.isFloating = false →
      (∀ e, evaluateOperator h left right op ≠ .error (.evaluateError e))
      ∧ ∀ lineNumber,
        evaluateOperator h left right op ≠ throwEvaluateError bitwiseMessage lineNumber) := by
  obtain ⟨leftLine, leftType, leftValue⟩ := left
  obtain ⟨rightLine, rightType, rightValue⟩ := right
  simp only [bitwiseOperators, List.mem_cons, List.mem_singleton, List.not_mem_nil,
    or_false] at hop
  have hint : ∀ a x b y, leftValue = .int a x → rightValue = .int b y →
      ∀ e, evaluateOperator h ⟨leftLine, leftType, leftValue⟩ ⟨rightLine, rightType, rightValue⟩
        op ≠ .error (.evaluateError e) := by
    intro a x b y hl hr e
    subst hl hr
    obtain ⟨r, hr, hne⟩ := bitOperation_int op a x b y
    rcases hop with hop | hop | hop | hop | hop | hop <;> subst hop <;>
      simp only [evaluateOperator, hr] <;> cases r <;> intro heq <;> cases heq <;>
      exact hne e rfl
  constructor
  · intro hfloat
    cases leftValue <;> cases rightValue <;>
      simp only [Numeric.isFloating, or_self, Bool.false_eq_true, or_false, false_or]
        at hfloat <;>
      rcases hop with hop | hop | hop | hop | hop | hop <;> subst hop <;> rfl
  · intro hl hr
    cases leftValue <;> cases rightValue <;>
      simp only [Numeric.isFloating, Bool.true_eq_false] at hl hr
    exact ⟨hint _ _ _ _ rfl rfl, fun lineNumber => hint _ _ _ _ rfl rfl _⟩

theorem C16_bitwise_operator_on_floating_point_witness :
    evaluateOperator exampleHost ⟨7, ⟨.Float, .flt false (.strtod ['1'])⟩⟩
        ⟨1, ⟨.Unsigned32Bit, .int .u32 2⟩⟩ .BitAnd
      = throwEvaluateError bitwiseMessage 7 :=
  (C16_bitwise_operator_on_floating_point exampleHost ⟨7, ⟨.Float, .flt false (.strtod ['1'])⟩⟩
    ⟨1, ⟨.Unsigned32Bit, .int .u32 2⟩⟩ .BitAnd (by decide)).1 (Or.inl rfl)

/-! ## Bitfields: failure and success -/

theorem evaluateMathematicalExpression_node {fuel : Nat} {ev : Evaluator} {st : EvalState}
    {node : ASTNode} {size : LiteralNode}
    (h : evaluateMathematicalExpression fuel ev st node = .ok size) :
    ∃ l left right op, node = .NumericExpression l left right op := by
  cases fuel with
  | zero => simp [evaluateMathematicalExpression] at h
  | succ n =>
    cases node <;> simp only [evaluateMathematicalExpression] at h <;> try cases h
    exact ⟨_, _, _, _, rfl⟩

theorem fieldWidth_some {fuel : Nat} {ev : Evaluator} {st : EvalState} {value : ASTNode}
    (h : (fieldWidth fuel ev st value).isSome = true) :
    ∃ size, evaluateMathematicalExpression fuel ev st value = .ok size
      ∧ Token.isFloatingPoint size.literal.type = false
      ∧ 1 ≤ size.literal.value.toS128 ev.host ∧ size.literal.value.toS128 ev.host ≤ 64
      ∧ fieldWidth fuel ev st value = some (size.literal.value.toS128 ev.host).toNat := by
  unfold fieldWidth at h ⊢
  cases hr : evaluateMathematicalExpression fuel ev st value with
  | error e => rw [hr] at h; cases h
  | ok size =>
    rw [hr] at h
    simp only at h ⊢
    split_ifs at h with h1 h2
    · cases h
    · refine ⟨size, rfl, by simpa using h1, h2.1, h2.2, ?_⟩
      rw [if_neg h1, if_pos h2]
    · cases h

theorem evaluateBitfieldEntries_widths (fuel : Nat) (ev : Evaluator) (st : EvalState)
    (line : Nat) : ∀ (entries : List (String × ASTNode)) (bits : Nat)
      (acc : List (String × Nat)),
      (∀ entry ∈ entries, (fieldWidth fuel ev st entry.2).isSome = true) →
      bits + 64 * entries.length < 2 ^ 64 →
      evaluateBitfieldEntries ev.host (evaluateMathematicalExpression fuel ev st) line entries
          bits acc
        = .ok (bits + totalBits fuel ev st entries, acc ++ fieldWidths fuel ev st entries) := by
  intro entries
  induction entries with
  | nil =>
    intro bits acc _ _
    simp [evaluateBitfieldEntries, totalBits, fieldWidths]
  | cons entry rest ih =>
    intro bits acc hall hlen
    obtain ⟨name, value⟩ := entry
    obtain ⟨size, hsize, hfloat, h1, h64, hw⟩ := fieldWidth_some (hall _ (List.mem_cons_self _ _))
    obtain ⟨l, left, right, op, hnode⟩ := evaluateMathematicalExpression_node hsize
    subst hnode
    have hrange : ¬ (size.literal.value.toS128 ev.host > 64
        ∨ size.literal.value.toS128 ev.host ≤ 0) := by omega
    simp only [List.length_cons] at hlen
    have hbits : toU64 (bits + size.literal.value.toS128 ev.host)
        = bits + (size.literal.value.toS128 ev.host).toNat := by
      unfold toU64
      omega
    have hfield : toU64 (size.literal.value.toS128 ev.host)
        = (size.literal.value.toS128 ev.host).toNat := by
      unfold toU64
      omega
    simp only [evaluateBitfieldEntries, hsize, hfloat, hrange, if_false, Bool.false_eq_true,
      hbits, hfield]
    rw [ih _ _ (fun e he => hall e (List.mem_cons_of_mem _ he)) (by omega)]
    simp only [totalBits, fieldWidths, List.map_cons, List.sum_cons, hw, Option.getD_some,
      List.append_assoc, List.singleton_append, Nat.add_assoc]

theorem evaluateBitfieldEntries_ok (fuel : Nat) (ev : Evaluator) (st : EvalState)
    (line : Nat) : ∀ (entries : List (String × ASTNode)) (bits : Nat)
      (acc : List (String × Nat)) (r : Nat × List (String × Nat)),
      evaluateBitfieldEntries ev.host (evaluateMathematicalExpression fuel ev st) line entries
          bits acc = .ok r →
      ∀ entry ∈ entries, (fieldWidth fuel ev st entry.2).isSome = true := by
  intro entries
  induction entries with
  | nil => intro _ _ _ _ entry hentry; cases hentry
  | cons first rest ih =>
    intro bits acc r h entry hentry
    obtain ⟨name, value⟩ := first
    cases value <;> simp only [evaluateBitfieldEntries, throwEvaluateError] at h <;> try cases h
    rename_i l left right op
    cases hsize : evaluateMathematicalExpression fuel ev st (.NumericExpression l left right op)
      with
    | error e => rw [hsize] at h; cases h
    | ok size =>
      rw [hsize] at h
      simp only at h
      split_ifs at h with h1 h2
      rcases List.mem_cons.mp hentry with e | hmem
      · subst e
        have h3 : 1 ≤ size.literal.value.toS128 ev.host
            ∧ size.literal.value.toS128 ev.host ≤ 64 := by omega
        simp only [fieldWidth, hsize, h1, if_false, Bool.false_eq_true, h3, and_self, if_true,
          Option.isSome_some]
      · exact ih _ _ _ h entry hmem

theorem evaluateBitfieldEntries_first (fuel : Nat) (ev : Evaluator) (st : EvalState)
    (line : Nat) (name : String) (value : ASTNode) (after : List (String × ASTNode))
    (size : LiteralNode)
    (hsize : evaluateMathematicalExpression fuel ev st value = .ok size) :
    ∀ (before : List (String × ASTNode)) (bits : Nat) (acc : List (String × Nat)),
      (∀ entry ∈ before, (fieldWidth fuel ev st entry.2).isSome = true) →
      (Token.isFloatingPoint size.literal.type = true →
        evaluateBitfieldEntries ev.host (evaluateMathematicalExpression fuel ev st) line
            (before ++ (name, value) :: after) bits acc
          = throwEvaluateError "bitfield entry size must be an integer value" line)
      ∧ (Token.isFloatingPoint size.literal.type = false →
        (size.literal.value.toS128 ev.host < 1 ∨ 64 < size.literal.value.toS128 ev.host) →
        evaluateBitfieldEntries ev.host (evaluateMathematicalExpression fuel ev st) line
            (before ++ (name, value) :: after) bits acc
          = throwEvaluateError "bitfield entry must occupy between 1 and 64 bits"
              value.getLineNumber) := by
  intro before
  induction before with
  | nil =>
    intro bits acc _
    obtain ⟨l, left, right, op, hnode⟩ := evaluateMathematicalExpression_node hsize
    subst hnode
    constructor
    · intro hfloat
      simp only [List.nil_append, evaluateBitfieldEntries, hsize, hfloat, if_true]
    · intro hfloat hrange
      have hrange' : size.literal.value.toS128 ev.host > 64
          ∨ size.literal.value.toS128 ev.host ≤ 0 := by omega
      simp only [List.nil_append, evaluateBitfieldEntries, hsize, hfloat, if_false,
        Bool.false_eq_true, hrange', if_true]
  | cons first rest ih =>
    intro bits acc hall
    obtain ⟨firstName, firstValue⟩ := first
    obtain ⟨firstSize, hfirst, hfloat, h1, h64, _⟩ :=
      fieldWidth_some (hall _ (List.mem_cons_self _ _))
    obtain ⟨l, left, right, op, hnode⟩ := evaluateMathematicalExpression_node hfirst
    subst hnode
    have hrange : ¬ (firstSize.literal.value.toS128 ev.host > 64
        ∨ firstSize.literal.value.toS128 ev.host ≤ 0) := by omega
    simp only [List.cons_append, evaluateBitfieldEntries, hfirst, hfloat, hrange, if_false,
      Bool.false_eq_true]
    exact ih _ _ (fun e he => hall e (List.mem_cons_of_mem _ he))

/-- C11: `evaluateBitfield` does not succeed when the size expression of any
entry evaluates to a literal of a floating-point type or to an integer below 1
or above 64, and at the first such entry it throws "bitfield entry size must be
an integer value" or "bitfield entry must occupy between 1 and 64 bits"; when
the size expression of every entry evaluates to an integer from 1 to 64 (and
there are fewer than `2 ^ 57` entries) it returns, at the cursor and without
moving it, a bitfield pattern with the entries in declaration order, each with
its width in bits, whose size in bytes is the total number of bits divided by
8, rounded down, plus 1. -/
theorem C11_bitfield_entries_and_size (fuel : Nat) (ev : Evaluator) (st : EvalState)
    (lineNumber : Nat) (entries : List (String × ASTNode)) :
    (∀ entry ∈ entries, ∀ size,
      evaluateMathematicalExpression fuel ev st entry.2 = .ok size →
      (Token.isFloatingPoint size.literal.type = true
        ∨ size.literal.value.toS128 ev.host < 1 ∨ 64 < size.literal.value.toS128 ev.host) →
      ∀ r, evaluateBitfield fuel ev st (.Bitfield lineNumber entries) ≠ .ok r)
    ∧ (∀ before name value after size, entries = before ++ (name, value) :: after →
      (∀ entry ∈ before, (fieldWidth fuel ev st entry.2).isSome = true) →
      evaluateMathematicalExpression fuel ev st value = .ok size →
      (Token.isFloatingPoint size.literal.type = true →
        evaluateBitfield fuel ev st (.Bitfield lineNumber entries)
          = throwEvaluateError "bitfield entry size must be an integer value" lineNumber)
      ∧ (Token.isFloatingPoint size.literal.type = false →
        (size.literal.value.toS128 ev.host < 1 ∨ 64 < size.literal.value.toS128 ev.host) →
        evaluateBitfield fuel ev st (.Bitfield lineNumber entries)
          = throwEvaluateError "bitfield entry must occupy between 1 and 64 bits"
              value.getLineNumber))
    ∧ ((∀ entry ∈ entries, (fieldWidth fuel ev st entry.2).isSome = true) →
      entries.length < 2 ^ 57 →
      evaluateBitfield fuel ev st (.Bitfield lineNumber entries)
        = .ok (.Bitfield (newAttrs st.currOffset (totalBits fuel ev st entries / 8 + 1))
            (fieldWidths fuel ev st entries), st)) := by
  refine ⟨?_, ?_, ?_⟩
  · intro entry hentry size hsize hbad r hr
    simp only [evaluateBitfield] at hr
    split at hr
    · cases hr
    · rename_i bits entryPatterns hloop
      have hsome := evaluateBitfieldEntries_ok fuel ev st lineNumber entries 0 [] _ hloop
        entry hentry
      obtain ⟨size', hsize', hfloat, h1, h64, _⟩ := fieldWidth_some hsome
      rw [hsize] at hsize'
      cases hsize'
      rcases hbad with hbad | hbad | hbad
      · rw [hfloat] at hbad; cases hbad
      · omega
      · omega
  · intro before name value after size hentries hall hsize
    subst hentries
    have h := evaluateBitfieldEntries_first fuel ev st lineNumber name value after size hsize
      before 0 [] hall
    constructor
    · intro hfloat
      simp only [evaluateBitfield, h.1 hfloat, throwEvaluateError]
    · intro hfloat hrange
      simp only [evaluateBitfield, h.2 hfloat hrange, throwEvaluateError]
  · intro hall hlen
    have h := evaluateBitfieldEntries_widths fuel ev st lineNumber entries 0 [] hall (by omega)
    simp only [evaluateBitfield, h, Nat.zero_add, List.nil_append]

theorem C11_bitfield_entries_and_size_witness :
    evaluateBitfield 3 (exampleEvaluator [0xAB, 0xCD] .little) initialState exampleBitfield
      = .ok (.Bitfield (newAttrs 0 2) [("a", 3), ("b", 5)], initialState) :=
  ((C11_bitfield_entries_and_size 3 (exampleEvaluator [0xAB, 0xCD] .little) initialState 1
    [("a", literalExpression 3), ("b", literalExpression 5)]).2.2 (by decide)
      (by decide)).trans rfl

/-! ## Variables of built-in type -/

@[simp] theorem getVariableName_setEndian (p : PatternData) (e : Endian) :
    (p.setEndian e).getVariableName = p.getVariableName := by
  simp [PatternData.getVariableName, PatternData.setEndian]

@[simp] theorem getVariableName_setVariableName (p : PatternData) (name : Name) :
    (p.setVariableName name).getVariableName = name := by
  simp [PatternData.getVariableName, PatternData.setVariableName]

theorem evaluateBuiltinType_placeable (st : EvalState) (l : Nat) {t : ValueType}
    (h : placeable t = true) :
    ∃ p, evaluateBuiltinType st l t
      = .ok (p, { st with currOffset := u64 (st.currOffset + Token.getTypeSize t) }) := by
  cases t <;> first | exact ⟨_, rfl⟩ | cases h

theorem namedBuiltin_cases {type : ASTNode} {builtin : ValueType}
    (h : namedBuiltin type = some builtin) :
    placeable builtin = true
    ∧ ((∃ l, type = .BuiltinType l builtin)
      ∨ ∃ l name l' endian, type = .TypeDecl l name (.BuiltinType l' builtin) endian) := by
  cases type <;> simp only [namedBuiltin] at h <;> try cases h
  · split_ifs at h with hp
    cases h
    exact ⟨hp, Or.inl ⟨_, rfl⟩⟩
  · rename_i l name inner endian
    cases inner <;> simp only [namedBuiltin] at h <;> try cases h
    split_ifs at h with hp
    cases h
    exact ⟨hp, Or.inr ⟨_, _, _, _, rfl⟩⟩

theorem evaluateVariable_placed (fuel : Nat) (ev : Evaluator) (st st1 : EvalState)
    (lineNumber : Nat) (name : String) (type : ASTNode) (placementOffset : Option ASTNode)
    (builtin : ValueType) (htype : namedBuiltin type = some builtin)
    (hactual : ev.provider.actualSize + 16 ≤ 2 ^ 64)
    (hplacement : evaluatePlacement (fuel + 1) ev st placementOffset lineNumber = .ok st1) :
    (ev.provider.actualSize ≤ st1.currOffset →
      evaluateVariable (fuel + 2) ev st (.VariableDecl lineNumber name type placementOffset)
        = throwEvaluateError "array exceeds size of file" lineNumber)
    ∧ (st1.currOffset < ev.provider.actualSize →
      ∃ pattern st', evaluateVariable (fuel + 2) ev st
          (.VariableDecl lineNumber name type placementOffset) = .ok (pattern, st')
        ∧ pattern.getOffset = st1.currOffset ∧ pattern.getSize = Token.getTypeSize builtin
        ∧ pattern.getVariableName = name
        ∧ st'.currOffset = st1.currOffset + Token.getTypeSize builtin) := by
  obtain ⟨hp, hcases⟩ := namedBuiltin_cases htype
  constructor
  · intro hc
    simp only [evaluateVariable, hplacement, ge_iff_le, hc, if_true]
  · intro hc
    have hnot : ¬ st1.currOffset ≥ ev.provider.actualSize := by omega
    have hle := getTypeSize_le builtin
    rcases hcases with ⟨l, e⟩ | ⟨l, typeName, l', endian, e⟩
    · subst e
      obtain ⟨p, hp'⟩ := evaluateBuiltinType_placeable st1 l hp
      obtain ⟨h1, h2, -, -⟩ := evaluateBuiltinType_plain hp'
      simp only [evaluateVariable, hplacement, hnot, if_false, hp']
      refine ⟨_, _, rfl, ?_, ?_, ?_, ?_⟩
      · simp [h1]
      · simp [h2]
      · simp
      · exact u64_of_lt (by omega)
    · subst e
      obtain ⟨p, hp'⟩ := evaluateBuiltinType_placeable
        (if st1.currEndian.isSome = true then st1 else { st1 with currEndian := endian }) l' hp
      obtain ⟨h1, h2, -, -⟩ := evaluateBuiltinType_plain hp'
      have hst : (if st1.currEndian.isSome = true then st1
          else { st1 with currEndian := endian }).currOffset = st1.currOffset := by
        split_ifs <;> rfl
      simp only [evaluateVariable, hplacement, hnot, if_false, evaluateType, hp']
      refine ⟨_, _, rfl, ?_, ?_, ?_, ?_⟩
      · simp [h1, hst]
      · simp [h2]
      · simp
      · show u64 (_ + _) = _
        rw [hst]
        exact u64_of_lt (by omega)

/-- C14: for a variable of a built-in type that is unsigned, signed, floating
point or character, of width `w`, over a byte source whose size is at most
`2 ^ 64 - 16`: when the placement offset evaluates to a literal of a
floating-point type, `evaluateVariable` throws "placement offset must be an
integer value"; otherwise, with `c` the value of the placement offset as a
`u64`, or the cursor when there is no placement offset, it throws "array exceeds
size of file" when `c >= actual_size`, and when `c < actual_size` it returns a
pattern with offset `c`, size `w` and the name of the variable and leaves the
cursor at `c + w`. -/
theorem C14_builtin_variable (fuel : Nat) (ev : Evaluator) (st : EvalState)
    (lineNumber : Nat) (name : String) (type : ASTNode) (placementOffset : Option ASTNode)
    (builtin : ValueType) (htype : namedBuiltin type = some builtin)
    (hactual : ev.provider.actualSize + 16 ≤ 2 ^ 64) :
    (∀ l left right op offset, placementOffset = some (.NumericExpression l left right op) →
      evaluateMathematicalExpression (fuel + 1) ev st (.NumericExpression l left right op)
        = .ok offset →
      Token.isFloatingPoint offset.literal.type = true →
      evaluateVariable (fuel + 2) ev st (.VariableDecl lineNumber name type placementOffset)
        = throwEvaluateError "placement offset must be an integer value" lineNumber)
    ∧ (∀ c, ((placementOffset = none ∧ c = st.currOffset)
        ∨ ∃ l left right op offset, placementOffset = some (.NumericExpression l left right op)
          ∧ evaluateMathematicalExpression (fuel + 1) ev st (.NumericExpression l left right op)
            = .ok offset
          ∧ Token.isFloatingPoint offset.literal.type = false
          ∧ c = offset.literal.value.toU64 ev.host) →
      (ev.provider.actualSize ≤ c →
        evaluateVariable (fuel + 2) ev st (.VariableDecl lineNumber name type placementOffset)
          = throwEvaluateError "array exceeds size of file" lineNumber)
      ∧ (c < ev.provider.actualSize →
        ∃ pattern st', evaluateVariable (fuel + 2) ev st
            (.VariableDecl lineNumber name type placementOffset) = .ok (pattern, st')
          ∧ pattern.getOffset = c ∧ pattern.getSize = Token.getTypeSize builtin
          ∧ pattern.getVariableName = name
          ∧ st'.currOffset = c + Token.getTypeSize builtin)) := by
  constructor
  · intro l left right op offset hplacement hoffset hfloat
    subst hplacement
    simp only [evaluateVariable, evaluatePlacement, hoffset, hfloat, if_true, throwEvaluateError]
  · intro c hc
    have hplacement : evaluatePlacement (fuel + 1) ev st placementOffset lineNumber
        = .ok { st with currOffset := c } := by
      rcases hc with ⟨hnone, hc⟩ | ⟨l, left, right, op, offset, hsome, hoffset, hfloat, hc⟩
      · subst hnone hc
        rfl
      · subst hsome hc
        simp only [evaluatePlacement, hoffset, hfloat, if_false, Bool.false_eq_true]
    exact evaluateVariable_placed fuel ev st { st with currOffset := c } lineNumber name type
      placementOffset builtin htype hactual hplacement

theorem C14_builtin_variable_witness :
    ∃ pattern st', evaluateVariable 3 (exampleEvaluator [1, 2, 3, 4] .little) initialState
        examplePlacedVariable = .ok (pattern, st')
      ∧ pattern.getOffset = 2 ∧ pattern.getSize = 2 ∧ pattern.getVariableName = "value"
      ∧ st'.currOffset = 4 :=
  ((C14_builtin_variable 1 (exampleEvaluator [1, 2, 3, 4] .little) initialState 1 "value"
    (builtinType .Unsigned16Bit) (some (literalExpression 2)) .Unsigned16Bit rfl
    (by decide)).2 2
    (Or.inr ⟨1, _, _, .Plus, ⟨1, ⟨.Signed32Bit, .int .s32 2⟩⟩, rfl, rfl, rfl, rfl⟩)).2
    (by decide)

/-! ## Pointers -/

theorem evaluatePointer_result {fuel : Nat} {ev : Evaluator} {st st' : EvalState}
    {lineNumber : Nat} {name : String} {type sizeType : ASTNode}
    {placementOffset : Option ASTNode} {pattern : PatternData}
    (hok : evaluatePointer (fuel + 1) ev st
      (.PointerVariableDecl lineNumber name type sizeType placementOffset) = .ok (pattern, st')) :
    ∃ (pointerOffset : Int) (st1 : EvalState) (l : Nat) (builtin : ValueType)
      (st2 st3 : EvalState) (pointee : PatternData),
      evaluatePointerPlacement fuel ev st placementOffset lineNumber = .ok (pointerOffset, st1)
      ∧ sizeType = .BuiltinType l builtin
      ∧ evaluateType fuel ev { st2 with currOffset := u64 (loadU128 ev.native
          (ev.provider.read (toU64 pointerOffset) (Token.getTypeSize builtin))) } type
        = .ok (pointee, st3)
      ∧ pattern = .Pointer (newAttrs (toU64 pointerOffset) (Token.getTypeSize builtin)) pointee
      ∧ st'.currOffset = toU64 (pointerOffset + Token.getTypeSize builtin) := by
  simp only [evaluatePointer] at hok
  split at hok
  · cases hok
  · rename_i pointerOffset st1 hplacement
    split at hok
    · rename_i l builtin
      split at hok
      · cases hok
      · rename_i sizePattern st2 hsize
        have hwidth := (evaluateBuiltinType_plain hsize).2.1
        split at hok
        · split at hok
          · cases hok
          · rename_i pointee st3 hpointee
            cases hok
            rw [hwidth] at hpointee
            exact ⟨pointerOffset, st1, l, builtin, st2, st3, pointee, hplacement, rfl, hpointee,
              by rw [hwidth], by simp only [hwidth]⟩
        · cases hok
    · cases hok

theorem toU64_lt (v : Int) : toU64 v < 2 ^ 64 := by
  unfold toU64
  omega

theorem evaluatePointer_placed {fuel : Nat} {ev : Evaluator} {st st' : EvalState}
    {lineNumber l : Nat} {name : String} {type : ASTNode} {builtin : ValueType}
    {placementOffset : Option ASTNode} {pattern : PatternData}
    (hok : evaluatePointer (fuel + 1) ev st
      (.PointerVariableDecl lineNumber name type (.BuiltinType l builtin) placementOffset)
        = .ok (pattern, st'))
    (p : Nat) (hcursor : st.currOffset < 2 ^ 64)
    (hp : (placementOffset = none ∧ p = st.currOffset)
      ∨ ∃ l' left right op offset,
        placementOffset = some (.NumericExpression l' left right op)
        ∧ evaluateMathematicalExpression fuel ev st (.NumericExpression l' left right op)
          = .ok offset
        ∧ p = toU64 (offset.literal.value.toS128 ev.host)) :
    ∃ pointee s s', pattern = .Pointer (newAttrs p (Token.getTypeSize builtin)) pointee
      ∧ st'.currOffset = (p + Token.getTypeSize builtin) % 2 ^ 64
      ∧ evaluateType fuel ev s type = .ok (pointee, s')
      ∧ s.currOffset = u64 (loadU128 ev.native
          (ev.provider.read p (Token.getTypeSize builtin))) := by
  obtain ⟨pointerOffset, st1, l₁, builtin₁, st2, st3, pointee, hplacement, hsize, hpointee,
    hpattern, hst'⟩ := evaluatePointer_result hok
  cases hsize
  have hoffset : toU64 pointerOffset = p := by
    rcases hp with ⟨hnone, hp⟩ | ⟨l', left, right, op, offset, hsome, hvalue, hp⟩
    · subst hnone hp
      simp only [evaluatePointerPlacement, Except.ok.injEq, Prod.mk.injEq] at hplacement
      rw [← hplacement.1]
      unfold toU64
      omega
    · subst hsome hp
      simp only [evaluatePointerPlacement, hvalue] at hplacement
      split_ifs at hplacement
      · cases hplacement
      · simp only [Except.ok.injEq, Prod.mk.injEq] at hplacement
        rw [← hplacement.1]
  refine ⟨pointee, _, st3, ?_, ?_, hpointee, ?_⟩
  · rw [hpattern, hoffset]
  · rw [hst', ← hoffset]
    unfold toU64
    omega
  · rw [hoffset]

/-- C12 (what the code does instead): the offset of the pointee of a pointer
variable that evaluates successfully is the value of a zero-initialised `u128`
whose first `W` bytes are the `W` bytes of the source at the offset of the
pointer, in the byte order of the host (narrowed to a `u64`): neither the
default endianness nor an endianness of the declaration enters, the bytes are
never swapped. -/
theorem C12_pointer_is_read_in_host_order (fuel : Nat) (ev : Evaluator) (st st' : EvalState)
    (lineNumber l : Nat) (name : String) (type : ASTNode) (builtin : ValueType)
    (placementOffset : Option ASTNode) (pattern : PatternData)
    (hok : evaluatePointer (fuel + 1) ev st
      (.PointerVariableDecl lineNumber name type (.BuiltinType l builtin) placementOffset)
        = .ok (pattern, st'))
    (p : Nat) (hcursor : st.currOffset < 2 ^ 64)
    (hp : (placementOffset = none ∧ p = st.currOffset)
      ∨ ∃ l' left right op offset,
        placementOffset = some (.NumericExpression l' left right op)
        ∧ evaluateMathematicalExpression fuel ev st (.NumericExpression l' left right op)
          = .ok offset
        ∧ p = toU64 (offset.literal.value.toS128 ev.host)) :
    ∃ pointee, pattern = .Pointer (newAttrs p (Token.getTypeSize builtin)) pointee
      ∧ pointee.getOffset = u64 (loadU128 ev.native
          (ev.provider.read p (Token.getTypeSize builtin))) := by
  obtain ⟨pointee, s, s', hpattern, -, hpointee, hs⟩ := evaluatePointer_placed hok p hcursor hp
  exact ⟨pointee, hpattern, (evaluateType_offset _ _ _ _ _ _ hpointee).trans hs⟩

/-- C12, witness (the failing input): with the default endianness big and the
bytes `00 00 00 04 42`, `u8 *p : u32 @ 0;` on a little-endian host places the
pointee at offset `0x04000000`, not at offset 4. -/
theorem C12_pointer_is_read_in_host_order_witness :
    (∃ st', evaluatePointer 3 (exampleEvaluator [0, 0, 0, 4, 0x42] .big) initialState
        examplePointer
      = .ok (.Pointer ⟨0, 4, "", "", none⟩ (.Unsigned ⟨0x04000000, 1, "u8", "", none⟩), st'))
    ∧ ∃ pointee, PatternData.Pointer ⟨0, 4, "", "", none⟩
          (.Unsigned ⟨0x04000000, 1, "u8", "", none⟩)
        = .Pointer (newAttrs 0 (Token.getTypeSize .Unsigned32Bit)) pointee
      ∧ pointee.getOffset = u64 (loadU128 .little
          ((bytesProvider [0, 0, 0, 4, 0x42]).read 0 (Token.getTypeSize .Unsigned32Bit))) :=
  ⟨⟨_, eq_of_producesPattern initialState (by decide!)⟩,
    C12_pointer_is_read_in_host_order 2 (exampleEvaluator [0, 0, 0, 4, 0x42] .big)
      initialState _ 1 1 "p" (builtinType .Unsigned8Bit) .Unsigned32Bit
      (some (literalExpression 0)) _ (eq_of_producesPattern initialState (by decide!)) 0
      (by decide)
      (Or.inr ⟨1, _, _, .Plus, ⟨1, ⟨.Signed32Bit, .int .s32 0⟩⟩, rfl, rfl, rfl⟩)⟩

/-- C13: after a pointer variable whose size type is a built-in type of width
`W` has been evaluated successfully, with `p` its own offset (the value of the
placement offset as a `u64` when there is one, else the cursor on entry) and
`p + W` below `2 ^ 64`, the cursor is `p + W`, wherever the pointee was placed,
and the pattern is a pointer pattern with offset `p` and size `W` that holds
the pattern of the pointed-at type as its pointee. -/
theorem C13_pointer_pattern_and_cursor (fuel : Nat) (ev : Evaluator) (st st' : EvalState)
    (lineNumber l : Nat) (name : String) (type : ASTNode) (builtin : ValueType)
    (placementOffset : Option ASTNode) (pattern : PatternData)
    (hok : evaluatePointer (fuel + 1) ev st
      (.PointerVariableDecl lineNumber name type (.BuiltinType l builtin) placementOffset)
        = .ok (pattern, st'))
    (p : Nat) (hcursor : st.currOffset < 2 ^ 64)
    (hp : (placementOffset = none ∧ p = st.currOffset)
      ∨ ∃ l' left right op offset,
        placementOffset = some (.NumericExpression l' left right op)
        ∧ evaluateMathematicalExpression fuel ev st (.NumericExpression l' left right op)
          = .ok offset
        ∧ p = toU64 (offset.literal.value.toS128 ev.host))
    (hwrap : p + Token.getTypeSize builtin < 2 ^ 64) :
    st'.currOffset = p + Token.getTypeSize builtin
    ∧ ∃ pointee, pattern = .Pointer (newAttrs p (Token.getTypeSize builtin)) pointee
      ∧ ∃ s s', evaluateType fuel ev s type = .ok (pointee, s') := by
  obtain ⟨pointee, s, s', hpattern, hst', hpointee, -⟩ := evaluatePointer_placed hok p hcursor hp
  exact ⟨by rw [hst', Nat.mod_eq_of_lt hwrap], pointee, hpattern, s, s', hpointee⟩

/-- C13, witness: `u8 *p : u32 @ 0;` on the bytes `04 00 00 00 42` is a pointer
at offset 0 of width 4 whose pointee is at offset 4 and has size 1, and the
cursor is 4 afterwards. -/
theorem C13_pointer_pattern_and_cursor_witness :
    ∃ st', evaluatePointer 3 (exampleEvaluator [4, 0, 0, 0, 0x42] .little) initialState
        examplePointer
      = .ok (.Pointer ⟨0, 4, "", "", none⟩ (.Unsigned ⟨4, 1, "u8", "", none⟩), st')
    ∧ st'.currOffset = 4 :=
  ⟨_, eq_of_producesPattern initialState (by decide!),
    (C13_pointer_pattern_and_cursor 2 (exampleEvaluator [4, 0, 0, 0, 0x42] .little)
      initialState _ 1 1 "p" (builtinType .Unsigned8Bit) .Unsigned32Bit
      (some (literalExpression 0))
      (.Pointer ⟨0, 4, "", "", none⟩ (.Unsigned ⟨4, 1, "u8", "", none⟩))
      (eq_of_producesPattern initialState (by decide!)) 0 (by decide)
      (Or.inr ⟨1, _, _, .Plus, ⟨1, ⟨.Signed32Bit, .int .s32 0⟩⟩, rfl, rfl, rfl⟩)
      (by decide)).1⟩

/-! ## A NUL byte in the source -/

/-- C21 (the code at the failing input): lexing the source that is a single
quote fails with "invalid character literal", while lexing the same source
followed by a NUL byte and a further quote succeeds with a character literal
holding the NUL byte: the branch for character literals reads on past the NUL
byte, which ends the input only when the loop meets it at the start of a
round. -/
theorem C21_nul_inside_character_literal (fuel : Nat) :
    Lexer.lex (fuel + 1) exampleQuote = some (.error ⟨"invalid character literal", 1⟩)
    ∧ Lexer.lex (fuel + 2) exampleQuoteNulQuote
      = some (.ok [⟨.Integer ⟨.Character, .int .chr 0⟩, 1⟩, ⟨.Separator .EndOfProgram, 1⟩]) := by
  constructor
  · exact lexLoop_of_scan_failed fuel ⟨0, 1, []⟩ (by decide!)
  · have h1 : lexStep exampleQuoteNulQuote.toList ⟨0, 1, []⟩
        = .next ⟨3, 1, [] ++ [⟨.Integer ⟨.Character, .int .chr 0⟩, 1⟩]⟩ :=
      lexStep_of_scan_some ⟨0, 1, []⟩ (by decide!)
    have h2 : scan exampleQuoteNulQuote.toList 3 1 = .leave := by decide!
    have h3 : lexLoop exampleQuoteNulQuote.toList (fuel + 1)
        ⟨3, 1, [] ++ [⟨.Integer ⟨.Character, .int .chr 0⟩, 1⟩]⟩
        = some (.ok [⟨.Integer ⟨.Character, .int .chr 0⟩, 1⟩,
            ⟨.Separator .EndOfProgram, 1⟩]) := by
      rw [lexLoop]
      unfold lexStep
      rw [h2]
      rfl
    exact (lexLoop_next h1).trans h3

/-! ## R-values -/

/-- C22 (what the code does): with the innermost member list `currMembers`, an
r-value path that ends at an unsigned pattern of size 1, 2, 4, 8 or 16
evaluates to a literal of the unsigned type of that width whose value is the
bytes of the source at the offset of the pattern decoded in the current
endianness; a path that ends at a signed pattern does not evaluate, because the
branch reads the size through the null pointer `unsignedPattern`; and a path
whose first element names no member of the list throws "could not find
identifier". -/
theorem C22_rvalue_of_integer_member (ev : Evaluator) (st : EvalState) (lineNumber : Nat)
    (currMembers : List PatternData) (outer : List (List PatternData))
    (hst : st.currMembers = currMembers :: outer) :
    (∀ path a type kind, walkPath lineNumber path currMembers none = .ok (some (.Unsigned a)) →
      unsignedOfSize a.size = some (type, kind) →
      evaluateRValue ev st lineNumber path
        = .ok ⟨1, ⟨type, .int kind
            (decode (getCurrentEndian ev st) (ev.provider.read a.offset a.size) : Nat)⟩⟩)
    ∧ (∀ path a, walkPath lineNumber path currMembers none = .ok (some (.Signed a)) →
      evaluateRValue ev st lineNumber path = .error .undefinedBehaviour)
    ∧ (∀ name rest,
      currMembers.find? (fun member => member.getVariableName == name) = none →
      evaluateRValue ev st lineNumber (name :: rest)
        = throwEvaluateError ("could not find identifier '" ++ name ++ "'") lineNumber) := by
  refine ⟨?_, ?_, ?_⟩
  · intro path a type kind hwalk hsize
    simp only [evaluateRValue, hst, hwalk, readUnsignedValue]
    generalize a.size = n at hsize
    unfold unsignedOfSize at hsize
    split at hsize <;> cases hsize <;> rfl
  · intro path a hwalk
    simp only [evaluateRValue, hst, hwalk]
  · intro name rest hfind
    simp only [evaluateRValue, hst, walkPath, hfind, throwEvaluateError]

theorem C22_rvalue_of_integer_member_witness :
    evaluateRValue (exampleEvaluator [1, 2, 3, 4] .big) exampleMemberState 7 ["a"]
      = .error .undefinedBehaviour :=
  (C22_rvalue_of_integer_member (exampleEvaluator [1, 2, 3, 4] .big) exampleMemberState 7 _ []
    rfl).2.1 ["a"] ⟨0, 1, "s8", "a", some .little⟩ rfl

/-- C23 (as amended): an r-value path that ends at a pattern that is not an
unsigned, signed or enum pattern (a character or floating-point pattern as much
as a struct, union, array, string, padding, pointer or bitfield pattern) throws
"tried to use non-integer value in numeric expression". -/
theorem C23_rvalue_of_non_integer_member (ev : Evaluator) (st : EvalState) (lineNumber : Nat)
    (path : List String) (currMembers : List PatternData) (outer : List (List PatternData))
    (pattern : PatternData) (hst : st.currMembers = currMembers :: outer)
    (hwalk : walkPath lineNumber path currMembers none = .ok (some pattern))
    (hpattern : isIntegerPattern pattern = false) :
    evaluateRValue ev st lineNumber path
      = throwEvaluateError "tried to use non-integer value in numeric expression"
          lineNumber := by
  cases pattern <;> first | (cases hpattern; done) | simp only [evaluateRValue, hst, hwalk]

theorem C23_rvalue_of_non_integer_member_witness :
    evaluateRValue (exampleEvaluator [1, 2, 3, 4] .big) exampleMemberState 7 ["c"]
      = throwEvaluateError "tried to use non-integer value in numeric expression" 7 :=
  C23_rvalue_of_non_integer_member (exampleEvaluator [1, 2, 3, 4] .big) exampleMemberState 7
    ["c"] _ [] (.Character ⟨1, 1, "char", "c", some .little⟩) rfl rfl rfl

/-- C23, counterexample: in a struct whose members so far include `char c`, the
r-value `c` does not evaluate to a character literal: it is the evaluation
error "tried to use non-integer value in numeric expression". -/
theorem C23_counterexample :
    walkPath 7 ["c"] [.Signed ⟨0, 1, "s8", "a", some .little⟩,
        .Character ⟨1, 1, "char", "c", some .little⟩,
        .Unsigned ⟨2, 2, "u16", "u", some .little⟩] none
      = .ok (some (.Character ⟨1, 1, "char", "c", some .little⟩))
    ∧ evaluateRValue (exampleEvaluator [1, 2, 3, 4] .big) exampleMemberState 7 ["c"]
      = .error (.evaluateError
          ⟨"tried to use non-integer value in numeric expression", 7⟩) :=
  ⟨rfl, rfl⟩

/-! ## Scope resolution -/

/-- C24: scope resolution of a two-element path `[T, e]` is the evaluation of
the expression of the entry `e` when `T` names a declared type that is an enum
with an entry `e`; it throws "failed to find identifier" when `T` names no
declared type, when `T` names a type that is not an enum, when the enum has no
entry `e`, and when the path has only one element. -/
theorem C24_scope_resolution (fuel : Nat) (ev : Evaluator) (st : EvalState) (lineNumber : Nat)
    (T e : String) :
    (∀ l entries underlying expression, st.types.lookup T = some (.Enum l entries underlying) →
      entries.lookup e = some expression →
      evaluateScopeResolution (fuel + 1) ev st (.ScopeResolution lineNumber [T, e])
        = evaluateMathematicalExpression fuel ev st expression)
    ∧ (st.types.lookup T = none →
      evaluateScopeResolution (fuel + 1) ev st (.ScopeResolution lineNumber [T, e])
        = throwEvaluateError "failed to find identifier" lineNumber)
    ∧ (∀ type, st.types.lookup T = some type → (∀ l entries underlying,
        type ≠ .Enum l entries underlying) →
      evaluateScopeResolution (fuel + 1) ev st (.ScopeResolution lineNumber [T, e])
        = throwEvaluateError "failed to find identifier" lineNumber)
    ∧ (∀ l entries underlying, st.types.lookup T = some (.Enum l entries underlying) →
      entries.lookup e = none →
      evaluateScopeResolution (fuel + 1) ev st (.ScopeResolution lineNumber [T, e])
        = throwEvaluateError "failed to find identifier" lineNumber)
    ∧ evaluateScopeResolution (fuel + 1) ev st (.ScopeResolution lineNumber [T])
      = throwEvaluateError "failed to find identifier" lineNumber := by
  refine ⟨?_, ?_, ?_, ?_, ?_⟩
  · intro l entries underlying expression hT he
    simp only [evaluateScopeResolution, resolveScope, hT, he]
  · intro hT
    simp only [evaluateScopeResolution, resolveScope, hT]
  · intro type hT hne
    cases type <;> first
      | exact absurd rfl (hne _ _ _)
      | simp only [evaluateScopeResolution, resolveScope, hT]
  · intro l entries underlying hT he
    simp only [evaluateScopeResolution, resolveScope, hT, he]
  · cases hT : st.types.lookup T with
    | none => simp only [evaluateScopeResolution, resolveScope, hT]
    | some type => simp only [evaluateScopeResolution, resolveScope, hT]

theorem C24_scope_resolution_witness :
    evaluateScopeResolution 4 (exampleEvaluator [1] .little) exampleEnumState
        (.ScopeResolution 1 ["E", "A"])
      = .ok ⟨1, ⟨.Signed32Bit, .int .s32 3⟩⟩ :=
  ((C24_scope_resolution 3 (exampleEvaluator [1] .little) exampleEnumState 1 "E" "A").1
    1 _ _ _ rfl rfl).trans (by decide)

/-! ## Conditional members -/

theorem bodyLoop_eq_inlineBody
    (f : EvalState → ASTNode → Except Stop (List PatternData × EvalState)) :
    ∀ (body : List ASTNode) (patterns : List PatternData) (st : EvalState),
      bodyLoop f body patterns st
        = match inlineBody f body st with
          | .error e => .error e
          | .ok (bodyPatterns, st') => .ok (patterns ++ bodyPatterns, st') := by
  intro body
  induction body with
  | nil => intro patterns st; simp [bodyLoop, inlineBody]
  | cons statement rest ih =>
    intro patterns st
    simp only [bodyLoop, inlineBody]
    cases f st statement with
    | error e => rfl
    | ok v =>
      obtain ⟨statementPatterns, st1⟩ := v
      simp only [ih]
      cases inlineBody f rest st1 with
      | error e => rfl
      | ok w =>
        obtain ⟨restPatterns, st2⟩ := w
        simp only [List.append_assoc]

/-- C25: a conditional member whose condition evaluates to a literal that holds
a non-zero value evaluates to exactly the patterns of the statements of its
true body, in order, each statement evaluated in the state the one before it has
left, and otherwise to exactly those of its false body; the body that is not
chosen does not enter the result (patterns, error or cursor) at all: the result
is the same with any other statements in its place. -/
theorem C25_conditional_member (fuel : Nat) (ev : Evaluator) (st : EvalState)
    (lineNumber : Nat) (condition : ASTNode) (trueBody falseBody : List ASTNode)
    (value : LiteralNode)
    (hcondition : evaluateMathematicalExpression fuel ev { st with currEndian := none }
      condition = .ok value) :
    (value.literal.value.nonZero ev.host = true →
      evaluateMember (fuel + 1) ev st
          (.ConditionalStatement lineNumber condition trueBody falseBody)
        = inlineBody (evaluateMember fuel ev) trueBody { st with currEndian := none }
      ∧ ∀ other, evaluateMember (fuel + 1) ev st
          (.ConditionalStatement lineNumber condition trueBody other)
        = evaluateMember (fuel + 1) ev st
          (.ConditionalStatement lineNumber condition trueBody falseBody))
    ∧ (value.literal.value.nonZero ev.host = false →
      evaluateMember (fuel + 1) ev st
          (.ConditionalStatement lineNumber condition trueBody falseBody)
        = inlineBody (evaluateMember fuel ev) falseBody { st with currEndian := none }
      ∧ ∀ other, evaluateMember (fuel + 1) ev st
          (.ConditionalStatement lineNumber condition other falseBody)
        = evaluateMember (fuel + 1) ev st
          (.ConditionalStatement lineNumber condition trueBody falseBody)) := by
  have hinline : ∀ body s, bodyLoop (evaluateMember fuel ev) body [] s
      = inlineBody (evaluateMember fuel ev) body s := by
    intro body s
    rw [bodyLoop_eq_inlineBody]
    cases inlineBody (evaluateMember fuel ev) body s with
    | error e => rfl
    | ok v => simp
  constructor
  · intro hvalue
    constructor
    · simp only [evaluateMember, hcondition, hvalue, if_true, hinline]
    · intro other
      simp only [evaluateMember, hcondition, hvalue, if_true]
  · intro hvalue
    constructor
    · simp only [evaluateMember, hcondition, hvalue, hinline, if_false, Bool.false_eq_true]
    · intro other
      simp only [evaluateMember, hcondition, hvalue, if_false, Bool.false_eq_true]

theorem C25_conditional_member_witness :
    evaluateMember 4 (exampleEvaluator [1, 2, 3] .little) initialState exampleConditional
      = .ok ([.Unsigned ⟨0, 1, "u8", "a", some .little⟩],
          { initialState with currOffset := 1 }) :=
  ((C25_conditional_member 3 (exampleEvaluator [1, 2, 3] .little) initialState 1
    (literalExpression 1) [.VariableDecl 1 "a" (builtinType .Unsigned8Bit) none]
    [.VariableDecl 1 "b" (builtinType .Unsigned16Bit) none] ⟨1, ⟨.Signed32Bit, .int .s32 1⟩⟩
    rfl).1 rfl).1.trans rfl

/-! ## The type name of a named type -/

@[simp] theorem getTypeName_setTypeName (p : PatternData) (name : Name) :
    (p.setTypeName name).getTypeName = name := by
  simp [PatternData.getTypeName, PatternData.setTypeName]

theorem evaluateBuiltinType_typeName {st st' : EvalState} {l : Nat} {t : ValueType}
    {p : PatternData} (h : evaluateBuiltinType st l t = .ok (p, st')) :
    p.getTypeName = Token.getTypeName t := by
  unfold evaluateBuiltinType at h
  simp only at h
  split at h
  · cases h
  · cases h
    simp

theorem stamp_typeName {name : String} {r : Except Stop (PatternData × EvalState)}
    {p : PatternData} {st' : EvalState} (hname : name ≠ "")
    (h : (match r with
      | .error e => .error e
      | .ok (pattern, st) =>
        Except.ok (if name ≠ "" then pattern.setTypeName name else pattern, st))
        = Except.ok (p, st')) :
    p.getTypeName = name := by
  cases r with
  | error e => cases h
  | ok v =>
    obtain ⟨q, s⟩ := v
    simp only [Except.ok.injEq, Prod.mk.injEq] at h
    rw [← h.1, if_pos hname]
    simp

/-- C27 (what the code does): the pattern of a type declaration with a
non-empty name carries that name as its type name when the inner type is a
struct, a union, an enum, a bitfield or a further type declaration; when the
inner type is directly a built-in type the pattern is returned at once and
carries the name of the built-in type instead. -/
theorem C27_type_name_of_named_type (fuel : Nat) (ev : Evaluator) (st st' : EvalState)
    (lineNumber : Nat) (name : String) (inner : ASTNode) (endian : Option Endian)
    (pattern : PatternData) (hname : name ≠ "")
    (hok : evaluateType (fuel + 1) ev st (.TypeDecl lineNumber name inner endian)
      = .ok (pattern, st')) :
    ((∀ l builtin, inner ≠ .BuiltinType l builtin) → pattern.getTypeName = name)
    ∧ (∀ l builtin, inner = .BuiltinType l builtin →
      pattern.getTypeName = Token.getTypeName builtin) := by
  simp only [evaluateType] at hok
  constructor
  · intro hinner
    split at hok
    · exact absurd rfl (hinner _ _)
    · exact stamp_typeName hname hok
    · exact stamp_typeName hname hok
    · exact stamp_typeName hname hok
    · exact stamp_typeName hname hok
    · exact stamp_typeName hname hok
    · cases hok
  · intro l builtin hinner
    subst hinner
    exact evaluateBuiltinType_typeName hok

/-- C27, witness (the failing input): `using MyInt = u32; MyInt x @ 0;` yields
a pattern with the type name `u32`, not `MyInt`. -/
theorem C27_type_name_of_named_type_witness :
    (exampleEvaluator [1, 2, 3, 4] .little).evaluate 10 initialState exampleUsing
      = .ok (.ok [.Unsigned ⟨0, 4, "u32", "x", some .little⟩])
    ∧ (PatternData.Unsigned ⟨0, 4, "u32", "", none⟩).getTypeName
      = Token.getTypeName .Unsigned32Bit :=
  ⟨eq_of_returnsPatterns (by decide!),
    (C27_type_name_of_named_type 1 (exampleEvaluator [1, 2, 3, 4] .little) initialState
      { initialState with currOffset := 4 } 1 "MyInt" (.BuiltinType 1 .Unsigned32Bit) none
      (.Unsigned ⟨0, 4, "u32", "", none⟩) (by decide) rfl).2 1 .Unsigned32Bit rfl⟩

/-! ## The members of a union -/

theorem evaluateVariable_unplaced_offset {fuel : Nat} {ev : Evaluator} {st st' : EvalState}
    {l : Nat} {name : String} {type : ASTNode} {p : PatternData}
    (h : evaluateVariable fuel ev st (.VariableDecl l name type none) = .ok (p, st')) :
    p.getOffset = st.currOffset := by
  cases fuel with
  | zero => simp [evaluateVariable] at h
  | succ n =>
    simp only [evaluateVariable, evaluatePlacement] at h
    split_ifs at h
    · cases h
    split at h
    · cases h
    · rename_i q s hq
      cases h
      simp only [getOffset_setEndian, getOffset_setVariableName]
      split at hq
      · exact evaluateType_offset _ _ _ _ _ _ hq
      · exact evaluateBuiltinType_offset hq
      · cases hq

theorem unionLoop_offsets (n : Nat) (ev : Evaluator) (start : Nat) :
    ∀ (members : List ASTNode) (st st' : EvalState) (top : List PatternData)
      (outer : List (List PatternData)),
      (∀ member ∈ members, isUnplacedVariable member = true) →
      st.currOffset = start → st.currMembers = top :: outer →
      unionLoop (evaluateMember n ev) start members st = .ok st' →
      ∃ pats, st'.currMembers = (top ++ pats) :: outer
        ∧ ∀ p ∈ pats, p.getOffset = start := by
  intro members
  induction members with
  | nil =>
    intro st st' top outer _ _ htop h
    simp only [unionLoop, Except.ok.injEq] at h
    subst h
    exact ⟨[], by simpa using htop, by simp⟩
  | cons m ms ih =>
    intro st st' top outer hplain hstart htop h
    simp only [unionLoop] at h
    split at h
    · cases h
    · rename_i newMembers st1 hmem
      have hframe := (evaluate_frame n).1 _ _ _ _ _ hmem
      have hm := hplain m (List.mem_cons_self _ _)
      have hnew : ∀ p ∈ newMembers, p.getOffset = start := by
        cases n with
        | zero => simp [evaluateMember] at hmem
        | succ k =>
          cases m <;> simp only [isUnplacedVariable] at hm <;> try cases hm
          rename_i l name type placement
          cases placement <;> simp only [isUnplacedVariable] at hm <;> try cases hm
          simp only [evaluateMember] at hmem
          split at hmem
          · cases hmem
          · rename_i q s hq
            cases hmem
            intro p hp
            rw [List.mem_singleton] at hp
            subst hp
            rw [evaluateVariable_unplaced_offset hq]
            exact hstart
      have htop1 : ({ st1.addMembers newMembers with currOffset := start } : EvalState).currMembers
          = (top ++ newMembers) :: outer := by
        simp only [EvalState.addMembers, hframe, htop]
      obtain ⟨pats, hp, hoff⟩ := ih _ _ _ _
        (fun member hmember => hplain member (List.mem_cons_of_mem _ hmember)) rfl htop1 h
      refine ⟨newMembers ++ pats, by rw [hp, List.append_assoc], ?_⟩
      intro p hp'
      rcases List.mem_append.mp hp' with hp' | hp'
      · exact hnew p hp'
      · exact hoff p hp'

/-- C28: when a union whose members are all variable declarations without
placement offset evaluates successfully, the union pattern starts at the cursor
on entry and so does every one of its member patterns. -/
theorem C28_union_members_start_together (fuel : Nat) (ev : Evaluator) (st st' : EvalState)
    (lineNumber : Nat) (members : List ASTNode) (pattern : PatternData)
    (hplain : ∀ member ∈ members, isUnplacedVariable member = true)
    (hok : evaluateUnion fuel ev st (.Union lineNumber members) = .ok (pattern, st')) :
    pattern.getOffset = st.currOffset
    ∧ ∃ attrs children, pattern = .Union attrs children
      ∧ ∀ child ∈ children, child.getOffset = st.currOffset := by
  cases fuel with
  | zero => simp [evaluateUnion] at hok
  | succ n =>
    simp only [evaluateUnion] at hok
    split at hok
    · cases hok
    · rename_i st1 hloop
      cases hok
      obtain ⟨pats, hp, hoff⟩ := unionLoop_offsets n ev st.currOffset members
        { st with currMembers := [] :: st.currMembers } st1 [] st.currMembers hplain rfl rfl hloop
      refine ⟨rfl, _, _, rfl, ?_⟩
      rw [hp]
      simpa using hoff

theorem C28_union_members_start_together_witness :
    ∃ attrs children,
      PatternData.Union ⟨0, 0, "", "", none⟩
          [.Unsigned ⟨0, 1, "u8", "x", some .big⟩, .Unsigned ⟨0, 2, "u16", "y", some .big⟩]
        = .Union attrs children
      ∧ ∀ child ∈ children, child.getOffset = initialState.currOffset :=
  (C28_union_members_start_together 4 (exampleEvaluator [0xAA, 0xBB] .big) initialState
    initialState 1
    [.VariableDecl 1 "x" (builtinType .Unsigned8Bit) none,
      .VariableDecl 1 "y" (builtinType .Unsigned16Bit) none]
    (.Union ⟨0, 0, "", "", none⟩
      [.Unsigned ⟨0, 1, "u8", "x", some .big⟩, .Unsigned ⟨0, 2, "u16", "y", some .big⟩])
    (by decide) rfl).2

/-! ## Arrays: the pattern and its children -/

theorem arrayLoop_names (g : EvalState → Except Stop (PatternData × EvalState))
    (ev : Evaluator) (line : Nat) :
    ∀ (remaining i : Nat) (acc es : List PatternData) (st st' : EvalState),
      arrayLoop g ev line remaining i acc st = .ok (es, st') →
      ∃ new, es = acc ++ new ∧ new.length = remaining
        ∧ new.map PatternData.getVariableName
          = (List.range remaining).map (fun j => elementName (u64 (i + j))) := by
  intro remaining
  induction remaining with
  | zero =>
    intro i acc es st st' h
    simp only [arrayLoop, Except.ok.injEq, Prod.mk.injEq] at h
    exact ⟨[], by simp [h.1], rfl, rfl⟩
  | succ r ih =>
    intro i acc es st st' h
    simp only [arrayLoop] at h
    split at h
    · cases h
    · rename_i entry st1 hentry
      split_ifs at h
      · cases h
      obtain ⟨new, hes, hlen, hnames⟩ := ih _ _ _ _ _ h
      refine ⟨_ :: new, by rw [hes, List.append_assoc]; rfl, by simp [hlen], ?_⟩
      rw [List.range_succ_eq_map, List.map_cons, List.map_cons, List.map_map, hnames]
      simp only [getVariableName_setEndian, getVariableName_setVariableName, elementName,
        Nat.add_zero]
      congr 1
      apply List.map_congr_left
      intro j _
      simp only [Function.comp, Nat.succ_eq_add_one]
      rw [show i + 1 + j = i + (j + 1) by omega]

theorem arrayLoop_offsets (g : EvalState → Except Stop (PatternData × EvalState))
    (ev : Evaluator) (line w : Nat)
    (hg : ∀ s p s', g s = .ok (p, s') →
      p.getOffset = s.currOffset ∧ s'.currOffset = u64 (s.currOffset + w)) :
    ∀ (remaining i : Nat) (acc es : List PatternData) (st st' : EvalState),
      arrayLoop g ev line remaining i acc st = .ok (es, st') →
      st.currOffset + remaining * w < 2 ^ 64 →
      ∃ new, es = acc ++ new
        ∧ new.map PatternData.getOffset
          = (List.range remaining).map (fun j => st.currOffset + j * w)
        ∧ st'.currOffset = st.currOffset + remaining * w := by
  intro remaining
  induction remaining with
  | zero =>
    intro i acc es st st' h _
    simp only [arrayLoop, Except.ok.injEq, Prod.mk.injEq] at h
    exact ⟨[], by simp [h.1], rfl, by simp [h.2]⟩
  | succ r ih =>
    intro i acc es st st' h hwrap
    simp only [arrayLoop] at h
    split at h
    · cases h
    · rename_i entry st1 hentry
      obtain ⟨hoffset, hcursor⟩ := hg _ _ _ hentry
      have hcursor' : st1.currOffset = st.currOffset + w := by
        rw [hcursor]
        apply u64_of_lt
        have : w ≤ (r + 1) * w := Nat.le_mul_of_pos_left w (Nat.succ_pos r)
        omega
      split_ifs at h
      · cases h
      have hmul : (r + 1) * w = w + r * w := by rw [Nat.add_mul, Nat.one_mul, Nat.add_comm]
      obtain ⟨new, hes, hoffsets, hfinal⟩ := ih _ _ _ _ _ h (by rw [hcursor']; omega)
      refine ⟨_ :: new, by rw [hes, List.append_assoc]; rfl, ?_, by rw [hfinal, hcursor']; omega⟩
      rw [List.range_succ_eq_map, List.map_cons, List.map_cons, List.map_map, hoffsets]
      simp only [getOffset_setEndian, getOffset_setVariableName, hoffset, Nat.zero_mul,
        Nat.add_zero]
      congr 1
      apply List.map_congr_left
      intro j _
      simp only [Function.comp, Nat.succ_eq_add_one, hcursor']
      rw [Nat.add_mul, Nat.one_mul]
      omega

theorem evaluateEntry_builtin {fuel : Nat} {ev : Evaluator} {type : ASTNode}
    {builtin : ValueType} (htype : namedBuiltin type = some builtin) :
    ∀ s p s', evaluateEntry (evaluateType fuel ev) type s = .ok (p, s') →
      p.getOffset = s.currOffset
      ∧ s'.currOffset = u64 (s.currOffset + Token.getTypeSize builtin) := by
  intro s p s' h
  obtain ⟨-, hcases⟩ := namedBuiltin_cases htype
  rcases hcases with ⟨l, e⟩ | ⟨l, typeName, l', endian, e⟩
  · subst e
    simp only [evaluateEntry] at h
    obtain ⟨h1, -, h3, -⟩ := evaluateBuiltinType_plain h
    exact ⟨h1, h3⟩
  · subst e
    simp only [evaluateEntry] at h
    cases fuel with
    | zero => simp [evaluateType] at h
    | succ n =>
      simp only [evaluateType] at h
      obtain ⟨h1, -, h3, -⟩ := evaluateBuiltinType_plain h
      have hst : (if s.currEndian.isSome = true then s
          else { s with currEndian := endian }).currOffset = s.currOffset := by
        split_ifs <;> rfl
      rw [hst] at h1 h3
      exact ⟨h1, h3⟩

theorem evaluateArraySize_lt {fuel : Nat} {ev : Evaluator} {st : EvalState} {size : ASTNode}
    {line N : Nat} (h : evaluateArraySize fuel ev st size line = .ok N) : N < 2 ^ 64 := by
  unfold evaluateArraySize at h
  split at h
  · split at h
    · cases h
    · split_ifs at h
      · cases h
      cases h
      rename_i valueNode _ _
      cases valueNode.literal.value <;> simp only [Numeric.toU64] <;> omega
  · cases h

/-- C26: a successfully evaluated array whose element type is not padding, with
`start` the cursor after the placement offset and `N` the value of the size
expression, is built from the `N` elements the loop has placed, which are named
`[0]` to `[N-1]` in that order: for `N = 0` it is a padding pattern at `start`
of size 0; when the first element is a character pattern it is a string pattern
at `start` of size cursor minus `start`; otherwise it is an array pattern at
`start` of size cursor minus `start` with exactly these `N` children. For a
built-in element type of width `w` (and `start + N * w` below `2 ^ 64`) child
`i` is at offset `start + i * w` and the size is `N * w`. -/
theorem C26_array_pattern (fuel : Nat) (ev : Evaluator) (st st' : EvalState)
    (lineNumber : Nat) (name : String) (type size : ASTNode) (placementOffset : Option ASTNode)
    (pattern : PatternData) (hpadding : isPaddingType type = false)
    (hok : evaluateArray (fuel + 1) ev st
      (.ArrayVariableDecl lineNumber name type size placementOffset) = .ok (pattern, st')) :
    ∃ st1 N entries st2,
      evaluatePlacement fuel ev st placementOffset lineNumber = .ok st1
      ∧ evaluateArraySize fuel ev st1 size lineNumber = .ok N
      ∧ arrayLoop (evaluateEntry (evaluateType fuel ev) type) ev lineNumber N 0 [] st1
        = .ok (entries, st2)
      ∧ st'.currOffset = st2.currOffset
      ∧ entries.length = N
      ∧ entries.map PatternData.getVariableName = (List.range N).map elementName
      ∧ (N = 0 → pattern = .Padding ⟨st1.currOffset, 0, "", name, none⟩)
      ∧ (∀ a rest, entries = .Character a :: rest →
        pattern = .String ⟨st1.currOffset, sub64 st'.currOffset st1.currOffset, "", name, none⟩)
      ∧ (0 < N → (∀ a rest, entries ≠ .Character a :: rest) →
        pattern = .Array ⟨st1.currOffset, sub64 st'.currOffset st1.currOffset, "", name, none⟩
          entries)
      ∧ (∀ builtin, namedBuiltin type = some builtin →
        st1.currOffset + N * Token.getTypeSize builtin < 2 ^ 64 →
        entries.map PatternData.getOffset
            = (List.range N).map (fun i => st1.currOffset + i * Token.getTypeSize builtin)
          ∧ sub64 st'.currOffset st1.currOffset = N * Token.getTypeSize builtin) := by
  simp only [evaluateArray] at hok
  split at hok
  · cases hok
  · rename_i st1 hplacement
    split at hok
    · cases hok
    · rename_i N hsize
      rw [hpadding] at hok
      simp only [Bool.false_eq_true, if_false] at hok
      split at hok
      · cases hok
      · rename_i entries st2 hloop
        cases hok
        obtain ⟨new, hes, hlen, hnames⟩ := arrayLoop_names _ _ _ _ _ _ _ _ _ hloop
        rw [List.nil_append] at hes
        subst hes
        have hN := evaluateArraySize_lt hsize
        have hnames' : entries.map PatternData.getVariableName
            = (List.range N).map elementName := by
          rw [hnames]
          apply List.map_congr_left
          intro j hj
          rw [Nat.zero_add, u64_of_lt (by have := List.mem_range.mp hj; omega)]
        refine ⟨st1, N, entries, st2, hplacement, hsize, hloop, rfl, hlen, hnames', ?_, ?_, ?_,
          ?_⟩
        · intro hzero
          subst hzero
          rw [List.length_eq_zero.mp hlen]
          rfl
        · intro a rest he
          subst he
          rfl
        · intro hpos hfirst
          cases entries with
          | nil => simp only [List.length_nil] at hlen; omega
          | cons first rest =>
            cases first <;> first | exact absurd rfl (hfirst _ _) | rfl
        · intro builtin hbuiltin hwrap
          obtain ⟨new, hes, hoffsets, hfinal⟩ := arrayLoop_offsets _ ev lineNumber
            (Token.getTypeSize builtin) (evaluateEntry_builtin hbuiltin) _ _ _ _ _ _ hloop hwrap
          rw [List.nil_append] at hes
          subst hes
          refine ⟨hoffsets, ?_⟩
          show sub64 st2.currOffset st1.currOffset = _
          rw [hfinal]
          exact sub64_add_left hwrap

theorem C26_array_pattern_witness :
    ∃ st', evaluateArray 4 (exampleEvaluator [1, 2, 3, 4, 5] .little) initialState exampleWords
      = .ok (.Array ⟨0, 4, "", "words", none⟩
          [.Unsigned ⟨0, 2, "u16", "[0]", some .little⟩,
            .Unsigned ⟨2, 2, "u16", "[1]", some .little⟩], st')
    ∧ ∃ st1 N entries st2,
      evaluatePlacement 3 (exampleEvaluator [1, 2, 3, 4, 5] .little) initialState none 1
        = .ok st1
      ∧ evaluateArraySize 3 (exampleEvaluator [1, 2, 3, 4, 5] .little) st1
        (literalExpression 2) 1 = .ok N
      ∧ arrayLoop (evaluateEntry (evaluateType 3 (exampleEvaluator [1, 2, 3, 4, 5] .little))
          (builtinType .Unsigned16Bit)) (exampleEvaluator [1, 2, 3, 4, 5] .little) 1 N 0 [] st1
        = .ok (entries, st2)
      ∧ entries.length = N
      ∧ entries.map PatternData.getVariableName = (List.range N).map elementName :=
  ⟨_, eq_of_producesPattern initialState (by decide!),
    (C26_array_pattern 3 (exampleEvaluator [1, 2, 3, 4, 5] .little) initialState _ 1 "words"
      (builtinType .Unsigned16Bit) (literalExpression 2) none
      (.Array ⟨0, 4, "", "words", none⟩
        [.Unsigned ⟨0, 2, "u16", "[0]", some .little⟩,
          .Unsigned ⟨2, 2, "u16", "[1]", some .little⟩])
      rfl (eq_of_producesPattern initialState (by decide!))).elim
      (fun st1 h => h.elim (fun N h => h.elim (fun entries h => h.elim (fun st2 h =>
        ⟨st1, N, entries, st2, h.1, h.2.1, h.2.2.1, h.2.2.2.2.1, h.2.2.2.2.2.1⟩))))⟩

/-! ## The top-level loop -/

theorem evaluateNodes_patterns (fuel : Nat) (ev : Evaluator) :
    ∀ (ast : List ASTNode) (acc ps : List PatternData) (st st' : EvalState),
      evaluateNodes fuel ev ast acc st = .ok (ps, st') →
      ∃ new, ps = acc ++ new
        ∧ List.Forall₂ (fun node pattern =>
            ∃ s s', evaluateDeclaration fuel ev s node = .ok (pattern, s'))
          (ast.filter isDeclaration) new := by
  intro ast
  induction ast with
  | nil =>
    intro acc ps st st' h
    simp only [evaluateNodes, Except.ok.injEq, Prod.mk.injEq] at h
    exact ⟨[], by simp [h.1], by simp⟩
  | cons node rest ih =>
    intro acc ps st st' h
    cases node <;> simp only [evaluateNodes] at h <;>
      first
      | (obtain ⟨new, hps, hall⟩ := ih _ _ _ _ h
         exact ⟨new, hps, by simpa [List.filter, isDeclaration] using hall⟩)
      | (split at h
         · cases h
         · rename_i pattern st1 hnode
           obtain ⟨new, hps, hall⟩ := ih _ _ _ _ h
           refine ⟨pattern :: new, by rw [hps, List.append_assoc]; rfl, ?_⟩
           simp only [List.filter, isDeclaration]
           exact List.Forall₂.cons ⟨_, _, hnode⟩ hall)

/-- C29: when `Evaluator::evaluate` succeeds on a list of nodes, the returned
sequence has exactly one pattern for each top-level variable, array-variable
and pointer-variable declaration, in the order of the declarations, each being
the pattern the evaluation of that declaration returned; a top-level type
declaration adds no pattern and only records its name and type in the type
environment. -/
theorem C29_one_pattern_per_declaration (ev : Evaluator) (fuel : Nat) (st : EvalState)
    (ast : List ASTNode) (patterns : List PatternData)
    (hok : ev.evaluate fuel st ast = .ok (.ok patterns)) :
    patterns.length = (ast.filter isDeclaration).length
    ∧ List.Forall₂ (fun node pattern =>
        ∃ s s', evaluateDeclaration fuel ev s node = .ok (pattern, s'))
      (ast.filter isDeclaration) patterns
    ∧ ∀ l name type endian rest acc s,
      evaluateNodes fuel ev (.TypeDecl l name type endian :: rest) acc s
        = evaluateNodes fuel ev rest acc
            { s with currEndian := none, types := (name, type) :: s.types } := by
  have hnodes : ∃ st', evaluateNodes fuel ev ast [] st = .ok (patterns, st') := by
    unfold Evaluator.evaluate at hok
    split at hok
    · rename_i ps st' h
      simp only [Except.ok.injEq] at hok
      subst hok
      exact ⟨st', h⟩
    · cases hok
    · cases hok
  obtain ⟨st', hnodes⟩ := hnodes
  obtain ⟨new, hps, hall⟩ := evaluateNodes_patterns fuel ev ast [] patterns st st' hnodes
  rw [List.nil_append] at hps
  subst hps
  exact ⟨hall.length_eq.symm, hall, fun _ _ _ _ _ _ _ => rfl⟩

theorem C29_one_pattern_per_declaration_witness :
    (exampleEvaluator [1, 2, 3, 4] .little).evaluate 10 initialState exampleUsing
      = .ok (.ok [.Unsigned ⟨0, 4, "u32", "x", some .little⟩])
    ∧ [PatternData.Unsigned ⟨0, 4, "u32", "x", some .little⟩].length
      = (exampleUsing.filter isDeclaration).length :=
  ⟨eq_of_returnsPatterns (by decide!),
    (C29_one_pattern_per_declaration (exampleEvaluator [1, 2, 3, 4] .little) 10 initialState
      exampleUsing _ (eq_of_returnsPatterns (by decide!))).1⟩

/-- C30: when the top-level nodes before a declaration evaluate successfully
and the evaluation of that declaration throws an evaluation error,
`Evaluator::evaluate` returns nothing, whatever patterns the earlier
declarations have produced and whatever follows, and the error it retains is
that error, with its message and line number. -/
theorem C30_first_error_is_retained (ev : Evaluator) (fuel : Nat) (st st1 : EvalState)
    (before after : List ASTNode) (node : ASTNode) (patterns : List PatternData)
    (e : EvaluateError)
    (hbefore : evaluateNodes fuel ev before [] st = .ok (patterns, st1))
    (hnode : isDeclaration node = true)
    (herror : evaluateDeclaration fuel ev { st1 with currEndian := none } node
      = .error (.evaluateError e)) :
    ev.evaluate fuel st (before ++ node :: after) = .ok (.error e) := by
  unfold Evaluator.evaluate
  rw [evaluateNodes_append fuel ev before (node :: after) [] patterns st st1 hbefore]
  cases node <;> simp only [isDeclaration] at hnode <;> try cases hnode
  all_goals
    simp only [evaluateDeclaration] at herror
    simp only [evaluateNodes, herror]

theorem C30_first_error_is_retained_witness :
    (exampleEvaluator [1, 2, 3, 4] .little).evaluate 3 initialState exampleFailingProgram
      = .ok (.error ⟨"array exceeds size of file", 2⟩) :=
  C30_first_error_is_retained (exampleEvaluator [1, 2, 3, 4] .little) 3 initialState
    ⟨1, none, [], []⟩
    [.VariableDecl 1 "a" (builtinType .Unsigned8Bit) (some (literalExpression 0))] []
    (.ArrayVariableDecl 2 "data" (builtinType .Unsigned16Bit) (literalExpression 3)
      (some (literalExpression 0)))
    [.Unsigned ⟨0, 1, "u8", "a", some .little⟩] ⟨"array exceeds size of file", 2⟩
    rfl rfl rfl

/-! ## Two-character operators -/

theorem lexLoop_token_then_end {code : List Char} (fuel : Nat) {value : TokenValue}
    {offset : Nat} (h0 : scan code 0 1 = .advance offset 1 (some value))
    (h1 : scan code offset 1 = .leave) :
    lexLoop code (fuel + 2) ⟨0, 1, []⟩
      = some (.ok [⟨value, 1⟩, ⟨.Separator .EndOfProgram, 1⟩]) := by
  have hstep : lexStep code ⟨0, 1, []⟩ = .next ⟨offset, 1, [] ++ [⟨value, 1⟩]⟩ :=
    lexStep_of_scan_some ⟨0, 1, []⟩ h0
  have hend : lexLoop code (fuel + 1) ⟨offset, 1, [] ++ [⟨value, 1⟩]⟩
      = some (.ok [⟨value, 1⟩, ⟨.Separator .EndOfProgram, 1⟩]) := by
    rw [lexLoop]
    unfold lexStep
    rw [h1]
    rfl
  exact (lexLoop_next hstep).trans hend

/-- C31: lexing the source that consists of exactly one of the two-character
operators `==`, `!=`, `>=`, `<=`, `&&`, `||`, `^^`, `<<`, `>>`, `::` yields
exactly two tokens, the token of that operator followed by end-of-program. -/
theorem C31_two_character_operators (operator : String × TokenValue)
    (h : operator ∈ twoCharacterOperators) (fuel : Nat) :
    Lexer.lex (fuel + 2) operator.1
      = some (.ok [⟨operator.2, 1⟩, ⟨.Separator .EndOfProgram, 1⟩]) := by
  simp only [twoCharacterOperators, List.mem_cons, List.mem_singleton, List.not_mem_nil,
    or_false] at h
  rcases h with h | h | h | h | h | h | h | h | h | h <;> subst h
  · exact lexLoop_token_then_end fuel (by decide! : scan _ 0 1 = .advance 2 1 _) (by decide!)
  · exact lexLoop_token_then_end fuel (by decide! : scan _ 0 1 = .advance 2 1 _) (by decide!)
  · exact lexLoop_token_then_end fuel (by decide! : scan _ 0 1 = .advance 2 1 _) (by decide!)
  · exact lexLoop_token_then_end fuel (by decide! : scan _ 0 1 = .advance 2 1 _) (by decide!)
  · exact lexLoop_token_then_end fuel (by decide! : scan _ 0 1 = .advance 2 1 _) (by decide!)
  · exact lexLoop_token_then_end fuel (by decide! : scan _ 0 1 = .advance 2 1 _) (by decide!)
  · exact lexLoop_token_then_end fuel (by decide! : scan _ 0 1 = .advance 2 1 _) (by decide!)
  · exact lexLoop_token_then_end fuel (by decide! : scan _ 0 1 = .advance 2 1 _) (by decide!)
  · exact lexLoop_token_then_end fuel (by decide! : scan _ 0 1 = .advance 2 1 _) (by decide!)
  · exact lexLoop_token_then_end fuel (by decide! : scan _ 0 1 = .advance 2 1 _) (by decide!)

theorem C31_two_character_operators_witness :
    Lexer.lex 2 "<<" = some (.ok [⟨.Operator .ShiftLeft, 1⟩, ⟨.Separator .EndOfProgram, 1⟩]) :=
  C31_two_character_operators ("<<", .Operator .ShiftLeft) (by decide) 0

/-! ## Ternary and binary expressions -/

/-- C35: a ternary expression with the selector `?:` whose condition evaluates
to a literal holding a non-zero value (integer or floating point) is the
evaluation of its second operand, whatever the third operand is, so the third
operand is not evaluated; when the value is zero it is the evaluation of the
third operand, whatever the second is; and a ternary node with any other
operator throws "invalid operator used in ternary expression". -/
theorem C35_ternary_evaluates_one_branch (fuel : Nat) (ev : Evaluator) (st : EvalState)
    (lineNumber : Nat) (first second third : ASTNode) :
    (∀ condition, evaluateOperand fuel ev st first = .ok condition →
      (condition.literal.value.nonZero ev.host = true →
        ∀ other, evaluateTernaryExpression (fuel + 1) ev st
            (.TernaryExpression lineNumber first second other .TernaryConditional)
          = evaluateOperand fuel ev st second)
      ∧ (condition.literal.value.nonZero ev.host = false →
        ∀ other, evaluateTernaryExpression (fuel + 1) ev st
            (.TernaryExpression lineNumber first other third .TernaryConditional)
          = evaluateOperand fuel ev st third))
    ∧ ∀ op, op ≠ .TernaryConditional →
      evaluateTernaryExpression (fuel + 1) ev st
          (.TernaryExpression lineNumber first second third op)
        = throwEvaluateError "invalid operator used in ternary expression" lineNumber := by
  constructor
  · intro condition hcondition
    constructor
    · intro hvalue other
      simp only [evaluateTernaryExpression, hcondition, hvalue, if_true]
    · intro hvalue other
      simp only [evaluateTernaryExpression, hcondition, hvalue, if_false, Bool.false_eq_true]
  · intro op hop
    cases op <;> first | exact absurd rfl hop | rfl

theorem C35_ternary_evaluates_one_branch_witness :
    evaluateTernaryExpression 3 (exampleEvaluator [1] .little) exampleMemberState
        (.TernaryExpression 1 (.IntegerLiteral 1 ⟨.Signed32Bit, .int .s32 1⟩)
          (.IntegerLiteral 1 ⟨.Signed32Bit, .int .s32 7⟩) (.RValue 1 ["missing"])
          .TernaryConditional)
      = .ok ⟨1, ⟨.Signed32Bit, .int .s32 7⟩⟩ :=
  ((C35_ternary_evaluates_one_branch 2 (exampleEvaluator [1] .little) exampleMemberState 1
    (.IntegerLiteral 1 ⟨.Signed32Bit, .int .s32 1⟩)
    (.IntegerLiteral 1 ⟨.Signed32Bit, .int .s32 7⟩) (.RValue 1 ["missing"])).1
    ⟨1, ⟨.Signed32Bit, .int .s32 1⟩⟩ rfl).1 rfl (.RValue 1 ["missing"])

/-- C40: `evaluateMathematicalExpression` evaluates the left operand and then
the right operand before it applies the operator: when the left operand
evaluates and the right operand fails, the expression fails with the error of
the right operand for every operator, `&&` and `||` included, whatever the left
operand holds; and when the left operand fails the expression fails with its
error. -/
theorem C40_binary_expressions_are_eager (fuel : Nat) (ev : Evaluator) (st : EvalState)
    (lineNumber : Nat) (left right : ASTNode) (op : Operator) :
    (∀ value e, evaluateOperand fuel ev st left = .ok value →
      evaluateOperand fuel ev st right = .error e →
      evaluateMathematicalExpression (fuel + 1) ev st
        (.NumericExpression lineNumber left right op) = .error e)
    ∧ (∀ e, evaluateOperand fuel ev st left = .error e →
      evaluateMathematicalExpression (fuel + 1) ev st
        (.NumericExpression lineNumber left right op) = .error e) := by
  constructor
  · intro value e hleft hright
    simp only [evaluateMathematicalExpression, hleft, hright]
  · intro e hleft
    simp only [evaluateMathematicalExpression, hleft]

theorem C40_binary_expressions_are_eager_witness :
    evaluateMathematicalExpression 3 (exampleEvaluator [1] .little) exampleMemberState
        (.NumericExpression 1 (.IntegerLiteral 1 ⟨.Signed32Bit, .int .s32 0⟩)
          (.RValue 5 ["missing"]) .BoolAnd)
      = throwEvaluateError "could not find identifier 'missing'" 5 :=
  (C40_binary_expressions_are_eager 2 (exampleEvaluator [1] .little) exampleMemberState 1
    (.IntegerLiteral 1 ⟨.Signed32Bit, .int .s32 0⟩) (.RValue 5 ["missing"]) .BoolAnd).1
    ⟨1, ⟨.Signed32Bit, .int .s32 0⟩⟩ _ rfl rfl

/-! ## Unary operators -/

/-- C36 (as amended): for `!` the outcome of `evaluateOperator` is the same for
two left operands of the same type, whatever they hold; for `~` and a right
operand that holds an integer it is the same for two left operands of the same
type that both hold integers. The value of the result is computed from the
right operand alone, its type tag is the type of the ladder for the types of
both operands. -/
theorem C36_unary_operators_and_the_left_operand (h : Host) (l₁ l₂ r : LiteralNode)
    (htype : l₁.literal.type = l₂.literal.type) :
    evaluateOperator h l₁ r .BoolNot = evaluateOperator h l₂ r .BoolNot
    ∧ evaluateOperator h l₁ r .BoolNot
      = .ok ⟨1, ⟨newType l₁.literal.type r.literal.type,
          boolNumeric (!r.literal.value.nonZero h)⟩⟩
    ∧ (l₁.literal.value.isFloating = false → l₂.literal.value.isFloating = false →
      r.literal.value.isFloating = false →
      evaluateOperator h l₁ r .BitNot = evaluateOperator h l₂ r .BitNot) := by
  refine ⟨?_, rfl, ?_⟩
  · simp only [evaluateOperator, htype]
  · intro h1 h2 h3
    obtain ⟨line₁, type₁, value₁⟩ := l₁
    obtain ⟨line₂, type₂, value₂⟩ := l₂
    obtain ⟨line, type, value⟩ := r
    simp only at htype
    subst htype
    cases value₁ <;> simp only [Numeric.isFloating, Bool.true_eq_false] at h1
    cases value₂ <;> simp only [Numeric.isFloating, Bool.true_eq_false] at h2
    cases value <;> simp only [Numeric.isFloating, Bool.true_eq_false] at h3
    rfl

theorem C36_unary_operators_and_the_left_operand_witness :
    evaluateOperator exampleHost ⟨1, ⟨.Signed32Bit, .int .s32 5⟩⟩
        ⟨1, ⟨.Unsigned8Bit, .int .u8 1⟩⟩ .BitNot
      = evaluateOperator exampleHost ⟨2, ⟨.Signed32Bit, .int .s32 9⟩⟩
        ⟨1, ⟨.Unsigned8Bit, .int .u8 1⟩⟩ .BitNot :=
  (C36_unary_operators_and_the_left_operand exampleHost ⟨1, ⟨.Signed32Bit, .int .s32 5⟩⟩
    ⟨2, ⟨.Signed32Bit, .int .s32 9⟩⟩ ⟨1, ⟨.Unsigned8Bit, .int .u8 1⟩⟩ rfl).2.2 rfl rfl rfl

/-- C36, counterexample: with the right operand `(u8, 1)`, `!` gives a literal
of type `u8` for the left operand `(u8, 0)` and a literal of type `u64` for the
left operand `(u64, 0)`; and `~` succeeds for the left operand `(s32, 0)` and
fails for a left operand that holds a floating-point value. -/
theorem C36_counterexample :
    evaluateOperator exampleHost ⟨1, ⟨.Unsigned8Bit, .int .u8 0⟩⟩
        ⟨1, ⟨.Unsigned8Bit, .int .u8 1⟩⟩ .BoolNot
      = .ok ⟨1, ⟨.Unsigned8Bit, .int .s32 0⟩⟩
    ∧ evaluateOperator exampleHost ⟨1, ⟨.Unsigned64Bit, .int .u64 0⟩⟩
        ⟨1, ⟨.Unsigned8Bit, .int .u8 1⟩⟩ .BoolNot
      = .ok ⟨1, ⟨.Unsigned64Bit, .int .s32 0⟩⟩
    ∧ evaluateOperator exampleHost ⟨1, ⟨.Signed32Bit, .int .s32 0⟩⟩
        ⟨1, ⟨.Unsigned8Bit, .int .u8 1⟩⟩ .BitNot
      = .ok ⟨1, ⟨.Signed32Bit, .int .s32 (-2)⟩⟩
    ∧ evaluateOperator exampleHost ⟨1, ⟨.Float, .flt false (.strtod ['0'])⟩⟩
        ⟨1, ⟨.Unsigned8Bit, .int .u8 1⟩⟩ .BitNot
      = .error (.evaluateError
          ⟨"bitwise operations on floating point numbers are forbidden", 1⟩) := by
  decide

/-! ## Function calls -/

theorem two_pow_lor {k n : Nat} (h : n < 2 ^ k) : 2 ^ k ||| n = 2 ^ k + n := by
  apply Nat.eq_of_testBit_eq
  intro i
  rw [Nat.testBit_or, Nat.testBit_two_pow]
  rcases Nat.lt_trichotomy i k with hi | hi | hi
  · rw [Nat.testBit_two_pow_add_gt hi]
    have : decide (k = i) = false := by simp; omega
    rw [this, Bool.false_or]
  · subst hi
    rw [Nat.testBit_two_pow_add_eq, Nat.testBit_lt_two_pow h]
    simp
  · have h1 : n < 2 ^ i := lt_of_lt_of_le h (Nat.pow_le_pow_right (by norm_num) (by omega))
    have h2 : 2 ^ k + n < 2 ^ i := by
      have : 2 ^ (k + 1) ≤ 2 ^ i := Nat.pow_le_pow_right (by norm_num) (by omega)
      rw [Nat.pow_succ] at this
      omega
    have : decide (k = i) = false := by simp; omega
    rw [this, Nat.testBit_lt_two_pow h1, Nat.testBit_lt_two_pow h2]
    rfl

theorem land_flag_of_lt {k n : Nat} (h : n < 2 ^ k) : n &&& 2 ^ k = 0 := by
  rw [Nat.and_two_pow, Nat.testBit_lt_two_pow h]
  simp

theorem land_flag_self {k n : Nat} (h : n < 2 ^ k) : (2 ^ k + n) &&& 2 ^ k = 2 ^ k := by
  rw [Nat.and_two_pow, Nat.testBit_two_pow_add_eq, Nat.testBit_lt_two_pow h]
  simp

theorem callFunction_arity (ev : Evaluator) (st : EvalState) (lineNumber : Nat)
    (name : String) (values : List LiteralNode) (function : Function) (arity : Arity)
    (hname : ev.functions.lookup name = some function)
    (hcount : function.parameterCount = arity.encode) (hbound : arity.bound < 2 ^ 30) :
    (arity.accepts values.length = true →
      callFunction ev st lineNumber name values = function.func (getCurrentEndian ev st) values)
    ∧ (arity.accepts values.length = false →
      ∃ message, callFunction ev st lineNumber name values
        = throwEvaluateError message lineNumber) := by
  have h31 : (0x80000000 : Nat) = 2 ^ 31 := by norm_num
  have h30 : (0x40000000 : Nat) = 2 ^ 30 := by norm_num
  cases arity with
  | exact n =>
    simp only [Arity.bound] at hbound
    simp only [Arity.encode] at hcount
    have h1 : ¬ n = Function.UnlimitedParameters := by
      unfold Function.UnlimitedParameters; omega
    have h2 : Nat.land n Function.LessParametersThan = 0 := by
      unfold Function.LessParametersThan
      rw [h31]
      exact land_flag_of_lt (by omega)
    have h3 : Nat.land n Function.MoreParametersThan = 0 := by
      unfold Function.MoreParametersThan
      rw [h30]
      exact land_flag_of_lt hbound
    simp only [callFunction, hname, hcount, h1, h2, h3, if_false, ne_eq, not_true_eq_false,
      Arity.accepts, decide_eq_true_eq, decide_eq_false_iff_not]
    constructor
    · intro h
      rw [if_neg (by omega)]
    · intro h
      rw [if_pos (by omega)]
      exact ⟨_, rfl⟩
  | unlimited =>
    simp only [Arity.encode] at hcount
    simp only [callFunction, hname, hcount, if_true, Arity.accepts]
    exact ⟨fun _ => trivial, fun h => by cases h⟩
  | fewerThan n =>
    simp only [Arity.bound] at hbound
    simp only [Arity.encode, Function.LessParametersThan] at hcount
    rw [h31, two_pow_lor (by omega : n < 2 ^ 31)] at hcount
    have h1 : ¬ 2 ^ 31 + n = Function.UnlimitedParameters := by
      unfold Function.UnlimitedParameters; omega
    have h2 : Nat.land (2 ^ 31 + n) Function.LessParametersThan ≠ 0 := by
      unfold Function.LessParametersThan
      rw [h31]
      show (2 ^ 31 + n) &&& 2 ^ 31 ≠ 0
      rw [land_flag_self (by omega)]
      norm_num
    have h3 : Nat.land (2 ^ 31 + n) (0xFFFFFFFF - Function.LessParametersThan) = n := by
      unfold Function.LessParametersThan
      show (2 ^ 31 + n) &&& (0xFFFFFFFF - 0x80000000) = n
      rw [show (0xFFFFFFFF - 0x80000000 : Nat) = 2 ^ 31 - 1 by norm_num,
        Nat.and_pow_two_sub_one_eq_mod]
      omega
    simp only [callFunction, hname, hcount, h1, h2, h3, if_false, ne_eq, not_false_eq_true,
      if_true, Arity.accepts, decide_eq_true_eq, decide_eq_false_iff_not]
    constructor
    · intro h
      rw [if_neg (by omega)]
    · intro h
      rw [if_pos (by omega)]
      exact ⟨_, rfl⟩
  | moreThan n =>
    simp only [Arity.bound] at hbound
    simp only [Arity.encode, Function.MoreParametersThan] at hcount
    rw [h30, two_pow_lor hbound] at hcount
    have h1 : ¬ 2 ^ 30 + n = Function.UnlimitedParameters := by
      unfold Function.UnlimitedParameters; omega
    have h2 : Nat.land (2 ^ 30 + n) Function.LessParametersThan = 0 := by
      unfold Function.LessParametersThan
      rw [h31]
      exact land_flag_of_lt (by omega)
    have h3 : Nat.land (2 ^ 30 + n) Function.MoreParametersThan ≠ 0 := by
      unfold Function.MoreParametersThan
      rw [h30]
      show (2 ^ 30 + n) &&& 2 ^ 30 ≠ 0
      rw [land_flag_self hbound]
      norm_num
    have h4 : Nat.land (2 ^ 30 + n) (0xFFFFFFFF - Function.MoreParametersThan) = n := by
      unfold Function.MoreParametersThan
      show (2 ^ 30 + n) &&& (0xFFFFFFFF - 0x40000000) = n
      rw [show (0xFFFFFFFF - 0x40000000 : Nat) = 2 ^ 31 ||| (2 ^ 30 - 1) by decide,
        Nat.and_or_distrib_left, land_flag_of_lt (by omega : 2 ^ 30 + n < 2 ^ 31),
        Nat.and_pow_two_sub_one_eq_mod, Nat.zero_or]
      omega
    simp only [callFunction, hname, hcount, h1, h2, h3, h4, if_false, ne_eq, not_false_eq_true,
      not_true_eq_false, if_true, Arity.accepts, decide_eq_true_eq, decide_eq_false_iff_not]
    constructor
    · intro h
      rw [if_neg (by omega)]
    · intro h
      rw [if_pos (by omega)]
      exact ⟨_, rfl⟩

theorem evaluateParams_of_forall₂ (f : ASTNode → Except Stop LiteralNode) :
    ∀ (params : List ASTNode) (values : List LiteralNode),
      List.Forall₂ (fun param value => f param = .ok value) params values →
      evaluateParams f params = .ok values := by
  intro params values h
  induction h with
  | nil => rfl
  | cons hhead _ ih => simp only [evaluateParams, hhead, ih]

theorem evaluateParams_error (f : ASTNode → Except Stop LiteralNode) :
    ∀ (before : List ASTNode) (values : List LiteralNode) (param : ASTNode)
      (after : List ASTNode) (e : Stop),
      List.Forall₂ (fun param value => f param = .ok value) before values →
      f param = .error e → evaluateParams f (before ++ param :: after) = .error e := by
  intro before values param after e h herror
  induction h with
  | nil => simp only [List.nil_append, evaluateParams, herror]
  | cons hhead _ ih =>
    rw [List.cons_append, evaluateParams]
    simp only [hhead, ih]

/-- C37: a function call is the call of the handler of the function, with the
evaluated parameters in order, when all parameter expressions evaluate, the
name is registered and the number of parameters satisfies the arity rule of the
function (exactly `N`, any number, fewer than `N`, more than `N`); it is an
evaluation error when the name is not registered or the rule is not satisfied,
and the error of the first parameter expression that fails otherwise. With the
functions the constructor registers, a call of `findSequence` with no or one
parameter and a call of `readUnsigned` or `readSigned` with a number of
parameters other than 2 is an evaluation error. -/
theorem C37_function_call (fuel : Nat) (ev : Evaluator) (st : EvalState) (lineNumber : Nat)
    (name : String) :
    (∀ (params : List ASTNode) (values : List LiteralNode) (function : Function)
        (arity : Arity),
      List.Forall₂ (fun param value =>
        evaluateMathematicalExpression fuel ev st param = .ok value) params values →
      ev.functions.lookup name = some function →
      function.parameterCount = arity.encode → arity.bound < 2 ^ 30 →
      (arity.accepts values.length = true →
        evaluateFunctionCall (fuel + 1) ev st (.FunctionCall lineNumber name params)
          = function.func (getCurrentEndian ev st) values)
      ∧ (arity.accepts values.length = false →
        ∃ message, evaluateFunctionCall (fuel + 1) ev st (.FunctionCall lineNumber name params)
          = throwEvaluateError message lineNumber))
    ∧ (∀ params values,
      List.Forall₂ (fun param value =>
        evaluateMathematicalExpression fuel ev st param = .ok value) params values →
      ev.functions.lookup name = none →
      evaluateFunctionCall (fuel + 1) ev st (.FunctionCall lineNumber name params)
        = throwEvaluateError ("no function named '" ++ name ++ "' found") lineNumber)
    ∧ (∀ before values param after e,
      List.Forall₂ (fun param value =>
        evaluateMathematicalExpression fuel ev st param = .ok value) before values →
      evaluateMathematicalExpression fuel ev st param = .error e →
      evaluateFunctionCall (fuel + 1) ev st
        (.FunctionCall lineNumber name (before ++ param :: after)) = .error e)
    ∧ (∀ (bytes : List Nat) (params : List ASTNode) (values : List LiteralNode),
      List.Forall₂ (fun param value =>
        evaluateMathematicalExpression fuel (registeredEvaluator bytes) st param = .ok value)
        params values →
      (values.length ≤ 1 →
        ∃ message, evaluateFunctionCall (fuel + 1) (registeredEvaluator bytes) st
            (.FunctionCall lineNumber "findSequence" params)
          = throwEvaluateError message lineNumber)
      ∧ (values.length ≠ 2 →
        ∃ message, evaluateFunctionCall (fuel + 1) (registeredEvaluator bytes) st
            (.FunctionCall lineNumber "readUnsigned" params)
          = throwEvaluateError message lineNumber)
      ∧ (values.length ≠ 2 →
        ∃ message, evaluateFunctionCall (fuel + 1) (registeredEvaluator bytes) st
            (.FunctionCall lineNumber "readSigned" params)
          = throwEvaluateError message lineNumber)) := by
  refine ⟨?_, ?_, ?_, ?_⟩
  · intro params values function arity hparams hname hcount hbound
    have h := callFunction_arity ev st lineNumber name values function arity hname hcount hbound
    simp only [evaluateFunctionCall, evaluateParams_of_forall₂ _ _ _ hparams]
    exact h
  · intro params values hparams hname
    simp only [evaluateFunctionCall, evaluateParams_of_forall₂ _ _ _ hparams, callFunction,
      hname]
  · intro before values param after e hbefore herror
    simp only [evaluateFunctionCall, evaluateParams_error _ _ _ _ _ _ hbefore herror]
  · intro bytes params values hparams
    simp only [evaluateFunctionCall, evaluateParams_of_forall₂ _ _ _ hparams]
    refine ⟨fun hcount => ?_, fun hcount => ?_, fun hcount => ?_⟩
    · exact (callFunction_arity (registeredEvaluator bytes) st lineNumber "findSequence" values
        _ (.moreThan 1) rfl rfl (by decide)).2
        (by simp only [Arity.accepts, decide_eq_false_iff_not]; omega)
    · exact (callFunction_arity (registeredEvaluator bytes) st lineNumber "readUnsigned" values
        _ (.exact 2) rfl rfl (by decide)).2
        (by simp only [Arity.accepts, decide_eq_false_iff_not]; exact hcount)
    · exact (callFunction_arity (registeredEvaluator bytes) st lineNumber "readSigned" values
        _ (.exact 2) rfl rfl (by decide)).2
        (by simp only [Arity.accepts, decide_eq_false_iff_not]; exact hcount)

/-- C37, witness: `readUnsigned` is registered with the parameter count 2, and
a call with one parameter is rejected. -/
theorem C37_function_call_witness :
    ∃ message, evaluateFunctionCall 4 (registeredEvaluator [1, 2]) initialState
        (.FunctionCall 3 "readUnsigned" [literalExpression 0])
      = throwEvaluateError message 3 :=
  ((C37_function_call 3 (registeredEvaluator [1, 2]) initialState 3 "readUnsigned").1
    [literalExpression 0] [⟨1, ⟨.Signed32Bit, .int .s32 0⟩⟩] _ (.exact 2)
    (List.Forall₂.cons rfl List.Forall₂.nil) rfl rfl (by decide)).2 rfl

/-! ## R-values, conditionals and the endianness -/

theorem evaluateMember_resets (fuel : Nat) (ev : Evaluator) (st : EvalState)
    (node : ASTNode) (override : Option Endian) :
    evaluateMember fuel ev { st with currEndian := override } node
      = evaluateMember fuel ev st node := by
  cases fuel with
  | zero => rfl
  | succ n => cases node <;> rfl

theorem evaluateMember_counted_size (fuel : Nat) (ev : Evaluator) (s : EvalState)
    (outer : List (List PatternData)) (h : s.currMembers = [] :: outer) :
    evaluateMember (fuel + 4) ev s
        (.ArrayVariableDecl 1 "d" (builtinType .Unsigned8Bit) (rvalueExpression ["n"]) none)
      = throwEvaluateError "could not find identifier 'n'" 1 := by
  have hrvalue : evaluateRValue ev { s with currEndian := none } 1 ["n"]
      = throwEvaluateError "could not find identifier 'n'" 1 := by
    simp only [evaluateRValue, h, walkPath, List.find?]
    rfl
  simp only [evaluateMember, evaluateArray, evaluatePlacement, evaluateArraySize,
    rvalueExpression, evaluateMathematicalExpression, evaluateOperand, hrvalue,
    throwEvaluateError]

theorem evaluateMember_counted_first (fuel : Nat) (ev : Evaluator) (s : EvalState)
    (h : s.currOffset < ev.provider.actualSize) :
    ∃ p s₁, evaluateMember (fuel + 4) ev s
        (.VariableDecl 1 "n" (builtinType .Unsigned8Bit) none) = .ok ([p], s₁)
      ∧ s₁.currMembers = s.currMembers := by
  have hnot : ¬ s.currOffset ≥ ev.provider.actualSize := by omega
  obtain ⟨p, hp⟩ := evaluateBuiltinType_placeable
    { s with currEndian := none } 1 (rfl : placeable .Unsigned8Bit = true)
  simp only [evaluateMember, evaluateVariable, evaluatePlacement, hnot, if_false, builtinType,
    evaluateType, Option.isSome_none, Bool.false_eq_true, hp]
  exact ⟨_, _, rfl, rfl⟩

theorem evaluateMember_conditional (fuel : Nat) (ev : Evaluator) (st : EvalState) (l : Nat)
    (condition : ASTNode) (trueBody falseBody : List ASTNode) :
    evaluateMember (fuel + 1) ev st (.ConditionalStatement l condition trueBody falseBody)
      = match evaluateMathematicalExpression fuel ev { st with currEndian := none }
          condition with
        | .error e => .error e
        | .ok value =>
          if value.literal.value.nonZero ev.host then
            bodyLoop (evaluateMember fuel ev) trueBody [] { st with currEndian := none }
          else bodyLoop (evaluateMember fuel ev) falseBody [] { st with currEndian := none } := by
  simp only [evaluateMember]

theorem evaluateStruct_members (fuel : Nat) (ev : Evaluator) (st : EvalState) (l : Nat)
    (members : List ASTNode) :
    evaluateStruct (fuel + 1) ev st (.Struct l members)
      = match structLoop (evaluateMember fuel ev) members
          { st with currMembers := [] :: st.currMembers } with
        | .error e => .error e
        | .ok st' =>
          .ok (.Struct (newAttrs st.currOffset (sub64 st'.currOffset st.currOffset))
              (st'.currMembers.headD []),
            { st' with currMembers := st'.currMembers.tail }) := by
  simp only [evaluateStruct]

/-- C38: in a struct whose only member is a conditional with the body
`u8 n; u8 d[n];` and a condition that holds a non-zero value, the r-value `n`
in the size of `d` is not found and the struct fails with "could not find
identifier 'n'", although `n` has been placed; for every conditional member
that evaluates successfully the innermost member list is afterwards what it
was on entry, its patterns being handed back to the struct, which appends them
to its list only then. -/
theorem C38_conditional_body_does_not_see_itself (fuel : Nat) (ev : Evaluator)
    (st : EvalState) (lineNumber l : Nat) (condition : ASTNode) (falseBody : List ASTNode)
    (value : LiteralNode)
    (hcondition : evaluateMathematicalExpression (fuel + 4) ev
      { st with currEndian := none, currMembers := [] :: st.currMembers } condition = .ok value)
    (hvalue : value.literal.value.nonZero ev.host = true)
    (hcursor : st.currOffset < ev.provider.actualSize) :
    evaluateStruct (fuel + 6) ev st
        (.Struct lineNumber [.ConditionalStatement l condition exampleCounted falseBody])
      = throwEvaluateError "could not find identifier 'n'" 1
    ∧ ∀ (s s' : EvalState) (body other : List ASTNode) (patterns : List PatternData),
      evaluateMember (fuel + 5) ev s (.ConditionalStatement l condition body other)
        = .ok (patterns, s') →
      s'.currMembers = s.currMembers := by
  constructor
  · obtain ⟨p, s₁, hfirst, hmembers⟩ := evaluateMember_counted_first fuel ev
      { st with currEndian := none, currMembers := [] :: st.currMembers } hcursor
    have hsecond := evaluateMember_counted_size fuel ev s₁ st.currMembers hmembers
    have hbody : bodyLoop (evaluateMember (fuel + 4) ev) exampleCounted []
        { st with currEndian := none, currMembers := [] :: st.currMembers }
        = throwEvaluateError "could not find identifier 'n'" 1 := by
      simp only [exampleCounted, bodyLoop, hfirst, hsecond, throwEvaluateError]
    have hmember : evaluateMember (fuel + 5) ev { st with currMembers := [] :: st.currMembers }
        (.ConditionalStatement l condition exampleCounted falseBody)
        = throwEvaluateError "could not find identifier 'n'" 1 := by
      rw [evaluateMember_conditional]
      simp only [hcondition, hvalue, if_true, hbody]
    rw [evaluateStruct_members]
    simp only [structLoop, hmember, throwEvaluateError]
  · intro s s' body other patterns h
    exact (evaluate_frame (fuel + 5)).1 _ _ _ _ _ h

/-- C38, witness: `struct { if (1) { u8 n; u8 d[n]; } }` on the bytes
`02 AA BB CC` fails with "could not find identifier 'n'", while
`struct { u8 n; if (1) { u8 d[n]; } }` evaluates, with two elements in `d`. -/
theorem C38_conditional_body_does_not_see_itself_witness :
    evaluateStruct 6 (exampleEvaluator [2, 0xAA, 0xBB, 0xCC] .little) initialState exampleHidden
      = throwEvaluateError "could not find identifier 'n'" 1
    ∧ ∃ st', evaluateStruct 6 (exampleEvaluator [2, 0xAA, 0xBB, 0xCC] .little) initialState
        exampleVisible
      = .ok (.Struct ⟨0, 3, "", "", none⟩
          [.Unsigned ⟨0, 1, "u8", "n", some .little⟩,
            .Array ⟨1, 2, "", "d", none⟩
              [.Unsigned ⟨1, 1, "u8", "[0]", some .little⟩,
                .Unsigned ⟨2, 1, "u8", "[1]", some .little⟩]], st') :=
  ⟨(C38_conditional_body_does_not_see_itself 0 (exampleEvaluator [2, 0xAA, 0xBB, 0xCC] .little)
      initialState 1 1 (literalExpression 1) [] ⟨1, ⟨.Signed32Bit, .int .s32 1⟩⟩ rfl rfl
      (by decide)).1,
    _, eq_of_producesPattern initialState (by decide!)⟩

/-- C39: an r-value that ends at an unsigned pattern of size 1, 2, 4, 8 or 16
is decoded in the current endianness of the evaluator at that moment, whatever
endianness the pattern carries; `evaluateMember` does not look at the override
it is entered with, it resets it, and with the override reset the current
endianness is the default endianness. -/
theorem C39_rvalue_uses_current_endianness (ev : Evaluator) (st : EvalState)
    (lineNumber : Nat) (path : List String) (currMembers : List PatternData)
    (outer : List (List PatternData)) (a : PatternAttrs) (type : ValueType) (kind : IntKind)
    (hst : st.currMembers = currMembers :: outer)
    (hwalk : walkPath lineNumber path currMembers none = .ok (some (.Unsigned a)))
    (hsize : unsignedOfSize a.size = some (type, kind)) :
    (∀ override, evaluateRValue ev { st with currEndian := override } lineNumber path
      = .ok ⟨1, ⟨type, .int kind
          (decode (override.getD ev.defaultDataEndian) (ev.provider.read a.offset a.size)
            : Nat)⟩⟩)
    ∧ evaluateRValue ev { st with currEndian := none } lineNumber path
      = .ok ⟨1, ⟨type, .int kind
          (decode ev.defaultDataEndian (ev.provider.read a.offset a.size) : Nat)⟩⟩
    ∧ ∀ fuel node override, evaluateMember fuel ev { st with currEndian := override } node
      = evaluateMember fuel ev st node := by
  have hread : ∀ override, evaluateRValue ev { st with currEndian := override } lineNumber
      path = .ok ⟨1, ⟨type, .int kind
        (decode (override.getD ev.defaultDataEndian) (ev.provider.read a.offset a.size)
          : Nat)⟩⟩ := by
    intro override
    simp only [evaluateRValue, hst, hwalk, readUnsignedValue, getCurrentEndian]
    generalize a.size = n at hsize
    unfold unsignedOfSize at hsize
    split at hsize <;> cases hsize <;> rfl
  exact ⟨hread, hread none, fun fuel node override => evaluateMember_resets fuel ev st node
    override⟩

/-- C39, witness: with the default endianness little, a member `v` of two bytes
`02 00` that was placed through a type declared big-endian carries the
endianness big, and the r-value `v` in the size of the next member is read as
2, not as `0x0200`. -/
theorem C39_rvalue_uses_current_endianness_witness :
    (exampleEvaluator [2, 0, 0xAA, 0xBB, 0xCC] .little).evaluate 12 initialState [exampleTagged]
      = .ok (.ok [.Struct ⟨0, 4, "S", "s", some .little⟩
          [.Unsigned ⟨0, 2, "u16", "v", some .big⟩,
            .Array ⟨2, 2, "", "d", none⟩
              [.Unsigned ⟨2, 1, "u8", "[0]", some .little⟩,
                .Unsigned ⟨3, 1, "u8", "[1]", some .little⟩]]])
    ∧ evaluateRValue (exampleEvaluator [2, 0, 0xAA, 0xBB, 0xCC] .little)
        ⟨2, none, [[.Unsigned ⟨0, 2, "u16", "v", some .big⟩]], []⟩ 1 ["v"]
      = .ok ⟨1, ⟨.Unsigned16Bit, .int .u16 2⟩⟩ :=
  ⟨eq_of_returnsPatterns (by decide!),
    ((C39_rvalue_uses_current_endianness (exampleEvaluator [2, 0, 0xAA, 0xBB, 0xCC] .little)
      ⟨2, none, [[.Unsigned ⟨0, 2, "u16", "v", some .big⟩]], []⟩ 1 ["v"] _ []
      ⟨0, 2, "u16", "v", some .big⟩ .Unsigned16Bit .u16 rfl rfl rfl).2.1).trans (by decide)⟩

/-! ## The rounds of the scanning loop -/

theorem scan_cases (code : List Char) (offset lineNumber : Nat) (hlt : offset < code.length) :
    (code.getD offset nul = nul ∧ scan code offset lineNumber = .leave)
    ∨ ((isblank (code.getD offset nul) || isspace (code.getD offset nul)) = true
      ∧ scan code offset lineNumber = .advance (u32 (offset + 1))
          (if code.getD offset nul = Char.ofNat 10 then u32 (lineNumber + 1) else lineNumber)
          none)
    ∨ (code.getD offset nul ∈ punctuation
      ∧ ∃ v, scan code offset lineNumber = .advance (u32 (offset + 1)) lineNumber (some v))
    ∨ ((code.drop offset).take 2 ∈ operatorPairs
      ∧ ∃ v, scan code offset lineNumber = .advance (u32 (offset + 2)) lineNumber (some v))
    ∨ (code.getD offset nul = Char.ofNat 39
      ∧ scan code offset lineNumber = scanCharacter code offset lineNumber)
    ∨ (isalpha (code.getD offset nul) = true
      ∧ scan code offset lineNumber
        = .advance
            (u32 (offset + (matchTillInvalid (cstr code offset) isWordCharacter).length))
            lineNumber
            (some (identifierToken
              (String.mk (matchTillInvalid (cstr code offset) isWordCharacter)))))
    ∨ (isdigit (code.getD offset nul) = true
      ∧ scan code offset lineNumber
        = match parseIntegerLiteral (cstr code offset) with
          | none => .failed "invalid integer literal"
          | some integer =>
            .advance (u32 (offset + getIntegerLiteralLength (cstr code offset))) lineNumber
              (some (.Integer integer)))
    ∨ (code.getD offset nul ≠ Char.ofNat 39 ∧ isalpha (code.getD offset nul) = false
      ∧ isdigit (code.getD offset nul) = false
      ∧ scan code offset lineNumber = .failed "unknown token") := by
  generalize hr : scan code offset lineNumber = r
  unfold scan at hr
  rw [if_neg (not_not.mpr hlt)] at hr
  dsimp only at hr
  by_cases hnul : code.getD offset nul = nul
  · rw [if_pos hnul] at hr
    exact Or.inl ⟨hnul, hr.symm⟩
  rw [if_neg hnul] at hr
  by_cases hspace : (isblank (code.getD offset nul) || isspace (code.getD offset nul)) = true
  · rw [if_pos hspace] at hr
    exact Or.inr (Or.inl ⟨hspace, hr.symm⟩)
  rw [if_neg hspace] at hr
  by_cases h0 : code.getD offset nul = ';'
  · rw [if_pos h0] at hr
    exact Or.inr (Or.inr (Or.inl ⟨by rw [h0]; decide, _, hr.symm⟩))
  rw [if_neg h0] at hr
  by_cases h1 : code.getD offset nul = '('
  · rw [if_pos h1] at hr
    exact Or.inr (Or.inr (Or.inl ⟨by rw [h1]; decide, _, hr.symm⟩))
  rw [if_neg h1] at hr
  by_cases h2 : code.getD offset nul = ')'
  · rw [if_pos h2] at hr
    exact Or.inr (Or.inr (Or.inl ⟨by rw [h2]; decide, _, hr.symm⟩))
  rw [if_neg h2] at hr
  by_cases h3 : code.getD offset nul = Char.ofNat 123
  · rw [if_pos h3] at hr
    exact Or.inr (Or.inr (Or.inl ⟨by rw [h3]; decide, _, hr.symm⟩))
  rw [if_neg h3] at hr
  by_cases h4 : code.getD offset nul = Char.ofNat 125
  · rw [if_pos h4] at hr
    exact Or.inr (Or.inr (Or.inl ⟨by rw [h4]; decide, _, hr.symm⟩))
  rw [if_neg h4] at hr
  by_cases h5 : code.getD offset nul = '['
  · rw [if_pos h5] at hr
    exact Or.inr (Or.inr (Or.inl ⟨by rw [h5]; decide, _, hr.symm⟩))
  rw [if_neg h5] at hr
  by_cases h6 : code.getD offset nul = ']'
  · rw [if_pos h6] at hr
    exact Or.inr (Or.inr (Or.inl ⟨by rw [h6]; decide, _, hr.symm⟩))
  rw [if_neg h6] at hr
  by_cases h7 : code.getD offset nul = ','
  · rw [if_pos h7] at hr
    exact Or.inr (Or.inr (Or.inl ⟨by rw [h7]; decide, _, hr.symm⟩))
  rw [if_neg h7] at hr
  by_cases h8 : code.getD offset nul = '.'
  · rw [if_pos h8] at hr
    exact Or.inr (Or.inr (Or.inl ⟨by rw [h8]; decide, _, hr.symm⟩))
  rw [if_neg h8] at hr
  by_cases h9 : code.getD offset nul = '@'
  · rw [if_pos h9] at hr
    exact Or.inr (Or.inr (Or.inl ⟨by rw [h9]; decide, _, hr.symm⟩))
  rw [if_neg h9] at hr
  by_cases h10 : (code.drop offset).take 2 = ['=', '=']
  · rw [if_pos h10] at hr
    exact Or.inr (Or.inr (Or.inr (Or.inl ⟨by rw [h10]; decide, _, hr.symm⟩)))
  rw [if_neg h10] at hr
  by_cases h11 : (code.drop offset).take 2 = ['!', '=']
  · rw [if_pos h11] at hr
    exact Or.inr (Or.inr (Or.inr (Or.inl ⟨by rw [h11]; decide, _, hr.symm⟩)))
  rw [if_neg h11] at hr
  by_cases h12 : (code.drop offset).take 2 = ['>', '=']
  · rw [if_pos h12] at hr
    exact Or.inr (Or.inr (Or.inr (Or.inl ⟨by rw [h12]; decide, _, hr.symm⟩)))
  rw [if_neg h12] at hr
  by_cases h13 : (code.drop offset).take 2 = ['<', '=']
  · rw [if_pos h13] at hr
    exact Or.inr (Or.inr (Or.inr (Or.inl ⟨by rw [h13]; decide, _, hr.symm⟩)))
  rw [if_neg h13] at hr
  by_cases h14 : (code.drop offset).take 2 = ['&', '&']
  · rw [if_pos h14] at hr
    exact Or.inr (Or.inr (Or.inr (Or.inl ⟨by rw [h14]; decide, _, hr.symm⟩)))
  rw [if_neg h14] at hr
  by_cases h15 : (code.drop offset).take 2 = ['|', '|']
  · rw [if_pos h15] at hr
    exact Or.inr (Or.inr (Or.inr (Or.inl ⟨by rw [h15]; decide, _, hr.symm⟩)))
  rw [if_neg h15] at hr
  by_cases h16 : (code.drop offset).take 2 = ['^', '^']
  · rw [if_pos h16] at hr
    exact Or.inr (Or.inr (Or.inr (Or.inl ⟨by rw [h16]; decide, _, hr.symm⟩)))
  rw [if_neg h16] at hr
  by_cases h17 : code.getD offset nul = '='
  · rw [if_pos h17] at hr
    exact Or.inr (Or.inr (Or.inl ⟨by rw [h17]; decide, _, hr.symm⟩))
  rw [if_neg h17] at hr
  by_cases h18 : (code.drop offset).take 2 = [':', ':']
  · rw [if_pos h18] at hr
    exact Or.inr (Or.inr (Or.inr (Or.inl ⟨by rw [h18]; decide, _, hr.symm⟩)))
  rw [if_neg h18] at hr
  by_cases h19 : code.getD offset nul = ':'
  · rw [if_pos h19] at hr
    exact Or.inr (Or.inr (Or.inl ⟨by rw [h19]; decide, _, hr.symm⟩))
  rw [if_neg h19] at hr
  by_cases h20 : code.getD offset nul = '+'
  · rw [if_pos h20] at hr
    exact Or.inr (Or.inr (Or.inl ⟨by rw [h20]; decide, _, hr.symm⟩))
  rw [if_neg h20] at hr
  by_cases h21 : code.getD offset nul = '-'
  · rw [if_pos h21] at hr
    exact Or.inr (Or.inr (Or.inl ⟨by rw [h21]; decide, _, hr.symm⟩))
  rw [if_neg h21] at hr
  by_cases h22 : code.getD offset nul = '*'
  · rw [if_pos h22] at hr
    exact Or.inr (Or.inr (Or.inl ⟨by rw [h22]; decide, _, hr.symm⟩))
  rw [if_neg h22] at hr
  by_cases h23 : code.getD offset nul = '/'
  · rw [if_pos h23] at hr
    exact Or.inr (Or.inr (Or.inl ⟨by rw [h23]; decide, _, hr.symm⟩))
  rw [if_neg h23] at hr
  by_cases h24 : (code.drop offset).take 2 = ['<', '<']
  · rw [if_pos h24] at hr
    exact Or.inr (Or.inr (Or.inr (Or.inl ⟨by rw [h24]; decide, _, hr.symm⟩)))
  rw [if_neg h24] at hr
  by_cases h25 : (code.drop offset).take 2 = ['>', '>']
  · rw [if_pos h25] at hr
    exact Or.inr (Or.inr (Or.inr (Or.inl ⟨by rw [h25]; decide, _, hr.symm⟩)))
  rw [if_neg h25] at hr
  by_cases h26 : code.getD offset nul = '>'
  · rw [if_pos h26] at hr
    exact Or.inr (Or.inr (Or.inl ⟨by rw [h26]; decide, _, hr.symm⟩))
  rw [if_neg h26] at hr
  by_cases h27 : code.getD offset nul = '<'
  · rw [if_pos h27] at hr
    exact Or.inr (Or.inr (Or.inl ⟨by rw [h27]; decide, _, hr.symm⟩))
  rw [if_neg h27] at hr
  by_cases h28 : code.getD offset nul = '!'
  · rw [if_pos h28] at hr
    exact Or.inr (Or.inr (Or.inl ⟨by rw [h28]; decide, _, hr.symm⟩))
  rw [if_neg h28] at hr
  by_cases h29 : code.getD offset nul = '|'
  · rw [if_pos h29] at hr
    exact Or.inr (Or.inr (Or.inl ⟨by rw [h29]; decide, _, hr.symm⟩))
  rw [if_neg h29] at hr
  by_cases h30 : code.getD offset nul = '&'
  · rw [if_pos h30] at hr
    exact Or.inr (Or.inr (Or.inl ⟨by rw [h30]; decide, _, hr.symm⟩))
  rw [if_neg h30] at hr
  by_cases h31 : code.getD offset nul = '^'
  · rw [if_pos h31] at hr
    exact Or.inr (Or.inr (Or.inl ⟨by rw [h31]; decide, _, hr.symm⟩))
  rw [if_neg h31] at hr
  by_cases h32 : code.getD offset nul = '~'
  · rw [if_pos h32] at hr
    exact Or.inr (Or.inr (Or.inl ⟨by rw [h32]; decide, _, hr.symm⟩))
  rw [if_neg h32] at hr
  by_cases h33 : code.getD offset nul = '?'
  · rw [if_pos h33] at hr
    exact Or.inr (Or.inr (Or.inl ⟨by rw [h33]; decide, _, hr.symm⟩))
  rw [if_neg h33] at hr
  by_cases hquote : code.getD offset nul = Char.ofNat 39
  · rw [if_pos hquote] at hr
    exact Or.inr (Or.inr (Or.inr (Or.inr (Or.inl ⟨hquote, hr.symm⟩))))
  rw [if_neg hquote] at hr
  by_cases halpha : isalpha (code.getD offset nul) = true
  · rw [if_pos halpha] at hr
    exact Or.inr (Or.inr (Or.inr (Or.inr (Or.inr (Or.inl ⟨halpha, hr.symm⟩)))))
  rw [if_neg halpha] at hr
  by_cases hdigit : isdigit (code.getD offset nul) = true
  · rw [if_pos hdigit] at hr
    exact Or.inr (Or.inr (Or.inr (Or.inr (Or.inr (Or.inr (Or.inl ⟨hdigit, hr.symm⟩))))))
  rw [if_neg hdigit] at hr
  exact Or.inr (Or.inr (Or.inr (Or.inr (Or.inr (Or.inr (Or.inr
    ⟨hquote, by simpa using halpha, by simpa using hdigit, hr.symm⟩))))))

theorem getD_of_take_two {code : List Char} {offset : Nat} {a b : Char}
    (h : (code.drop offset).take 2 = [a, b]) : code.getD offset nul = a := by
  have h0 : ((code.drop offset).take 2)[0]? = some a := by rw [h]; rfl
  rw [List.getElem?_take, if_pos (by norm_num : 0 < 2), List.getElem?_drop, Nat.add_zero] at h0
  rw [List.getD_eq_getElem?_getD, h0]
  rfl

theorem pair_head {code : List Char} {offset : Nat}
    (h : (code.drop offset).take 2 ∈ operatorPairs) :
    code.getD offset nul ∈ punctuation := by
  simp only [operatorPairs, List.mem_cons, List.mem_singleton, List.not_mem_nil, or_false] at h
  rcases h with h | h | h | h | h | h | h | h | h | h <;>
    (rw [getD_of_take_two h]; decide)

theorem scan_quote (code : List Char) (offset lineNumber : Nat) (hlt : offset < code.length)
    (hc : code.getD offset nul = quoteCharacter) :
    scan code offset lineNumber = scanCharacter code offset lineNumber := by
  rcases scan_cases code offset lineNumber hlt with h | h | h | h | h | h | h | h
  · rw [hc] at h; exact absurd h.1 (by decide)
  · rw [hc] at h; exact absurd h.1 (by decide)
  · rw [hc] at h; exact absurd h.1 (by decide)
  · have := pair_head h.1
    rw [hc] at this
    exact absurd this (by decide)
  · exact h.2
  · rw [hc] at h; exact absurd h.1 (by decide)
  · rw [hc] at h; exact absurd h.1 (by decide)
  · exact absurd hc h.1

theorem scanCharacter_form (body : List Char) (lineNumber : Nat) :
    ∃ message, scanCharacter (quoteCharacter :: body) 0 lineNumber
      = match characterLiteral body with
        | some (x, n) => .advance n lineNumber (some (characterToken x))
        | none => .failed message := by
  have hu1 : u32 (0 + 1) = 1 := rfl
  have hu2 : u32 (1 + 1) = 2 := rfl
  have hu3 : u32 (2 + 1) = 3 := rfl
  have hu4 : u32 (3 + 1) = 4 := rfl
  have hq : quoteCharacter = Char.ofNat 39 := rfl
  have hb : backslashCharacter = Char.ofNat 92 := rfl
  have h1 : Char.ofNat 39 ≠ Char.ofNat 92 := by decide
  have h2 : Char.ofNat 10 ≠ Char.ofNat 92 := by decide
  have h3 : Char.ofNat 13 ≠ Char.ofNat 92 := by decide
  have h4 : Char.ofNat 92 ≠ Char.ofNat 39 := by decide
  rcases body with _ | ⟨x, _ | ⟨y, _ | ⟨z, rest⟩⟩⟩
  · exact ⟨"invalid character literal", rfl⟩
  · by_cases hx92 : x = Char.ofNat 92
    · simp [scanCharacter, characterLiteral, characterToken, hu1, hu2, hu3, hu4, hq, hb, hx92]
    · by_cases hx39 : x = Char.ofNat 39 <;>
        by_cases hx10 : x = Char.ofNat 10 <;> by_cases hx13 : x = Char.ofNat 13 <;>
        simp [scanCharacter, characterLiteral, characterToken, hu1, hu2, hu3, hu4, hq, hb, *]
  · by_cases hx92 : x = Char.ofNat 92
    · by_cases hy92 : y = Char.ofNat 92 <;> by_cases hy39 : y = Char.ofNat 39 <;>
        simp [scanCharacter, characterLiteral, characterToken, hu1, hu2, hu3, hu4, hq, hb, *]
    · by_cases hx39 : x = Char.ofNat 39 <;>
        by_cases hx10 : x = Char.ofNat 10 <;> by_cases hx13 : x = Char.ofNat 13 <;>
        by_cases hy39 : y = Char.ofNat 39 <;>
        simp [scanCharacter, characterLiteral, characterToken, hu1, hu2, hu3, hu4, hq, hb, *]
  · by_cases hx92 : x = Char.ofNat 92
    · by_cases hy92 : y = Char.ofNat 92 <;> by_cases hy39 : y = Char.ofNat 39 <;>
        by_cases hz39 : z = Char.ofNat 39 <;>
        simp [scanCharacter, characterLiteral, characterToken, hu1, hu2, hu3, hu4, hq, hb, *]
    · by_cases hx39 : x = Char.ofNat 39 <;>
        by_cases hx10 : x = Char.ofNat 10 <;> by_cases hx13 : x = Char.ofNat 13 <;>
        by_cases hy39 : y = Char.ofNat 39 <;>
        simp [scanCharacter, characterLiteral, characterToken, hu1, hu2, hu3, hu4, hq, hb, *]

theorem scan_end {code : List Char} {offset : Nat} (lineNumber : Nat)
    (h : code.length ≤ offset) : scan code offset lineNumber = .leave := by
  unfold scan
  rw [if_pos (by omega)]

theorem scan_characterLiteral (body : List Char) (lineNumber : Nat) :
    ∃ message, scan (quoteCharacter :: body) 0 lineNumber
      = match characterLiteral body with
        | some (x, n) => .advance n lineNumber (some (characterToken x))
        | none => .failed message := by
  rw [scan_quote (quoteCharacter :: body) 0 lineNumber (Nat.succ_pos _) rfl]
  exact scanCharacter_form body lineNumber

theorem characterToken_value (x : Char) (h : x.toNat < 128) :
    characterToken x = .Integer ⟨.Character, .int .chr x.toNat⟩ := by
  unfold characterToken IntKind.wrap
  have h1 : IntKind.chr.isSigned = true := rfl
  have h2 : IntKind.chr.bits = 8 := rfl
  rw [if_pos h1, h2]
  have : ((x.toNat : Int) + 2 ^ (8 - 1)) % 2 ^ 8 - 2 ^ (8 - 1) = (x.toNat : Int) := by omega
  rw [this]

/-! ## Character literals -/

/-- C33: a source that starts with a quote lexes, in its first round, by what
follows the quote. When that is a character literal — one character other than
backslash, quote, newline and carriage return and a quote, or a backslash, a
backslash or a quote, and a quote — `scan` yields one `Integer` token of type
`Character` holding that character (the backslash or the quote for the two
escapes) and goes on behind the closing quote, so that the sources `'X'`,
`'\\'` and `'\''` lex to that token followed by end-of-program. In every other
form (another escape, an empty literal, a raw newline or carriage return, a
missing closing quote, the end of the input inside the literal) `Lexer::lex`
fails. The token holds the character as a `char`, which is the code of an ASCII
character. -/
theorem C33_character_literals (fuel : Nat) (body : List Char) :
    (∀ x n, characterLiteral body = some (x, n) →
      ∀ lineNumber, scan (quoteCharacter :: body) 0 lineNumber
        = .advance n lineNumber (some (characterToken x)))
    ∧ (∀ x, body = [x, quoteCharacter] → x ≠ backslashCharacter → x ≠ quoteCharacter →
        x ≠ Char.ofNat 10 → x ≠ Char.ofNat 13 →
      Lexer.lex (fuel + 2) (String.mk (quoteCharacter :: body))
        = some (.ok [⟨characterToken x, 1⟩, ⟨.Separator .EndOfProgram, 1⟩]))
    ∧ (∀ e, body = [backslashCharacter, e, quoteCharacter] →
        e = backslashCharacter ∨ e = quoteCharacter →
      Lexer.lex (fuel + 2) (String.mk (quoteCharacter :: body))
        = some (.ok [⟨characterToken e, 1⟩, ⟨.Separator .EndOfProgram, 1⟩]))
    ∧ (characterLiteral body = none →
      ∃ message, Lexer.lex (fuel + 1) (String.mk (quoteCharacter :: body))
        = some (.error ⟨message, 1⟩))
    ∧ (∀ x : Char, x.toNat < 128 →
      characterToken x = .Integer ⟨.Character, .int .chr x.toNat⟩) := by
  have hscan : ∀ x n, characterLiteral body = some (x, n) →
      ∀ lineNumber, scan (quoteCharacter :: body) 0 lineNumber
        = .advance n lineNumber (some (characterToken x)) := by
    intro x n h lineNumber
    obtain ⟨message, hm⟩ := scan_characterLiteral body lineNumber
    rw [h] at hm
    exact hm
  refine ⟨hscan, ?_, ?_, ?_, characterToken_value⟩
  · intro x hbody h1 h2 h3 h4
    subst hbody
    have hlit : characterLiteral [x, quoteCharacter] = some (x, 3) := by
      simp [characterLiteral, h1, h2, h3, h4]
    exact lexLoop_token_then_end fuel (hscan x 3 hlit 1) (scan_end 1 (Nat.le_refl 3))
  · intro e hbody he
    subst hbody
    have hlit : characterLiteral [backslashCharacter, e, quoteCharacter] = some (e, 4) := by
      simp [characterLiteral, he]
    exact lexLoop_token_then_end fuel (hscan e 4 hlit 1) (scan_end 1 (Nat.le_refl 4))
  · intro hnone
    obtain ⟨message, hm⟩ := scan_characterLiteral body 1
    rw [hnone] at hm
    exact ⟨message, lexLoop_of_scan_failed fuel ⟨0, 1, []⟩ hm⟩

theorem C33_character_literals_witness :
    Lexer.lex 2 "'a'" = some (.ok [⟨.Integer ⟨.Character, .int .chr 97⟩, 1⟩,
        ⟨.Separator .EndOfProgram, 1⟩])
    ∧ Lexer.lex 2 "'\\''" = some (.ok [⟨.Integer ⟨.Character, .int .chr 39⟩, 1⟩,
        ⟨.Separator .EndOfProgram, 1⟩])
    ∧ (∃ message, Lexer.lex 1 "'\\n'" = some (.error ⟨message, 1⟩))
    ∧ (∃ message, Lexer.lex 1 "''" = some (.error ⟨message, 1⟩))
    ∧ (∃ message, Lexer.lex 1 "'ab'" = some (.error ⟨message, 1⟩)) :=
  ⟨(C33_character_literals 0 ['a', quoteCharacter]).2.1 'a' rfl (by decide) (by decide)
      (by decide) (by decide),
    (C33_character_literals 0 [backslashCharacter, quoteCharacter, quoteCharacter]).2.2.1
      quoteCharacter rfl (Or.inr rfl),
    (C33_character_literals 0 [backslashCharacter, 'n', quoteCharacter]).2.2.2.1 (by decide),
    (C33_character_literals 0 [quoteCharacter]).2.2.2.1 (by decide),
    (C33_character_literals 0 ['a', 'b', quoteCharacter]).2.2.2.1 (by decide)⟩

theorem isalpha_not_punctuation {c : Char} (h : isalpha c = true) : c ∉ punctuation := by
  intro hmem
  simp only [punctuation, List.mem_cons, List.mem_singleton, List.not_mem_nil, or_false] at hmem
  rcases hmem with rfl | rfl | rfl | rfl | rfl | rfl | rfl | rfl | rfl | rfl | rfl | rfl | rfl
    | rfl | rfl | rfl | rfl | rfl | rfl | rfl | rfl | rfl | rfl | rfl <;>
    exact absurd h (by decide)

theorem isalpha_not_space {c : Char} (h : isalpha c = true) :
    (isblank c || isspace c) = false := by
  simp only [isalpha, isblank, isspace, Bool.or_eq_true, decide_eq_true_eq, Bool.or_eq_false_iff,
    decide_eq_false_iff_not] at *
  omega

theorem isalpha_not_digit {c : Char} (h : isalpha c = true) : isdigit c = false := by
  simp only [isalpha, isdigit, Bool.or_eq_true, decide_eq_true_eq,
    decide_eq_false_iff_not] at *
  omega

theorem scan_alpha (code : List Char) (offset lineNumber : Nat) (hlt : offset < code.length)
    (hc : isalpha (code.getD offset nul) = true) :
    scan code offset lineNumber
      = .advance (u32 (offset + (matchTillInvalid (cstr code offset) isWordCharacter).length))
          lineNumber
          (some (identifierToken (String.mk (matchTillInvalid (cstr code offset) isWordCharacter)))) := by
  rcases scan_cases code offset lineNumber hlt with h | h | h | h | h | h | h | h
  · rw [h.1] at hc; exact absurd hc (by decide)
  · rw [isalpha_not_space hc] at h; exact absurd h.1 (by decide)
  · exact absurd h.1 (isalpha_not_punctuation hc)
  · exact absurd (pair_head h.1) (isalpha_not_punctuation hc)
  · rw [h.1] at hc; exact absurd hc (by decide)
  · exact h.2
  · rw [isalpha_not_digit hc] at h; exact absurd h.1 (by decide)
  · rw [h.2.1] at hc; exact absurd hc (by decide)

theorem takeWhile_takeWhile_of_imp {p q : Char → Bool} (h : ∀ c, p c = true → q c = true) :
    ∀ l : List Char, (l.takeWhile q).takeWhile p = l.takeWhile p
  | [] => rfl
  | c :: l => by
    by_cases hp : p c = true
    · rw [List.takeWhile_cons_of_pos (h c hp), List.takeWhile_cons_of_pos hp,
        List.takeWhile_cons_of_pos hp, takeWhile_takeWhile_of_imp h l]
    · by_cases hq : q c = true
      · rw [List.takeWhile_cons_of_pos hq, List.takeWhile_cons_of_neg hp,
          List.takeWhile_cons_of_neg hp]
      · rw [List.takeWhile_cons_of_neg hq, List.takeWhile_cons_of_neg hp]
        rfl

theorem takeWhile_run {p : Char → Bool} :
    ∀ (w rest : List Char), (∀ c ∈ w, p c = true) → (∀ c ∈ rest.head?, p c = false) →
      (w ++ rest).takeWhile p = w
  | [], [], _, _ => rfl
  | [], c :: rest, _, hrest => by
    have : p c = false := hrest c rfl
    rw [List.nil_append, List.takeWhile_cons_of_neg (by rw [this]; decide)]
  | c :: w, rest, hall, hrest => by
    rw [List.cons_append, List.takeWhile_cons_of_pos (hall c (List.mem_cons_self _ _)),
      takeWhile_run w rest (fun d hd => hall d (List.mem_cons_of_mem _ hd)) hrest]

theorem isWordCharacter_not_nul (c : Char) (h : isWordCharacter c = true) :
    (c != nul) = true := by
  rw [bne_iff_ne]
  rintro rfl
  exact absurd h (by decide)

theorem matchTillInvalid_run {code : List Char} {offset : Nat} {c : Char} {w rest : List Char}
    (hcode : code.drop offset = c :: w ++ rest) (hc : isalpha c = true)
    (hall : ∀ d ∈ w, isWordCharacter d = true)
    (hrest : ∀ d ∈ rest.head?, isWordCharacter d = false) :
    matchTillInvalid (cstr code offset) isWordCharacter = c :: w := by
  have hnul : (c != nul) = true := by
    rw [bne_iff_ne]
    rintro rfl
    exact absurd hc (by decide)
  unfold cstr
  rw [hcode, List.cons_append, List.takeWhile_cons]
  simp only [hnul, if_true]
  unfold matchTillInvalid
  simp only
  rw [takeWhile_takeWhile_of_imp isWordCharacter_not_nul, takeWhile_run w rest hall hrest]

theorem identifierToken_of_not_reserved (identifier : String)
    (h : identifier ∉ reservedWords) : identifierToken identifier = .Identifier identifier := by
  simp only [reservedWords, List.mem_cons, List.mem_singleton, List.not_mem_nil, or_false,
    not_or] at h
  unfold identifierToken
  rw [if_neg h.1, if_neg h.2.1, if_neg h.2.2.1, if_neg h.2.2.2.1, if_neg h.2.2.2.2.1,
    if_neg h.2.2.2.2.2.1, if_neg h.2.2.2.2.2.2.1, if_neg h.2.2.2.2.2.2.2.1,
    if_neg h.2.2.2.2.2.2.2.2.1, if_neg h.2.2.2.2.2.2.2.2.2.1, if_neg h.2.2.2.2.2.2.2.2.2.2.1,
    if_neg h.2.2.2.2.2.2.2.2.2.2.2.1, if_neg h.2.2.2.2.2.2.2.2.2.2.2.2.1,
    if_neg h.2.2.2.2.2.2.2.2.2.2.2.2.2.1, if_neg h.2.2.2.2.2.2.2.2.2.2.2.2.2.2.1,
    if_neg h.2.2.2.2.2.2.2.2.2.2.2.2.2.2.2.1, if_neg h.2.2.2.2.2.2.2.2.2.2.2.2.2.2.2.2.1,
    if_neg h.2.2.2.2.2.2.2.2.2.2.2.2.2.2.2.2.2.1, if_neg h.2.2.2.2.2.2.2.2.2.2.2.2.2.2.2.2.2.2.1,
    if_neg h.2.2.2.2.2.2.2.2.2.2.2.2.2.2.2.2.2.2.2.1,
    if_neg h.2.2.2.2.2.2.2.2.2.2.2.2.2.2.2.2.2.2.2.2.1,
    if_neg h.2.2.2.2.2.2.2.2.2.2.2.2.2.2.2.2.2.2.2.2.2.1,
    if_neg h.2.2.2.2.2.2.2.2.2.2.2.2.2.2.2.2.2.2.2.2.2.2]

theorem newlinesBefore_length (code : List Char) :
    newlinesBefore code code.length = code.count (Char.ofNat 10) := by
  unfold newlinesBefore
  rw [List.take_length]

theorem findIdx?_some_take {p : Char → Bool} :
    ∀ (l : List Char) (i : Nat), l.findIdx? p = some i →
      i < l.length ∧ ∀ c ∈ l.take i, p c = false
  | [], i, h => by cases h
  | c :: l, i, h => by
    rw [List.findIdx?_cons] at h
    by_cases hp : p c = true
    · rw [if_pos hp] at h
      cases h
      exact ⟨Nat.succ_pos _, fun d hd => by cases hd⟩
    · rw [if_neg hp, List.findIdx?_succ] at h
      cases hl : l.findIdx? p with
      | none => rw [hl] at h; cases h
      | some j =>
        rw [hl] at h
        cases h
        obtain ⟨hj, hall⟩ := findIdx?_some_take l j hl
        refine ⟨Nat.succ_lt_succ hj, fun d hd => ?_⟩
        rw [List.take_succ_cons, List.mem_cons] at hd
        rcases hd with rfl | hd
        · simpa using hp
        · exact hall d hd

theorem lexRounds_succ {code : List Char} :
    ∀ (rounds : Nat) (st₀ st st' : LexState), lexRounds code rounds st₀ = some st →
      lexStep code st = .next st' → lexRounds code (rounds + 1) st₀ = some st'
  | 0, st₀, st, st', h, hstep => by
    cases h
    simp only [lexRounds, hstep]
  | rounds + 1, st₀, st, st', h, hstep => by
    rw [lexRounds] at h
    rw [lexRounds]
    cases h₀ : lexStep code st₀ with
    | next st₁ =>
      rw [h₀] at h
      exact lexRounds_succ rounds st₁ st st' h hstep
    | finished tokens => rw [h₀] at h; cases h
    | failed e => rw [h₀] at h; cases h

theorem lexLoop_of_lexRounds {code : List Char} :
    ∀ (rounds : Nat) (st₀ st : LexState), lexRounds code rounds st₀ = some st →
      ∀ fuel, lexLoop code (fuel + rounds) st₀ = lexLoop code fuel st
  | 0, st₀, st, h, fuel => by
    cases h
    rfl
  | rounds + 1, st₀, st, h, fuel => by
    rw [lexRounds] at h
    cases h₀ : lexStep code st₀ with
    | next st₁ =>
      rw [h₀] at h
      rw [← Nat.add_assoc, lexLoop_next h₀]
      exact lexLoop_of_lexRounds rounds st₁ st h fuel
    | finished tokens => rw [h₀] at h; cases h
    | failed e => rw [h₀] at h; cases h

theorem lexLoop_some_of_lexRounds {code : List Char} :
    ∀ (rounds : Nat) (st₀ st : LexState), lexRounds code rounds st₀ = some st →
      ∀ fuel result, lexLoop code fuel st₀ = some result →
        ∃ fuel', fuel = fuel' + rounds ∧ lexLoop code fuel' st = some result
  | 0, st₀, st, h, fuel, result, hresult => by
    cases h
    exact ⟨fuel, rfl, hresult⟩
  | rounds + 1, st₀, st, h, fuel, result, hresult => by
    rw [lexRounds] at h
    cases h₀ : lexStep code st₀ with
    | next st₁ =>
      rw [h₀] at h
      cases fuel with
      | zero => cases hresult
      | succ fuel =>
        rw [lexLoop_next h₀] at hresult
        obtain ⟨fuel', hfuel, hloop⟩ :=
          lexLoop_some_of_lexRounds rounds st₁ st h fuel result hresult
        exact ⟨fuel', by omega, hloop⟩
    | finished tokens => rw [h₀] at h; cases h
    | failed e => rw [h₀] at h; cases h

theorem lexLoop_tokens {code : List Char} :
    ∀ (fuel : Nat) (st : LexState) (tokens : List Token),
      lexLoop code fuel st = some (.ok tokens) → ∃ more, tokens = st.tokens ++ more
  | 0, st, tokens, h => by cases h
  | fuel + 1, st, tokens, h => by
    cases hs : scan code st.offset st.lineNumber with
    | advance offset lineNumber token =>
      cases token with
      | none =>
        rw [lexLoop_next (lexStep_of_scan_none st hs)] at h
        exact lexLoop_tokens fuel ⟨offset, lineNumber, st.tokens⟩ tokens h
      | some value =>
        rw [lexLoop_next (lexStep_of_scan_some st hs)] at h
        obtain ⟨more, hmore⟩ := lexLoop_tokens fuel
          ⟨offset, lineNumber, st.tokens ++ [⟨value, st.lineNumber⟩]⟩ tokens h
        exact ⟨⟨value, st.lineNumber⟩ :: more, by rw [hmore, List.append_assoc]; rfl⟩
    | leave =>
      rw [lexLoop] at h
      unfold lexStep at h
      rw [hs] at h
      cases h
      exact ⟨_, rfl⟩
    | failed message =>
      rw [lexLoop] at h
      unfold lexStep at h
      rw [hs] at h
      cases h

theorem lexLoop_add {code : List Char} :
    ∀ (fuel : Nat) (st : LexState) (result : Except LexerError (List Token)),
      lexLoop code fuel st = some result → ∀ more, lexLoop code (fuel + more) st = some result
  | 0, st, result, h, more => by cases h
  | fuel + 1, st, result, h, more => by
    rw [lexLoop] at h
    rw [Nat.add_right_comm, lexLoop]
    cases h₀ : lexStep code st with
    | next st₁ =>
      rw [h₀] at h
      exact lexLoop_add fuel st₁ result h more
    | finished tokens => rw [h₀] at h; exact h
    | failed e => rw [h₀] at h; exact h

theorem isdigit_not_punctuation {c : Char} (h : isdigit c = true) : c ∉ punctuation := by
  intro hmem
  simp only [punctuation, List.mem_cons, List.mem_singleton, List.not_mem_nil, or_false] at hmem
  rcases hmem with rfl | rfl | rfl | rfl | rfl | rfl | rfl | rfl | rfl | rfl | rfl | rfl | rfl
    | rfl | rfl | rfl | rfl | rfl | rfl | rfl | rfl | rfl | rfl | rfl <;>
    exact absurd h (by decide)

theorem isdigit_not_space {c : Char} (h : isdigit c = true) :
    (isblank c || isspace c) = false := by
  simp only [isdigit, isblank, isspace, Bool.or_eq_true, decide_eq_true_eq, Bool.or_eq_false_iff,
    decide_eq_false_iff_not] at *
  omega

theorem isdigit_not_alpha {c : Char} (h : isdigit c = true) : isalpha c = false := by
  simp only [isalpha, isdigit, Bool.or_eq_true, decide_eq_true_eq,
    decide_eq_false_iff_not] at *
  omega

theorem scan_digit (code : List Char) (offset lineNumber : Nat) (hlt : offset < code.length)
    (hc : isdigit (code.getD offset nul) = true) :
    scan code offset lineNumber
      = match parseIntegerLiteral (cstr code offset) with
        | none => .failed "invalid integer literal"
        | some integer =>
          .advance (u32 (offset + getIntegerLiteralLength (cstr code offset))) lineNumber
            (some (.Integer integer)) := by
  rcases scan_cases code offset lineNumber hlt with h | h | h | h | h | h | h | h
  · rw [h.1] at hc; exact absurd hc (by decide)
  · rw [isdigit_not_space hc] at h; exact absurd h.1 (by decide)
  · exact absurd h.1 (isdigit_not_punctuation hc)
  · exact absurd (pair_head h.1) (isdigit_not_punctuation hc)
  · rw [h.1] at hc; exact absurd hc (by decide)
  · rw [isdigit_not_alpha hc] at h; exact absurd h.1 (by decide)
  · exact h.2
  · rw [h.2.2.1] at hc; exact absurd hc (by decide)

/-! ## Malformed literals -/

theorem findIdx?_all_of_none {p : Char → Bool} :
    ∀ (l : List Char), l.findIdx? p = none → ∀ c ∈ l, p c = false
  | [], _, c, hc => by cases hc
  | a :: l, h, c, hc => by
    rw [List.findIdx?_cons] at h
    by_cases hp : p a = true
    · rw [if_pos hp] at h; cases h
    · rw [if_neg hp, List.findIdx?_succ] at h
      cases hl : l.findIdx? p with
      | some j => rw [hl] at h; cases h
      | none =>
        rcases List.mem_cons.mp hc with rfl | hc
        · simpa using hp
        · exact findIdx?_all_of_none l hl c hc

theorem findFirstNotOf_of_mem {string allowed : List Char} (hlen : string.length < 2 ^ 64)
    {c : Char} (hc : c ∈ string) (hnot : allowed.contains c = false) :
    (findFirstNotOf string allowed != npos) = true := by
  rw [bne_iff_ne]
  unfold findFirstNotOf
  cases hidx : string.findIdx? (fun c => !allowed.contains c) with
  | none =>
    have := findIdx?_all_of_none string hidx c hc
    rw [hnot] at this
    cases this
  | some i =>
    have hi := (findIdx?_some_take string i hidx).1
    have : npos = 2 ^ 64 - 1 := rfl
    simp only
    omega

theorem startsWith_two {s : List Char} {a b : Char} (h : startsWith s [a, b] = true) :
    s = a :: b :: s.drop 2 := by
  cases s with
  | nil => simp [startsWith, List.isPrefixOf] at h
  | cons c s =>
    cases s with
    | nil => simp [startsWith, List.isPrefixOf] at h
    | cons d s =>
      simp only [startsWith, List.isPrefixOf, Bool.and_eq_true, beq_iff_eq, and_true] at h
      rw [h.1, h.2]
      rfl

theorem region_of_lead {body : List Char} {a : Char} {radix : Radix} {allowed : List Char}
    (hstart : startsWith body ['0', a] = true) (ha : a ≠ '.')
    (hradix : literalRadix body = radix) (hlead : radix.lead.length = 2)
    (hallowed : ∀ c, allowed.contains c = true → radix.isDigit c = true)
    (hpoint : radix.isDigit '.' = false) (hlen : body.length < 2 ^ 64)
    (hmalformed : hasInvalidDigit body = true ∨ hasNoDigits body = true
      ∨ hasTwoPoints body = true ∨ hasTrailingPoint body = true)
    (hgood : (findFirstNotOf (body.drop 2) allowed != npos) = false) : body.drop 2 = [] := by
  have hregion : digitRegion body = body.drop 2 := by
    unfold digitRegion
    rw [hradix, hlead]
  have hdigits : ∀ c ∈ body.drop 2, radix.isDigit c = true := by
    intro c hc
    apply hallowed
    have hlen' : (body.drop 2).length < 2 ^ 64 := by
      rw [List.length_drop]
      omega
    cases hin : allowed.contains c with
    | true => rfl
    | false =>
      have := findFirstNotOf_of_mem hlen' hc hin
      rw [hgood] at this
      cases this
  have hno : '.' ∉ body.drop 2 := by
    intro hmem
    have := hdigits _ hmem
    rw [hpoint] at this
    cases this
  have hbody := startsWith_two hstart
  rcases hmalformed with h | h | h | h
  · simp only [hasInvalidDigit, hregion, hradix, List.any_eq_true, Bool.and_eq_true,
      Bool.not_eq_true'] at h
    obtain ⟨c, hc, hbad, _⟩ := h
    rw [hdigits c hc] at hbad
    cases hbad
  · simpa [hasNoDigits, hregion] using h
  · simp only [hasTwoPoints, decide_eq_true_eq] at h
    rw [hbody, List.count_cons_of_ne (by decide), List.count_cons_of_ne (Ne.symm ha)] at h
    exact absurd (List.count_pos_iff.mp (by omega)) hno
  · simp only [hasTrailingPoint, beq_iff_eq] at h
    cases hrest : body.drop 2 with
    | nil => rfl
    | cons d rest =>
      rw [hbody, hrest, List.getLast?_cons_cons, List.getLast?_cons_cons] at h
      have hmem : '.' ∈ body.drop 2 := by
        rw [hrest]
        exact List.mem_of_getLast?_eq_some h
      exact absurd hmem hno

theorem hexadecimal_of_contains (c : Char)
    (h : "0123456789ABCDEFabcdef".toList.contains c = true) :
    Radix.hexadecimal.isDigit c = true := by
  have hmem : c ∈ "0123456789ABCDEFabcdef".toList := List.elem_iff.mp h
  clear h
  revert c
  decide

theorem binary_of_contains (c : Char) (h : "01".toList.contains c = true) :
    Radix.binary.isDigit c = true := by
  have hmem : c ∈ "01".toList := List.elem_iff.mp h
  clear h
  revert c
  decide

theorem decimal_of_contains (c : Char) (h : "0123456789".toList.contains c = true) :
    Radix.decimal.isDigit c = true := by
  have hmem : c ∈ "0123456789".toList := List.elem_iff.mp h
  clear h
  revert c
  decide

theorem decimal_or_point_of_contains (c : Char) (h : "0123456789.".toList.contains c = true) :
    Radix.decimal.isDigit c = true ∨ c = '.' := by
  have hmem : c ∈ "0123456789.".toList := List.elem_iff.mp h
  clear h
  revert c
  decide

theorem selectBase_malformed (type : ValueType) (body : List Char) (hlen : body.length < 2 ^ 64)
    (hmalformed : hasInvalidDigit body = true ∨ hasNoDigits body = true
      ∨ hasTwoPoints body = true ∨ hasTrailingPoint body = true) :
    selectBase type body = none
      ∨ ∃ base type', selectBase type body = some (base, [], type') := by
  by_cases hx : startsWith body ['0', 'x'] = true
  · have hradix : literalRadix body = .hexadecimal := by
      unfold literalRadix
      rw [if_pos hx]
    unfold selectBase
    rw [if_pos hx]
    simp only
    by_cases hfloat : Token.isFloatingPoint type = true
    · rw [if_pos hfloat]; exact Or.inl rfl
    · rw [if_neg hfloat]
      by_cases hbad : (findFirstNotOf (body.drop 2) "0123456789ABCDEFabcdef".toList != npos) = true
      · rw [if_pos hbad]; exact Or.inl rfl
      · rw [if_neg hbad,
          region_of_lead hx (by decide) hradix rfl hexadecimal_of_contains (by decide) hlen
            hmalformed (by simpa using hbad)]
        exact Or.inr ⟨_, _, rfl⟩
  · by_cases hb : startsWith body ['0', 'b'] = true
    · have hradix : literalRadix body = .binary := by
        unfold literalRadix
        rw [if_neg hx, if_pos hb]
      unfold selectBase
      rw [if_neg hx, if_pos hb]
      simp only
      by_cases hfloat : Token.isFloatingPoint type = true
      · rw [if_pos hfloat]; exact Or.inl rfl
      · rw [if_neg hfloat]
        by_cases hbad : (findFirstNotOf (body.drop 2) "01".toList != npos) = true
        · rw [if_pos hbad]; exact Or.inl rfl
        · rw [if_neg hbad,
            region_of_lead hb (by decide) hradix rfl binary_of_contains (by decide) hlen
              hmalformed (by simpa using hbad)]
          exact Or.inr ⟨_, _, rfl⟩
    · have hradix : literalRadix body = .decimal := by
        unfold literalRadix
        rw [if_neg hx, if_neg hb]
      have hregion : digitRegion body = body := by
        unfold digitRegion
        rw [hradix]
        rfl
      unfold selectBase
      rw [if_neg hx, if_neg hb]
      by_cases hpoint : (body.contains '.' || Token.isFloatingPoint type) = true
      · rw [if_pos hpoint]
        simp only
        by_cases hcheck : (decide (body.count '.' > 1)
            || findFirstNotOf body "0123456789.".toList != npos) = true
        · rw [if_pos hcheck]; exact Or.inl rfl
        · rw [if_neg hcheck]
          by_cases hend : endsWith body ['.'] = true
          · rw [if_pos hend]; exact Or.inl rfl
          · rw [if_neg hend]
            simp only [Bool.or_eq_true, decide_eq_true_eq, not_or, Bool.not_eq_true] at hcheck
            rcases hmalformed with h | h | h | h
            · simp only [hasInvalidDigit, hregion, hradix, List.any_eq_true, Bool.and_eq_true,
                Bool.not_eq_true', decide_True, Bool.true_and, beq_eq_false_iff_ne] at h
              obtain ⟨c, hc, hbad, hne⟩ := h
              have hnot : "0123456789.".toList.contains c = false := by
                cases hin : "0123456789.".toList.contains c with
                | false => rfl
                | true =>
                  rcases decimal_or_point_of_contains c hin with h1 | h1
                  · rw [hbad] at h1; cases h1
                  · exact absurd h1 hne
              have := findFirstNotOf_of_mem hlen hc hnot
              rw [hcheck.2] at this
              cases this
            · have hnil : body = [] := by simpa [hasNoDigits, hregion] using h
              rw [hnil]
              exact Or.inr ⟨_, _, rfl⟩
            · simp only [hasTwoPoints, decide_eq_true_eq] at h
              exact absurd h hcheck.1
            · simp only [hasTrailingPoint, beq_iff_eq] at h
              obtain ⟨init, hinit⟩ := List.getLast?_eq_some_iff.mp h
              rw [hinit, endsWith_concat_one] at hend
              exact absurd (by decide) hend
      · rw [if_neg hpoint]
        simp only [Bool.or_eq_true, not_or, Bool.not_eq_true] at hpoint
        by_cases hhead : isdigit (body.headD nul) = true
        · rw [if_pos hhead]
          by_cases hcheck : (findFirstNotOf body "0123456789".toList != npos) = true
          · rw [if_pos hcheck]; exact Or.inl rfl
          · rw [if_neg hcheck]
            have hall : ∀ c ∈ body, Radix.decimal.isDigit c = true := by
              intro c hc
              apply decimal_of_contains
              cases hin : "0123456789".toList.contains c with
              | true => rfl
              | false => exact absurd (findFirstNotOf_of_mem hlen hc hin) hcheck
            have hno : '.' ∉ body := by
              intro hmem
              have := hall _ hmem
              exact absurd this (by decide)
            rcases hmalformed with h | h | h | h
            · simp only [hasInvalidDigit, hregion, hradix, List.any_eq_true, Bool.and_eq_true,
                Bool.not_eq_true'] at h
              obtain ⟨c, hc, hbad, _⟩ := h
              rw [hall c hc] at hbad
              cases hbad
            · have hnil : body = [] := by simpa [hasNoDigits, hregion] using h
              rw [hnil] at hhead
              exact absurd hhead (by decide)
            · simp only [hasTwoPoints, decide_eq_true_eq] at h
              exact absurd (List.count_pos_iff.mp (by omega)) hno
            · simp only [hasTrailingPoint, beq_iff_eq] at h
              exact absurd (List.mem_of_getLast?_eq_some h) hno
        · rw [if_neg hhead]; exact Or.inl rfl

theorem removeSuffix_length_le (s : List Char) (n : Nat) : (removeSuffix s n).length ≤ s.length := by
  unfold removeSuffix
  rw [List.length_take]
  exact Nat.min_le_right _ _

theorem stripSuffix_length_le (numberData : List Char) :
    (stripSuffix numberData).2.length ≤ numberData.length := by
  unfold stripSuffix
  split_ifs <;> first | exact removeSuffix_length_le _ _ | exact Nat.le_refl _

theorem substr_length_le (string : List Char) (pos count : Nat) :
    (substr string pos count).length ≤ string.length := by
  unfold substr
  rw [List.length_take, List.length_drop]
  omega

theorem parse_malformed (string : List Char) (type : ValueType) (body : List Char)
    (hlen : string.length < 2 ^ 64)
    (hstrip : stripSuffix (substr string 0 (getIntegerLiteralLength string)) = (type, body))
    (hmalformed : hasInvalidDigit body = true ∨ hasNoDigits body = true
      ∨ hasTwoPoints body = true ∨ hasTrailingPoint body = true) :
    parseIntegerLiteral string = none := by
  have hbody : body.length < 2 ^ 64 := by
    have h1 := stripSuffix_length_le (substr string 0 (getIntegerLiteralLength string))
    have h2 := substr_length_le string 0 (getIntegerLiteralLength string)
    rw [hstrip] at h1
    simp only at h1
    omega
  unfold parseIntegerLiteral
  simp only [hstrip]
  rcases selectBase_malformed type body hbody hmalformed with h | ⟨base, type', h⟩
  · rw [h]
  · rw [h]
    simp only [List.length_nil, if_true]

/-- C20: `parseIntegerLiteral` returns nothing for every malformed literal.
The literal is what the function takes from the string (the characters up to
the first one that cannot belong to a literal) without the suffix it strips;
it is malformed when its digit region (what follows `0x` or `0b`, or the whole
of a decimal literal) holds a character that is no digit of the radix (the
decimal point of a decimal literal apart), when the digit region is empty, when
it holds more than one `.`, or when it ends in a `.`. Whenever the scanning
loop of `Lexer::lex` starts a round at a digit where such a literal stands,
`Lexer::lex` fails with "invalid integer literal" on the line of that round. -/
theorem C20_malformed_literal_is_rejected (string : List Char) (type : ValueType)
    (body : List Char) (hlen : string.length < 2 ^ 64)
    (hstrip : stripSuffix (substr string 0 (getIntegerLiteralLength string)) = (type, body))
    (hmalformed : hasInvalidDigit body = true ∨ hasNoDigits body = true
      ∨ hasTwoPoints body = true ∨ hasTrailingPoint body = true) :
    parseIntegerLiteral string = none
    ∧ ∀ (code : List Char) (rounds : Nat) (st : LexState) (fuel : Nat),
      lexRounds code rounds ⟨0, 1, []⟩ = some st →
      isdigit (code.getD st.offset nul) = true → cstr code st.offset = string →
      Lexer.lex (fuel + 1 + rounds) (String.mk code)
        = some (.error ⟨"invalid integer literal", st.lineNumber⟩) := by
  have hparse := parse_malformed string type body hlen hstrip hmalformed
  refine ⟨hparse, fun code rounds st fuel hreach hdigit hstring => ?_⟩
  have hlt : st.offset < code.length := by
    by_contra hge
    rw [List.getD_eq_default _ _ (by omega)] at hdigit
    exact absurd hdigit (by decide)
  have hscan : scan code st.offset st.lineNumber = .failed "invalid integer literal" := by
    rw [scan_digit code st.offset st.lineNumber hlt hdigit, hstring, hparse]
  have hloop := lexLoop_of_lexRounds rounds _ st hreach (fuel + 1)
  rw [lexLoop_of_scan_failed fuel st hscan] at hloop
  exact hloop

/-- C20, the literals of the examples: `0b102`, `12AB` and `0x1.5` hold an
invalid digit, `0x`, `0b` and `0xU` have no digits, `1.2.3` has two points,
`1.` and `1.F` end in a point. -/
theorem C20_malformed_literal_is_rejected_witness :
    (parseIntegerLiteral "0b102".toList = none
      ∧ Lexer.lex 1 "0b102" = some (.error ⟨"invalid integer literal", 1⟩))
    ∧ (parseIntegerLiteral "12AB".toList = none
      ∧ Lexer.lex 1 "12AB" = some (.error ⟨"invalid integer literal", 1⟩))
    ∧ (parseIntegerLiteral "0x1.5".toList = none
      ∧ Lexer.lex 1 "0x1.5" = some (.error ⟨"invalid integer literal", 1⟩))
    ∧ (parseIntegerLiteral "0x".toList = none
      ∧ Lexer.lex 1 "0x" = some (.error ⟨"invalid integer literal", 1⟩))
    ∧ (parseIntegerLiteral "0b".toList = none
      ∧ Lexer.lex 1 "0b" = some (.error ⟨"invalid integer literal", 1⟩))
    ∧ (parseIntegerLiteral "0xU".toList = none
      ∧ Lexer.lex 1 "0xU" = some (.error ⟨"invalid integer literal", 1⟩))
    ∧ (parseIntegerLiteral "1.2.3".toList = none
      ∧ Lexer.lex 1 "1.2.3" = some (.error ⟨"invalid integer literal", 1⟩))
    ∧ (parseIntegerLiteral "1.".toList = none
      ∧ Lexer.lex 1 "1." = some (.error ⟨"invalid integer literal", 1⟩))
    ∧ (parseIntegerLiteral "1.F".toList = none
      ∧ Lexer.lex 1 "1.F" = some (.error ⟨"invalid integer literal", 1⟩)) :=
  ⟨⟨(C20_malformed_literal_is_rejected "0b102".toList .Any "0b102".toList (by decide) (by decide!)
      (Or.inl (by decide))).1,
      (C20_malformed_literal_is_rejected "0b102".toList .Any "0b102".toList (by decide) (by decide!)
      (Or.inl (by decide))).2
        "0b102".toList 0 ⟨0, 1, []⟩ 0 rfl (by decide) (by decide!)⟩,
    ⟨(C20_malformed_literal_is_rejected "12AB".toList .Any "12AB".toList (by decide) (by decide!)
      (Or.inl (by decide))).1,
      (C20_malformed_literal_is_rejected "12AB".toList .Any "12AB".toList (by decide) (by decide!)
      (Or.inl (by decide))).2
        "12AB".toList 0 ⟨0, 1, []⟩ 0 rfl (by decide) (by decide!)⟩,
    ⟨(C20_malformed_literal_is_rejected "0x1.5".toList .Any "0x1.5".toList (by decide) (by decide!)
      (Or.inl (by decide))).1,
      (C20_malformed_literal_is_rejected "0x1.5".toList .Any "0x1.5".toList (by decide) (by decide!)
      (Or.inl (by decide))).2
        "0x1.5".toList 0 ⟨0, 1, []⟩ 0 rfl (by decide) (by decide!)⟩,
    ⟨(C20_malformed_literal_is_rejected "0x".toList .Any "0x".toList (by decide) (by decide!)
      (Or.inr (Or.inl (by decide)))).1,
      (C20_malformed_literal_is_rejected "0x".toList .Any "0x".toList (by decide) (by decide!)
      (Or.inr (Or.inl (by decide)))).2
        "0x".toList 0 ⟨0, 1, []⟩ 0 rfl (by decide) (by decide!)⟩,
    ⟨(C20_malformed_literal_is_rejected "0b".toList .Any "0b".toList (by decide) (by decide!)
      (Or.inr (Or.inl (by decide)))).1,
      (C20_malformed_literal_is_rejected "0b".toList .Any "0b".toList (by decide) (by decide!)
      (Or.inr (Or.inl (by decide)))).2
        "0b".toList 0 ⟨0, 1, []⟩ 0 rfl (by decide) (by decide!)⟩,
    ⟨(C20_malformed_literal_is_rejected "0xU".toList .Unsigned32Bit "0x".toList (by decide) (by decide!)
      (Or.inr (Or.inl (by decide)))).1,
      (C20_malformed_literal_is_rejected "0xU".toList .Unsigned32Bit "0x".toList (by decide) (by decide!)
      (Or.inr (Or.inl (by decide)))).2
        "0xU".toList 0 ⟨0, 1, []⟩ 0 rfl (by decide) (by decide!)⟩,
    ⟨(C20_malformed_literal_is_rejected "1.2.3".toList .Any "1.2.3".toList (by decide) (by decide!)
      (Or.inr (Or.inr (Or.inl (by decide))))).1,
      (C20_malformed_literal_is_rejected "1.2.3".toList .Any "1.2.3".toList (by decide) (by decide!)
      (Or.inr (Or.inr (Or.inl (by decide))))).2
        "1.2.3".toList 0 ⟨0, 1, []⟩ 0 rfl (by decide) (by decide!)⟩,
    ⟨(C20_malformed_literal_is_rejected "1.".toList .Any "1.".toList (by decide) (by decide!)
      (Or.inr (Or.inr (Or.inr (by decide))))).1,
      (C20_malformed_literal_is_rejected "1.".toList .Any "1.".toList (by decide) (by decide!)
      (Or.inr (Or.inr (Or.inr (by decide))))).2
        "1.".toList 0 ⟨0, 1, []⟩ 0 rfl (by decide) (by decide!)⟩,
    ⟨(C20_malformed_literal_is_rejected "1.F".toList .Float "1.".toList (by decide) (by decide!)
      (Or.inr (Or.inr (Or.inr (by decide))))).1,
      (C20_malformed_literal_is_rejected "1.F".toList .Float "1.".toList (by decide) (by decide!)
      (Or.inr (Or.inr (Or.inr (by decide))))).2
        "1.F".toList 0 ⟨0, 1, []⟩ 0 rfl (by decide) (by decide!)⟩⟩

/-! ## Identifiers and reserved words -/

/-- C32 (the claim as stated, refuted): the source that is the character
literal of `a` lexes to the `Integer` token of the character and
end-of-program, and the source `0x1F;` lexes to the `Integer` token of 31, the
token of `;` and end-of-program. The run `a` between the quotes and the run
`x1F` behind the `0` start with a letter, consist of letters and digits, and
are followed by a character that is none of these, and no keyword, type or
identifier token is emitted for them: the scanning loop starts no round at
their first character. -/
theorem C32_counterexample :
    (∀ fuel, Lexer.lex (fuel + 2) exampleQuoted
      = some (.ok [⟨.Integer ⟨.Character, .int .chr 97⟩, 1⟩, ⟨.Separator .EndOfProgram, 1⟩]))
    ∧ (∀ fuel, Lexer.lex (fuel + 3) exampleHexadecimal
      = some (.ok [⟨.Integer ⟨.Signed32Bit, .int .s32 31⟩, 1⟩,
          ⟨.Separator .EndOfExpression, 1⟩, ⟨.Separator .EndOfProgram, 1⟩]))
    ∧ exampleQuoted.toList = [quoteCharacter, 'a', quoteCharacter]
    ∧ exampleHexadecimal.toList = ['0', 'x', '1', 'F', ';']
    ∧ isalpha 'a' = true ∧ isWordCharacter quoteCharacter = false
    ∧ isalpha 'x' = true ∧ isWordCharacter '1' = true ∧ isWordCharacter 'F' = true
    ∧ isWordCharacter ';' = false ∧ isalpha '0' = false := by
  refine ⟨fun fuel => ?_, fun fuel => ?_, rfl, rfl, by decide, by decide, by decide, by decide,
    by decide, by decide, by decide⟩
  · have h : lexLoop exampleQuoted.toList 2 ⟨0, 1, []⟩
        = some (.ok [⟨.Integer ⟨.Character, .int .chr 97⟩, 1⟩,
            ⟨.Separator .EndOfProgram, 1⟩]) := by decide!
    have h' := lexLoop_add 2 _ _ h fuel
    rw [Nat.add_comm] at h'
    exact h'
  · have h : lexLoop exampleHexadecimal.toList 3 ⟨0, 1, []⟩
        = some (.ok [⟨.Integer ⟨.Signed32Bit, .int .s32 31⟩, 1⟩,
            ⟨.Separator .EndOfExpression, 1⟩, ⟨.Separator .EndOfProgram, 1⟩]) := by decide!
    have h' := lexLoop_add 3 _ _ h fuel
    rw [Nat.add_comm] at h'
    exact h'

/-- C32 (amended): when the scanning loop of `Lexer::lex` starts a round at the
first character of a run `w` that starts with a letter, consists of letters,
digits and `_`, and is followed by the end of the source or by a character that
is none of these, that round consumes exactly `w` and appends exactly one token
for it, on the line of the round, and the next round starts behind the run;
every successful result of `Lexer::lex` holds that token right behind the
tokens of the rounds before. The token is the one of `w` in the tables of
keywords and built-in types when `w` is one of these words, and otherwise the
`Identifier` token carrying `w` itself. A source that is such a run lexes to
that token followed by end-of-program. -/
theorem C32_identifier_runs (code : List Char) (rounds : Nat) (st : LexState)
    (c : Char) (w rest : List Char)
    (hreach : lexRounds code rounds ⟨0, 1, []⟩ = some st)
    (hcode : code.drop st.offset = c :: w ++ rest) (hc : isalpha c = true)
    (hall : ∀ d ∈ w, isWordCharacter d = true)
    (hrest : ∀ d ∈ rest.head?, isWordCharacter d = false)
    (hbound : st.offset + (w.length + 1) < 2 ^ 32) :
    lexRounds code (rounds + 1) ⟨0, 1, []⟩
      = some ⟨st.offset + (w.length + 1), st.lineNumber,
          st.tokens ++ [⟨identifierToken (String.mk (c :: w)), st.lineNumber⟩]⟩
    ∧ (∀ fuel tokens, Lexer.lex fuel (String.mk code) = some (.ok tokens) →
      ∃ more, tokens
        = st.tokens ++ ⟨identifierToken (String.mk (c :: w)), st.lineNumber⟩ :: more)
    ∧ (String.mk (c :: w) ∉ reservedWords →
      identifierToken (String.mk (c :: w)) = .Identifier (String.mk (c :: w)))
    ∧ reservedWords.map identifierToken
      = [.Keyword .Struct, .Keyword .Union, .Keyword .Using, .Keyword .Enum,
          .Keyword .Bitfield, .Keyword .BigEndian, .Keyword .LittleEndian, .Keyword .If,
          .Keyword .Else, .ValueType .Unsigned8Bit, .ValueType .Signed8Bit,
          .ValueType .Unsigned16Bit, .ValueType .Signed16Bit, .ValueType .Unsigned32Bit,
          .ValueType .Signed32Bit, .ValueType .Unsigned64Bit, .ValueType .Signed64Bit,
          .ValueType .Unsigned128Bit, .ValueType .Signed128Bit, .ValueType .Float,
          .ValueType .Double, .ValueType .Character, .ValueType .Padding]
    ∧ (rounds = 0 → rest = [] →
      ∀ fuel, Lexer.lex (fuel + 2) (String.mk code)
        = some (.ok [⟨identifierToken (String.mk (c :: w)), 1⟩,
            ⟨.Separator .EndOfProgram, 1⟩])) := by
  have hlt : st.offset < code.length := by
    by_contra hge
    rw [List.drop_eq_nil_of_le (by omega)] at hcode
    cases hcode
  have hget : code.getD st.offset nul = c := by
    have h0 : (code.drop st.offset)[0]? = some c := by
      rw [hcode, List.cons_append]
      exact List.getElem?_cons_zero
    rw [List.getElem?_drop, Nat.add_zero] at h0
    rw [List.getD_eq_getElem?_getD, h0]
    rfl
  have hscan : scan code st.offset st.lineNumber
      = .advance (st.offset + (w.length + 1)) st.lineNumber
          (some (identifierToken (String.mk (c :: w)))) := by
    rw [scan_alpha code st.offset st.lineNumber hlt (by rw [hget]; exact hc),
      matchTillInvalid_run hcode hc hall hrest, List.length_cons, u32, Nat.mod_eq_of_lt hbound]
  have hnext := lexRounds_succ rounds _ st _ hreach (lexStep_of_scan_some st hscan)
  refine ⟨hnext, ?_, identifierToken_of_not_reserved _, by decide, ?_⟩
  · intro fuel tokens htokens
    obtain ⟨fuel', _, hloop⟩ := lexLoop_some_of_lexRounds (rounds + 1) _ _ hnext fuel _ htokens
    obtain ⟨more, hmore⟩ := lexLoop_tokens fuel' _ tokens hloop
    exact ⟨more, by rw [hmore, List.append_assoc]; rfl⟩
  · intro h0 hnil fuel
    subst h0 hnil
    cases hreach
    rw [Nat.zero_add] at hscan
    have hlen : code.length = w.length + 1 := by
      rw [List.drop_zero, List.append_nil] at hcode
      rw [hcode, List.length_cons]
    have hlex := lexLoop_token_then_end fuel hscan (scan_end 1 (by omega))
    exact hlex

theorem C32_identifier_runs_witness :
    lexRounds exampleWord.toList 3 ⟨0, 1, []⟩
      = some ⟨9, 1, [⟨.Identifier "a", 1⟩, ⟨.Identifier "structs", 1⟩]⟩
    ∧ Lexer.lex 2 "if_" = some (.ok [⟨.Identifier "if_", 1⟩, ⟨.Separator .EndOfProgram, 1⟩])
    ∧ Lexer.lex 2 "u8x" = some (.ok [⟨.Identifier "u8x", 1⟩, ⟨.Separator .EndOfProgram, 1⟩])
    ∧ Lexer.lex 2 "u8" = some (.ok [⟨.ValueType .Unsigned8Bit, 1⟩,
        ⟨.Separator .EndOfProgram, 1⟩]) :=
  ⟨(C32_identifier_runs exampleWord.toList 2 ⟨2, 1, [⟨.Identifier "a", 1⟩]⟩ 's'
      "tructs".toList [';'] (by decide!) rfl (by decide) (by decide) (by decide) (by decide)).1,
    (C32_identifier_runs "if_".toList 0 ⟨0, 1, []⟩ 'i' "f_".toList [] rfl rfl (by decide)
      (by decide) (by decide) (by decide)).2.2.2.2 rfl rfl 0,
    (C32_identifier_runs "u8x".toList 0 ⟨0, 1, []⟩ 'u' "8x".toList [] rfl rfl (by decide)
      (by decide) (by decide) (by decide)).2.2.2.2 rfl rfl 0,
    (C32_identifier_runs "u8".toList 0 ⟨0, 1, []⟩ 'u' "8".toList [] rfl rfl (by decide)
      (by decide) (by decide) (by decide)).2.2.2.2 rfl rfl 0⟩

/-! ## Line numbers -/

end hex.lang
